import Mathlib

/-!
# A shallow embedding of `myHeap.c`

The allocator of `src/myHeap.c` manages one region obtained from `mmap`.  Every
memory access it makes is an aligned access to an `int size_status`, so memory
is modelled as a map from byte addresses to the 32-bit word stored there.

Machine integers are mathematical integers: `int` values and addresses are
`Int`.  The `int` arithmetic of `myInit`, whose operands come from the caller
and from `getpagesize`, wraps to 32 bits as `i32`; elsewhere the model is exact
for every execution in which no C operation wraps, which is the case whenever
addresses stay below `2 ^ 32` and words stay inside the range of `int`.  Bit
tests are written with `%`, which on `Int` is the remainder in `[0, n)` and
therefore reads the two's complement bits of negative words too.  The explicit
`(unsigned int)` casts of `myFree` are kept as `u32`.

`while (1)` in `myAlloc` is a loop bounded by fuel: `none` means that the loop
is still running when the fuel is used up.
-/

namespace MyHeap

/-- The globals of `myHeap.c`, the `static` of `myInit` and the memory. -/
structure Heap where
  /-- the word stored at a byte address -/
  mem : Int → Int
  /-- the global `blockHeader *heapStart` -/
  heapStart : Int
  /-- the global `int allocsize` -/
  allocsize : Int
  /-- the global `blockHeader *lastAlloc`, `0` is `NULL` -/
  lastAlloc : Int
  /-- the `static int allocated_once` of `myInit` -/
  allocated_once : Int

/-- The constant `MINIMUM_BLOCK_SIZE`. -/
def MINIMUM_BLOCK_SIZE : Int := 8

/-- The constant `DOUBLE_ALIGNMENT_SIZE`. -/
def DOUBLE_ALIGNMENT_SIZE : Int := 8

/-- The value of `sizeof(blockHeader)`. -/
def sizeofBlockHeader : Int := 4

/-- Conversion to `unsigned int`. -/
def u32 (x : Int) : Int := x % 4294967296

/-- The `int` that holds an arithmetic result `x`: the value in
`[-2 ^ 31, 2 ^ 31)` that differs from `x` by a multiple of `2 ^ 32`. -/
def i32 (x : Int) : Int := (x + 2147483648) % 4294967296 - 2147483648

/-- The store `((blockHeader*)a)->size_status = v`. -/
def write (m : Int → Int) (a v : Int) (x : Int) : Int :=
  if x = a then v else m x

/-- The macro `GET(ptr)`; the unsigned reading of the word differs from the word by a
multiple of `2 ^ 32`, which no use below can see. -/
def GET (m : Int → Int) (ptr : Int) : Int := m ptr

/-- The macro `GET_SIZE(ptr)`, that is `GET(ptr) & ~0x7`. -/
def GET_SIZE (m : Int → Int) (ptr : Int) : Int := GET m ptr - GET m ptr % 8

/-- The macro `GET_ALLOC(ptr)`, that is `GET(ptr) & 0x1`. -/
def GET_ALLOC (m : Int → Int) (ptr : Int) : Int := GET m ptr % 2

/-- The macro `GET_PREV(ptr)`, that is `GET(ptr) & 0x2`. -/
def GET_PREV (m : Int → Int) (ptr : Int) : Int := if 2 ≤ GET m ptr % 4 then 2 else 0

/-- The function `coalesce(ptr)`: the return value is always `0`. -/
def coalesce (s : Heap) (ptr : Int) : Int × Heap :=
  let currHeader := ptr - 4
  let nextHeader := currHeader + GET_SIZE s.mem currHeader
  -- If prev used, next used
  if GET_PREV s.mem currHeader ≠ 0 ∧ GET_ALLOC s.mem nextHeader ≠ 0 then
    (0, { s with mem := write s.mem nextHeader (s.mem nextHeader - 2) })
  -- If prev used, next free
  else if GET_PREV s.mem currHeader ≠ 0 ∧ ¬ (GET_ALLOC s.mem nextHeader ≠ 0) then
    let m1 := write s.mem currHeader (s.mem currHeader + GET_SIZE s.mem nextHeader)
    let newFooter := currHeader + GET_SIZE m1 currHeader - 4
    (0, { s with mem := write m1 newFooter (m1 currHeader) })
  else
    let prevFooter := currHeader - 4
    let prevHeader := prevFooter - GET_SIZE s.mem prevFooter + 4
    -- If prev free, next used
    if ¬ (GET_PREV s.mem currHeader ≠ 0) ∧ GET_ALLOC s.mem nextHeader ≠ 0 then
      let m1 := write s.mem prevHeader (s.mem prevHeader + GET_SIZE s.mem currHeader)
      let newFooter := prevHeader + GET_SIZE m1 prevHeader - 4
      let m2 := write m1 newFooter (m1 prevHeader)
      let newNextHeader := prevHeader + GET_SIZE m2 prevHeader
      (0, { s with mem := write m2 newNextHeader (m2 newNextHeader - 2) })
    else
      let m1 := write s.mem prevHeader
        (s.mem prevHeader + (GET_SIZE s.mem currHeader + GET_SIZE s.mem nextHeader))
      let newFooter := prevHeader + GET_SIZE m1 prevHeader - 4
      (0, { s with mem := write m1 newFooter (m1 prevHeader) })

/-- The block size `myAlloc` computes from the requested payload size. -/
def requestedBlocksize (size : Int) : Int :=
  let requested_blocksize := size + sizeofBlockHeader
  if requested_blocksize ≤ MINIMUM_BLOCK_SIZE then MINIMUM_BLOCK_SIZE
  else (requested_blocksize + DOUBLE_ALIGNMENT_SIZE - 1) / DOUBLE_ALIGNMENT_SIZE
    * DOUBLE_ALIGNMENT_SIZE

/-- The `while (1)` loop of `myAlloc`, started with `current`.  The heap `s`
already carries the cursor the loop compares with.  The result is the returned
pointer (`0` for `NULL`) and the heap after the call. -/
def allocLoop (s : Heap) (requested_blocksize : Int) : Nat → Int → Option (Int × Heap)
  | 0, _ => none
  | fuel + 1, current =>
    let curr_begin := current
    let curr_size0 := s.mem current
    -- if (curr_size & 1)
    let curr_a_bit : Int := if curr_size0 % 2 = 1 then 1 else 0
    let curr_size1 := if curr_size0 % 2 = 1 then curr_size0 - 1 else curr_size0
    -- if (curr_size & 2)
    let curr_p_bit : Int := if 2 ≤ curr_size1 % 4 then 1 else 0
    let curr_size := if 2 ≤ curr_size1 % 4 then curr_size1 - 2 else curr_size1
    if curr_a_bit = 0 ∧ curr_size = requested_blocksize then
      -- perfect fit
      let m1 := write s.mem curr_begin requested_blocksize
      let m2 := write m1 current (m1 current + 1)
      let m3 := if curr_p_bit = 1 then write m2 current (m2 current + 2) else m2
      some (curr_begin + 4, { s with mem := m3, lastAlloc := curr_begin })
    else if curr_a_bit = 0 ∧ curr_size > requested_blocksize
        ∧ curr_size - requested_blocksize ≥ MINIMUM_BLOCK_SIZE then
      -- split
      let m1 := write s.mem current requested_blocksize
      let m2 := write m1 current (m1 current + 1)
      let m3 := if curr_p_bit = 1 then write m2 current (m2 current + 2) else m2
      let newBlockSize := curr_size - requested_blocksize
      let newBlock := curr_begin + requested_blocksize
      let m4 := write m3 newBlock newBlockSize
      let m5 := write m4 newBlock (m4 newBlock + 2)
      let footer := newBlock + newBlockSize - 4
      let m6 := write m5 footer newBlockSize
      let m7 := write m6 footer (m6 footer + 2)
      some (curr_begin + 4, { s with mem := m7, lastAlloc := newBlock })
    else
      -- set current to next block since we did not find fit yet
      let current1 := current + curr_size
      let current2 := if s.mem current1 = 1 then s.heapStart else current1
      if current2 = s.lastAlloc then some (0, s)
      else allocLoop s requested_blocksize fuel current2

/-- The function `myAlloc(size)` with `fuel` iterations of its loop at most. -/
def myAlloc (fuel : Nat) (s : Heap) (size : Int) : Option (Int × Heap) :=
  -- only happens on first call to myAlloc
  let s1 : Heap := if s.lastAlloc = 0 then { s with lastAlloc := s.heapStart } else s
  if size ≤ 0 then some (0, s1)
  else if size > s1.allocsize then some (0, s1)
  else allocLoop s1 (requestedBlocksize size) fuel s1.lastAlloc

/-- The function `myFree(ptr)`.  `((int)ptr) % 8 == 0` holds exactly when the address is a
multiple of 8, whatever the sign of the cast. -/
def myFree (s : Heap) (ptr : Int) : Int × Heap :=
  let currHeader := ptr - 4
  if ptr = 0 then (-1, s)
  else if ¬ (ptr % 8 = 0) then (-1, s)
  else if ¬ (u32 ptr ≥ u32 s.heapStart ∧
      u32 ptr ≤ u32 (u32 s.heapStart + u32 s.allocsize)) then (-1, s)
  else if GET_ALLOC s.mem currHeader = 0 then (-1, s)
  else
    let m1 := write s.mem currHeader (s.mem currHeader - 1)
    let currFooter := currHeader + GET_SIZE m1 currHeader - 4
    let m2 := write m1 currFooter (m1 currHeader)
    coalesce { s with mem := m2 } ptr

/-- The function `myInit(sizeOfRegion)`.  The environment is given by `pagesize` (the value
of `getpagesize()`), `fd` (the value of `open`) and `mmap_ptr` (the address
`mmap` returns, `none` for `MAP_FAILED`); the mapped bytes are zero.  The sums
and differences of `int`s wrap as `i32`; the length handed to `mmap` is the
`int allocsize` converted to the unsigned `size_t`.  For a positive page size
`%` on `Int` is the `%` of C, the size being positive. -/
def myInit (s : Heap) (pagesize fd : Int) (mmap_ptr : Option Int) (sizeOfRegion : Int) :
    Int × Heap :=
  if 0 ≠ s.allocated_once then (-1, s)
  else if sizeOfRegion ≤ 0 then (-1, s)
  else
    let padsize0 := sizeOfRegion % pagesize
    let padsize := i32 (pagesize - padsize0) % pagesize
    let allocsize0 := i32 (sizeOfRegion + padsize)
    let s1 : Heap := { s with allocsize := allocsize0 }
    if -1 = fd then (-1, s1)
    else match mmap_ptr with
      | none => (-1, { s1 with allocated_once := 0 })
      | some p =>
        let m0 : Int → Int := fun x => if p ≤ x ∧ x < p + u32 allocsize0 then 0 else s.mem x
        -- for double word alignment and end mark
        let allocsize := i32 (allocsize0 - 8)
        let heapStart := p + 4
        let endMark := heapStart + allocsize
        let m1 := write m0 endMark 1
        let m2 := write m1 heapStart allocsize
        let m3 := write m2 heapStart (i32 (m2 heapStart + 2))
        let footer := heapStart + allocsize - 4
        let m4 := write m3 footer allocsize
        (0, { mem := m4, heapStart := heapStart, allocsize := allocsize,
              lastAlloc := s1.lastAlloc, allocated_once := 1 })

/-- The state of a process before `myInit`: the globals are zero. -/
def Heap.fresh : Heap :=
  { mem := fun _ => 0, heapStart := 0, allocsize := 0, lastAlloc := 0, allocated_once := 0 }

/-! ## Runs of calls -/

/-- A call of the interface: `myAlloc(size)` or `myFree(ptr)`. -/
inductive Call where
  | alloc (size : Int)
  | free (ptr : Int)

/-- Runs the calls in order, each `myAlloc` with `fuel` iterations at most.
The results are the returned pointer of a `myAlloc` and the returned code of a
`myFree`; a `myAlloc` whose loop is still running gives `none` and nothing
after it runs. -/
def runCalls (fuel : Nat) (s : Heap) : List Call → List (Option Int) × Heap
  | [] => ([], s)
  | Call.alloc size :: rest =>
    match myAlloc fuel s size with
    | some r => ((some r.1 :: (runCalls fuel r.2 rest).1), (runCalls fuel r.2 rest).2)
    | none => ([none], s)
  | Call.free ptr :: rest =>
    ((some (myFree s ptr).1 :: (runCalls fuel (myFree s ptr).2 rest).1),
      (runCalls fuel (myFree s ptr).2 rest).2)

/-- The heap after `myInit(4096)` in a new process, with 4096-byte pages and
the region mapped at the page-aligned address 4096, as in the tests. -/
def initHeap : Heap := (myInit Heap.fresh 4096 3 (some 4096) 4096).2

/-- The heap after `myInit(4096); p = myAlloc(4); myFree(p)`, where `p` is 4104. -/
def allocFreeHeap : Heap := (runCalls 1 initHeap [Call.alloc 4, Call.free 4104]).2

/-- An initialised heap: `myInit` has succeeded and the region, end mark
included, lies in the 32-bit address space above `NULL`. -/
structure Initialised (s : Heap) : Prop where
  once : s.allocated_once = 1
  start : 0 < s.heapStart
  size : 0 ≤ s.allocsize
  top : s.heapStart + s.allocsize + 4 ≤ 4294967296

/-- From the words of the spec: `n` rounded up to the next multiple of `p`. -/
def roundUpTo (n p : Int) : Int := (n + p - 1) / p * p

/-- The four checks of `myFree` all pass for `ptr`. -/
def FreeChecks (s : Heap) (ptr : Int) : Prop :=
  ptr ≠ 0 ∧ ptr % 8 = 0 ∧
  (u32 ptr ≥ u32 s.heapStart ∧ u32 ptr ≤ u32 (u32 s.heapStart + u32 s.allocsize)) ∧
  GET_ALLOC s.mem (ptr - 4) ≠ 0

/-- The heap `myFree` hands to `coalesce`: allocated bit cleared, footer
written. -/
def freedHeap (s : Heap) (ptr : Int) : Heap :=
  let m1 := write s.mem (ptr - 4) (s.mem (ptr - 4) - 1)
  let currFooter := ptr - 4 + GET_SIZE m1 (ptr - 4) - 4
  { s with mem := write m1 currFooter (m1 (ptr - 4)) }

/-! ## Tilings -/

/-- The blocks of sizes `bs` lie one after the other from address `a` to
address `e`: each header, its two flag bits cleared, holds the size of its
block, a positive multiple of 8. -/
def Tiles (m : Int → Int) : Int → List Int → Int → Prop
  | a, [], e => a = e
  | a, sz :: rest, e => m a - m a % 4 = sz ∧ 0 < sz ∧ sz % 8 = 0 ∧ Tiles m (a + sz) rest e

/-- The start addresses of the blocks of sizes `bs` laid out from `a`. -/
def blockStarts : Int → List Int → List Int
  | _, [] => []
  | a, sz :: rest => a :: blockStarts (a + sz) rest

/-- A well-formed heap: the blocks `pre ++ post` tile the region from
`heapStart` to the end mark, and the cursor is the start of the first block of
`post`. -/
structure WellFormed (s : Heap) (pre post : List Int) : Prop where
  start : 0 < s.heapStart
  before : Tiles s.mem s.heapStart pre s.lastAlloc
  cursor : post ≠ []
  after : Tiles s.mem s.lastAlloc post (s.heapStart + s.allocsize)
  endMark : s.mem (s.heapStart + s.allocsize) = 1

/-- The block at `a` cannot serve a request of block size `rb`: it is allocated
or smaller than `rb`. -/
def Unfit (m : Int → Int) (rb a : Int) : Prop := GET_ALLOC m a = 0 → m a - m a % 4 < rb

/-- The heap of scenario B after `myInit(4096); myAlloc(2048)`. -/
def scenarioB : Heap := (runCalls 1 initHeap [Call.alloc 2048]).2

/-! ## What a call of `myAlloc` does -/

/-- The heap after the first statement of `myAlloc`: a cursor that is still
`NULL` is set to `heapStart`. -/
def cursorHeap (s : Heap) : Heap :=
  if s.lastAlloc = 0 then { s with lastAlloc := s.heapStart } else s

/-- The loop of `myAlloc` takes the block at `a` for a request of block size
`rb`: the block is free and its size is `rb` or exceeds `rb` by at least
`MINIMUM_BLOCK_SIZE`. -/
def Usable (m : Int → Int) (rb a : Int) : Prop :=
  m a % 2 = 0 ∧ (m a - m a % 4 = rb ∨ (m a - m a % 4 > rb ∧ m a - m a % 4 - rb ≥ 8))

instance (m : Int → Int) (rb a : Int) : Decidable (Usable m rb a) := by
  unfold Usable
  infer_instance

/-- The heap the perfect-fit branch of `myAlloc` leaves for the block at `b`. -/
def exactHeap (s : Heap) (rb b : Int) : Heap :=
  let m := write s.mem b (rb + 1 + GET_PREV s.mem b)
  { s with mem := m, lastAlloc := b }

/-- The heap the split branch of `myAlloc` leaves for the block at `b`. -/
def splitHeap (s : Heap) (rb b : Int) : Heap :=
  let size := s.mem b - s.mem b % 4
  let m1 := write s.mem b (rb + 1 + GET_PREV s.mem b)
  let m2 := write m1 (b + rb) (size - rb + 2)
  let m3 := write m2 (b + size - 4) (size - rb + 2)
  { s with mem := m3, lastAlloc := b + rb }

/-- The heap `myAlloc` leaves when it takes the block at `b`. -/
def chosenHeap (s : Heap) (rb b : Int) : Heap :=
  if s.mem b - s.mem b % 4 = rb then exactHeap s rb b else splitHeap s rb b

/-- The block the loop of `myAlloc` goes to after the block at `c`. -/
def nextBlock (s : Heap) (c : Int) : Int :=
  if s.mem (c + (s.mem c - s.mem c % 4)) = 1 then s.heapStart
  else c + (s.mem c - s.mem c % 4)

/-- The outcome of a search for a block: the block found, if any, is taken
and the pointer past its header is returned. -/
def fitResult (s : Heap) (rb : Int) (found : Option Int) (otherwise : Option (Int × Heap)) :
    Option (Int × Heap) :=
  match found with
  | some b => some (b + 4, chosenHeap s rb b)
  | none => otherwise

/-- From the words of the spec: next-fit.  The first usable block among the
block starts `starts`, given in scan order, is taken; `NULL` is returned and
nothing changes when there is none. -/
def nextFit (s : Heap) (rb : Int) (starts : List Int) : Option (Int × Heap) :=
  fitResult s rb (starts.find? (fun a => decide (Usable s.mem rb a))) (some (0, s))

/-- The block starts in scan order: from the cursor to the end mark, then from
`heapStart` to the cursor. -/
def scanOrder (s : Heap) (pre post : List Int) : List Int :=
  blockStarts s.lastAlloc post ++ blockStarts s.heapStart pre

/-- From the words of the claim: plain next-fit.  The first free block in scan
order whose size is at least `rb` is taken. -/
def plainNextFit (s : Heap) (rb : Int) (starts : List Int) : Option (Int × Heap) :=
  fitResult s rb
    (starts.find? (fun a => decide (GET_ALLOC s.mem a = 0 ∧ rb ≤ s.mem a - s.mem a % 4)))
    (some (0, s))

/-! ## What a call of `myFree` does -/

/-- The header after the block of `ptr`, as `coalesce` computes it. -/
def nextHeader (s : Heap) (ptr : Int) : Int := ptr - 4 + GET_SIZE s.mem (ptr - 4)

/-- What well-formedness says around the allocated block `B` of `ptr`: the
header of `B` has bit 2 clear and a positive size; the header `N` after `B`,
that of a block or the end mark, has bit 2 clear; if `N` is free, it has a
positive size and the header after it has its prev_allocated bit clear; and if
the prev_allocated bit of `B` is clear, the block `P` before `B` is free, has
size `sP`, and its footer, the word before `B`, carries that size. -/
structure FreeSite (s : Heap) (ptr sP : Int) : Prop where
  checks : FreeChecks s ptr
  header : s.mem (ptr - 4) % 8 < 4
  size : 0 < GET_SIZE s.mem (ptr - 4)
  next : s.mem (nextHeader s ptr) % 8 < 4
  nextSize : GET_ALLOC s.mem (nextHeader s ptr) = 0 → 0 < GET_SIZE s.mem (nextHeader s ptr)
  afterNext : GET_ALLOC s.mem (nextHeader s ptr) = 0 →
    GET_PREV s.mem (nextHeader s ptr + GET_SIZE s.mem (nextHeader s ptr)) = 0
  prev : GET_PREV s.mem (ptr - 4) = 0 →
    0 < sP ∧ GET_SIZE s.mem (ptr - 4 - 4) = sP ∧ GET_ALLOC s.mem (ptr - 4 - sP) = 0 ∧
    s.mem (ptr - 4 - sP) % 8 < 4 ∧ GET_SIZE s.mem (ptr - 4 - sP) = sP

/-- From the words of the claim: the free block that results starts at `P` if
`P` was free and at `B` otherwise. -/
def mergedStart (s : Heap) (ptr sP : Int) : Int :=
  if GET_PREV s.mem (ptr - 4) = 0 then ptr - 4 - sP else ptr - 4

/-- From the words of the claim: the size of `B`, plus the size of `P` if `P`
was free, plus the size of `N` if `N` was free. -/
def mergedSize (s : Heap) (ptr sP : Int) : Int :=
  GET_SIZE s.mem (ptr - 4) + (if GET_PREV s.mem (ptr - 4) = 0 then sP else 0)
    + (if GET_ALLOC s.mem (nextHeader s ptr) = 0 then GET_SIZE s.mem (nextHeader s ptr) else 0)

/-- The heap after `myInit(4096)`, three calls `myAlloc(4)`, which return 4104,
4112 and 4120, and `myFree(4104)`. -/
def threeBlocksHeap : Heap :=
  (runCalls 1 initHeap [Call.alloc 4, Call.alloc 4, Call.alloc 4, Call.free 4104]).2

/-- The heap after `myInit(4096)`, `myAlloc(4)` and `myAlloc(4076)`, which
return 4104 and 4112: the block of 4112 ends at the end mark. -/
def lastBlockHeap : Heap := (runCalls 1 initHeap [Call.alloc 4, Call.alloc 4076]).2

/-- The heap after `myInit(4096)`, `myAlloc(2044)` and `myAlloc(2036)`, which
return 4104 and 6152, and `myFree(4104)`: a free block of 2048 bytes at 4100, an
allocated block of 2040 bytes at 6148, and the cursor on the allocated block. -/
def usedCursorHeap : Heap :=
  (runCalls 2 initHeap [Call.alloc 2044, Call.alloc 2036, Call.free 4104]).2

/-- Along the blocks of sizes `bs` from `a`: every header has bit 2 clear, a
free block has its size in the word of its last 4 bytes and is followed by a
header with the prev_allocated bit clear, and an allocated block that is not
the last is followed by a header with the prev_allocated bit set. -/
def Linked (m : Int → Int) : Int → List Int → Prop
  | _, [] => True
  | a, sz :: rest =>
    m a % 8 < 4 ∧
    (GET_ALLOC m a = 0 → GET_SIZE m (a + sz - 4) = sz) ∧
    (GET_ALLOC m a = 0 → GET_PREV m (a + sz) = 0) ∧
    (rest ≠ [] → GET_ALLOC m a ≠ 0 → GET_PREV m (a + sz) ≠ 0) ∧
    Linked m (a + sz) rest

/-- Well-formedness of the whole heap: it was initialised, its first header is
at an address that is 4 modulo 8, the blocks of sizes `bs` tile it from
`heapStart` to the end mark, which is 1, the first header has its
prev_allocated bit set, and the headers and footers are `Linked`. -/
structure Consistent (s : Heap) (bs : List Int) : Prop where
  aligned : s.heapStart % 8 = 4
  region : Initialised s
  tiles : Tiles s.mem s.heapStart bs (s.heapStart + s.allocsize)
  endMark : s.mem (s.heapStart + s.allocsize) = 1
  first : GET_PREV s.mem s.heapStart ≠ 0
  linked : Linked s.mem s.heapStart bs

/-- What `Linked` says of the block at `x` in a tiling that ends at `e`. -/
def LinkedAt (m : Int → Int) (e x : Int) : Prop :=
  m x % 8 < 4 ∧
  (GET_ALLOC m x = 0 → GET_SIZE m (x + GET_SIZE m x - 4) = GET_SIZE m x) ∧
  (GET_ALLOC m x = 0 → GET_PREV m (x + GET_SIZE m x) = 0) ∧
  (x + GET_SIZE m x ≠ e → GET_ALLOC m x ≠ 0 → GET_PREV m (x + GET_SIZE m x) ≠ 0)

/-- The footer of the block at `x`, the word in its last 4 bytes, is a
duplicate of its header when the block is free. -/
def FooterMatches (m : Int → Int) (x : Int) : Prop :=
  GET_ALLOC m x = 0 → m (x + GET_SIZE m x - 4) = m x

instance (m : Int → Int) (x : Int) : Decidable (FooterMatches m x) := by
  unfold FooterMatches
  infer_instance

/-! ## Stores -/

theorem write_eq (m : Int → Int) (a v : Int) : write m a v a = v := by
  unfold write
  rw [if_pos rfl]

theorem write_ne (m : Int → Int) (a v c : Int) (h : c ≠ a) : write m a v c = m c := by
  unfold write
  rw [if_neg h]

theorem write_parity (m : Int → Int) (a v c : Int) (hv : v % 2 = m a % 2) :
    write m a v c % 2 = m c % 2 := by
  unfold write
  split_ifs with e
  · rw [e, hv]
  · rfl

theorem parity_write_ne {m : Int → Int} {a v c r : Int} (hne : c ≠ a) (h : m c % 2 = r) :
    write m a v c % 2 = r := by
  rw [write_ne m a v c hne]
  exact h

theorem parity_write {m : Int → Int} {a v c r : Int} (hv : v % 2 = m a % 2)
    (h : m c % 2 = r) : write m a v c % 2 = r := by
  rw [write_parity m a v c hv]
  exact h

/-! ## A cursor inside a merged block, an end mark overwritten -/

/-- C1, the code at a failing input: after `myInit(4096)`, the calls
`p1 = myAlloc(4)`, `myFree(p1)`, `p2 = myAlloc(4)`, `p3 = myAlloc(4084)` return
4104, 0, 4112 and 4104.  The allocations `p2` and `p3` are both live and the
payload `[p2, p2 + 4)` lies inside the payload `[p3, p3 + 4084)`. -/
theorem C1_live_payloads_overlap :
    (myInit Heap.fresh 4096 3 (some 4096) 4096).1 = 0 ∧
    ∃ p2 p3 : Int,
      (runCalls 2 initHeap
        [Call.alloc 4, Call.free 4104, Call.alloc 4, Call.alloc 4084]).1
        = [some 4104, some 0, some p2, some p3] ∧
      p2 ≠ 0 ∧ p3 ≠ 0 ∧ p3 ≤ p2 ∧ p2 + 4 ≤ p3 + 4084 :=
  ⟨by decide, 4112, 4104, by decide, by decide, by decide, by decide, by decide⟩

theorem allocFreeHeap_words :
    allocFreeHeap.mem 4100 = 4090 ∧ allocFreeHeap.mem 4108 = 4082 ∧
    allocFreeHeap.mem 8188 = 1 ∧ allocFreeHeap.heapStart = 4100 ∧
    allocFreeHeap.lastAlloc = 4108 ∧ allocFreeHeap.allocsize = 4088 := by
  decide

theorem allocLoop_allocFreeHeap_start (fuel : Nat) :
    allocLoop allocFreeHeap 4096 fuel 4100 = none := by
  induction fuel with
  | zero => rfl
  | succ n ih =>
    obtain ⟨h1, _, h2, h3, h4, _⟩ := allocFreeHeap_words
    simp [allocLoop, h1, h2, h3, h4, MINIMUM_BLOCK_SIZE, ih]

/-- C2, the code at a failing input: after `myInit(4096)`, `p = myAlloc(4)`
(which returns 4104) and `myFree(p)` (which returns 0), the loop of
`myAlloc(4088)` is still running after any number of iterations. -/
theorem C2_myAlloc_never_returns :
    (myInit Heap.fresh 4096 3 (some 4096) 4096).1 = 0 ∧
    (runCalls 1 initHeap [Call.alloc 4, Call.free 4104]).1 = [some 4104, some 0] ∧
    ∀ fuel : Nat, myAlloc fuel allocFreeHeap 4088 = none := by
  refine ⟨by decide, by decide, ?_⟩
  intro fuel
  obtain ⟨_, h1, h2, h3, h4, h5⟩ := allocFreeHeap_words
  have h6 : requestedBlocksize 4088 = 4096 := by decide
  cases fuel with
  | zero => simp [myAlloc, h4, h5, h6, allocLoop]
  | succ n =>
    simp [myAlloc, h4, h5, h6, allocLoop, h1, h2, h3, MINIMUM_BLOCK_SIZE,
      allocLoop_allocFreeHeap_start]

/-- C3, the code at a failing input: with the region mapped at the page-aligned
address 4096, so that `heapStart` is 4 modulo 8, the calls `p = myAlloc(4084)`,
`myFree(p)`, `myAlloc(4084)` return 4104, 0, 4104 and a further `myAlloc(4084)`
returns the non-`NULL` pointer 8188, which is 4 modulo 8. -/
theorem C3_unaligned_pointer :
    (myInit Heap.fresh 4096 3 (some 4096) 4096).1 = 0 ∧
    initHeap.heapStart % 8 = 4 ∧
    ∃ p : Int,
      (runCalls 3 initHeap
        [Call.alloc 4084, Call.free 4104, Call.alloc 4084, Call.alloc 4084]).1
        = [some 4104, some 0, some 4104, some p] ∧
      p ≠ 0 ∧ p % 8 = 4 :=
  ⟨by decide, by decide, 8188, by decide, by decide, by decide⟩

/-! ## Freeing twice -/

theorem coalesce_fields (s : Heap) (ptr : Int) :
    (coalesce s ptr).1 = 0 ∧ (coalesce s ptr).2.heapStart = s.heapStart ∧
    (coalesce s ptr).2.allocsize = s.allocsize ∧
    (coalesce s ptr).2.lastAlloc = s.lastAlloc ∧
    (coalesce s ptr).2.allocated_once = s.allocated_once := by
  unfold coalesce
  simp only
  split_ifs <;> simp

/-- No store of `coalesce` changes the allocated bit of the header of the block
it is called on. -/
theorem coalesce_parity (s : Heap) (ptr : Int) :
    (coalesce s ptr).2.mem (ptr - 4) % 2 = s.mem (ptr - 4) % 2 := by
  unfold coalesce
  simp only []
  split_ifs
  · refine parity_write ?_ rfl
    omega
  · refine parity_write_ne ?_ (parity_write ?_ rfl) <;> simp only [GET_SIZE, GET] <;> omega
  · refine parity_write ?_ (parity_write_ne ?_ (parity_write ?_ rfl)) <;>
      simp only [GET_SIZE, GET] <;> omega
  · refine parity_write_ne ?_ (parity_write ?_ rfl) <;> simp only [GET_SIZE, GET] <;> omega

theorem myFree_of_checks (s : Heap) (ptr : Int) (h : FreeChecks s ptr) :
    myFree s ptr = coalesce (freedHeap s ptr) ptr := by
  obtain ⟨h1, h2, h3, h4⟩ := h
  unfold myFree freedHeap
  simp only []
  split_ifs <;> first | rfl | (exfalso; tauto)

theorem myFree_of_not_checks (s : Heap) (ptr : Int) (h : ¬ FreeChecks s ptr) :
    myFree s ptr = (-1, s) := by
  unfold FreeChecks at h
  unfold myFree
  simp only []
  split_ifs <;> first | rfl | (exfalso; tauto)

theorem myFree_fields (s : Heap) (ptr : Int) :
    (myFree s ptr).2.heapStart = s.heapStart ∧ (myFree s ptr).2.allocsize = s.allocsize ∧
    (myFree s ptr).2.lastAlloc = s.lastAlloc := by
  by_cases h : FreeChecks s ptr
  · rw [myFree_of_checks s ptr h]
    obtain ⟨_, h1, h2, h3, _⟩ := coalesce_fields (freedHeap s ptr) ptr
    exact ⟨h1, h2, h3⟩
  · rw [myFree_of_not_checks s ptr h]
    exact ⟨rfl, rfl, rfl⟩

/-- A `myFree` that returns 0 passed its checks and leaves the header of its
block with the allocated bit clear. -/
theorem myFree_ok_inv (s : Heap) (p : Int) (h : (myFree s p).1 = 0) :
    FreeChecks s p ∧ (myFree s p).2.mem (p - 4) % 2 = 0 := by
  by_cases hc : FreeChecks s p
  · refine ⟨hc, ?_⟩
    rw [myFree_of_checks s p hc, coalesce_parity]
    obtain ⟨_, _, _, h4⟩ := hc
    simp only [GET_ALLOC, GET] at h4
    unfold freedHeap
    refine parity_write_ne ?_ ?_
    · simp only [GET_SIZE, GET]
      omega
    · rw [write_eq]
      omega
  · rw [myFree_of_not_checks s p hc] at h
    simp at h

/-- C4: in every heap state and for every pointer `p`, if `myFree(p)` returns 0
then a `myFree(p)` that follows immediately returns -1 and leaves the heap, its
memory and cursor included, exactly as the first call left it. -/
theorem C4_second_myFree_fails (s : Heap) (p : Int) (h : (myFree s p).1 = 0) :
    myFree (myFree s p).2 p = (-1, (myFree s p).2) := by
  have hf := myFree_fields s p
  have hv := myFree_ok_inv s p h
  apply myFree_of_not_checks
  rintro ⟨_, _, _, h4⟩
  exact h4 hv.2

/-- C4 at `myInit(4096); p = myAlloc(4)`: the first `myFree(p)` returns 0 and
the second returns -1 without changing the heap. -/
theorem C4_second_myFree_fails_witness :
    (myFree (runCalls 1 initHeap [Call.alloc 4]).2 4104).1 = 0 ∧
    myFree (myFree (runCalls 1 initHeap [Call.alloc 4]).2 4104).2 4104
      = (-1, (myFree (runCalls 1 initHeap [Call.alloc 4]).2 4104).2) :=
  ⟨by decide, C4_second_myFree_fails _ 4104 (by decide)⟩

/-! ## Rejected arguments -/

theorem initHeap_initialised : Initialised initHeap :=
  ⟨by decide, by decide, by decide, by decide⟩

/-- C5: in every initialised heap, for every pointer that is `NULL`, or not a
multiple of 8, or outside `[heapStart, heapStart + allocsize]`, `myFree` returns
-1 and leaves the heap, its memory and cursor included, unchanged. -/
theorem C5_myFree_rejects_pointer (s : Heap) (ptr : Int) (hs : Initialised s)
    (hp : 0 ≤ ptr ∧ ptr < 4294967296)
    (h : ptr = 0 ∨ ptr % 8 ≠ 0 ∨ ptr < s.heapStart ∨ s.heapStart + s.allocsize < ptr) :
    myFree s ptr = (-1, s) := by
  obtain ⟨_, h1, h2, h3⟩ := hs
  apply myFree_of_not_checks
  rintro ⟨c1, c2, c3, _⟩
  simp only [u32] at c3
  omega

/-- C5 at the pointers of `test_bad_ptr.c`, after `myInit(4096)`: `NULL`, the
odd address 3 and the address 8 below the heap. -/
theorem C5_myFree_rejects_pointer_witness :
    myFree initHeap 0 = (-1, initHeap) ∧ myFree initHeap 3 = (-1, initHeap) ∧
    myFree initHeap 8 = (-1, initHeap) :=
  ⟨C5_myFree_rejects_pointer initHeap 0 initHeap_initialised (by decide) (by decide),
   C5_myFree_rejects_pointer initHeap 3 initHeap_initialised (by decide) (by decide),
   C5_myFree_rejects_pointer initHeap 8 initHeap_initialised (by decide) (by decide)⟩

/-- C6 as stated fails: after `myInit(4096)` the cursor is still `NULL`, and
`myAlloc(0)` returns `NULL` but leaves the cursor at `heapStart`. -/
theorem C6_cursor_changes :
    Initialised initHeap ∧ initHeap.lastAlloc = 0 ∧
    (runCalls 0 initHeap [Call.alloc 0]).1 = [some 0] ∧
    (runCalls 0 initHeap [Call.alloc 0]).2.lastAlloc = 4100 :=
  ⟨⟨by decide, by decide, by decide, by decide⟩, by decide, by decide, by decide⟩

/-- C6, amended: for every heap and every size with `size <= 0` or
`size > allocsize`, `myAlloc(size)` returns `NULL` whatever the fuel, leaves the
memory unchanged, and leaves the cursor unchanged unless it was still `NULL`, in
which case the cursor becomes `heapStart`. -/
theorem C6_myAlloc_rejects_size (fuel : Nat) (s : Heap) (size : Int)
    (h : size ≤ 0 ∨ size > s.allocsize) :
    myAlloc fuel s size
      = some (0, { s with lastAlloc := if s.lastAlloc = 0 then s.heapStart else s.lastAlloc }) := by
  unfold myAlloc
  by_cases hl : s.lastAlloc = 0
  · simp only [hl, if_true]
    split_ifs with c1 c2
    · rfl
    · rfl
    · exfalso
      omega
  · simp only [hl, if_false]
    split_ifs with c1 c2
    · rfl
    · rfl
    · exfalso
      omega

/-- C6, amended, at `myAlloc(5000)` after `myInit(4096)`, with no fuel. -/
theorem C6_myAlloc_rejects_size_witness :
    myAlloc 0 initHeap 5000
      = some (0, { initHeap with
          lastAlloc := if initHeap.lastAlloc = 0 then initHeap.heapStart
            else initHeap.lastAlloc }) :=
  C6_myAlloc_rejects_size 0 initHeap 5000 (Or.inr (by decide))

/-! ## No block fits -/

theorem allocLoop_skip (s : Heap) (rb a : Int) (fuel : Nat) (h : Unfit s.mem rb a) :
    allocLoop s rb (fuel + 1) a =
      if (if s.mem (a + (s.mem a - s.mem a % 4)) = 1 then s.heapStart
          else a + (s.mem a - s.mem a % 4)) = s.lastAlloc then some (0, s)
      else allocLoop s rb fuel (if s.mem (a + (s.mem a - s.mem a % 4)) = 1 then s.heapStart
          else a + (s.mem a - s.mem a % 4)) := by
  unfold Unfit GET_ALLOC GET at h
  have hsz : (if 2 ≤ (if s.mem a % 2 = 1 then s.mem a - 1 else s.mem a) % 4
      then (if s.mem a % 2 = 1 then s.mem a - 1 else s.mem a) - 2
      else (if s.mem a % 2 = 1 then s.mem a - 1 else s.mem a)) = s.mem a - s.mem a % 4 := by
    split_ifs <;> omega
  simp only [allocLoop, hsz, MINIMUM_BLOCK_SIZE]
  by_cases ha : s.mem a % 2 = 1
  · simp [ha]
  · have h0 : s.mem a % 2 = 0 := by omega
    have hlt := h h0
    have h1 : ¬ (s.mem a - s.mem a % 4 = rb) := by omega
    have h2 : ¬ (s.mem a - s.mem a % 4 > rb) := by omega
    simp [ha, h1, h2]

theorem Tiles_header_ne_one (m : Int → Int) (a e sz : Int) (rest : List Int)
    (h : Tiles m a (sz :: rest) e) : m a ≠ 1 := by
  obtain ⟨h1, h2, _, _⟩ := h
  omega

theorem blockStarts_lt_end (m : Int → Int) :
    ∀ (bs : List Int) (a e : Int), Tiles m a bs e → ∀ x ∈ blockStarts a bs, x < e
  | [], _, _, _, x, hx => by simp [blockStarts] at hx
  | [sz], a, e, h, x, hx => by
    obtain ⟨_, h2, _, h4⟩ := h
    simp only [Tiles] at h4
    simp only [blockStarts, List.mem_singleton] at hx
    omega
  | sz :: sz2 :: rest, a, e, h, x, hx => by
    obtain ⟨_, h2, _, h4⟩ := h
    simp only [blockStarts, List.mem_cons] at hx
    have ih := blockStarts_lt_end m (sz2 :: rest) (a + sz) e h4
    rcases hx with hx | hx
    · have := ih (a + sz) (by simp [blockStarts])
      omega
    · exact ih x (by simpa [blockStarts] using hx)

theorem allocLoop_segment (s : Heap) (rb : Int) :
    ∀ (bs : List Int) (a e : Int) (fuel : Nat), bs ≠ [] → Tiles s.mem a bs e →
      (∀ x ∈ blockStarts a bs, Unfit s.mem rb x) →
      (∀ x ∈ blockStarts a bs, a < x → x ≠ s.lastAlloc) →
      allocLoop s rb (fuel + bs.length) a =
        if (if s.mem e = 1 then s.heapStart else e) = s.lastAlloc then some (0, s)
        else allocLoop s rb fuel (if s.mem e = 1 then s.heapStart else e)
  | [], _, _, _, hne, _, _, _ => absurd rfl hne
  | [sz], a, e, fuel, _, ht, hu, _ => by
    obtain ⟨h1, _, _, h4⟩ := ht
    simp only [Tiles] at h4
    have := allocLoop_skip s rb a fuel (hu a (by simp [blockStarts]))
    rw [h1, h4] at this
    exact this
  | sz :: sz2 :: rest, a, e, fuel, _, ht, hu, hc => by
    have ht2 := ht.2.2.2
    have h1 := ht.1
    have hpos := ht.2.1
    have hne1 := Tiles_header_ne_one s.mem (a + sz) e sz2 rest ht2
    have hmem : a + sz ∈ blockStarts a (sz :: sz2 :: rest) := by simp [blockStarts]
    have hnc : a + sz ≠ s.lastAlloc := hc (a + sz) hmem (by omega)
    have ih := allocLoop_segment s rb (sz2 :: rest) (a + sz) e fuel (by simp) ht2
      (fun x hx => hu x (by simp only [blockStarts, List.mem_cons] at hx ⊢; exact Or.inr hx))
      (fun x hx hlt => hc x (by simp only [blockStarts, List.mem_cons] at hx ⊢; exact Or.inr hx)
        (by omega))
    have hstep := allocLoop_skip s rb a (fuel + (sz2 :: rest).length)
      (hu a (by simp [blockStarts]))
    rw [h1, if_neg hne1, if_neg hnc, ih] at hstep
    have hl : fuel + (sz :: sz2 :: rest).length = fuel + (sz2 :: rest).length + 1 := by
      simp only [List.length_cons]
      omega
    rw [hl]
    exact hstep

theorem blockStarts_append (m : Int → Int) :
    ∀ (pre post : List Int) (a c : Int), Tiles m a pre c →
      blockStarts a (pre ++ post) = blockStarts a pre ++ blockStarts c post
  | [], post, a, c, h => by
    simp only [Tiles] at h
    simp [blockStarts, h]
  | sz :: rest, post, a, c, h => by
    have ih := blockStarts_append m rest post (a + sz) c h.2.2.2
    simp [blockStarts, ih]

/-- C7: in every well-formed heap (the blocks `pre ++ post` tile the region, the
cursor is a block start) and for every valid size, if every free block is
smaller than the block size computed for the request, then `myAlloc(size)`
returns `NULL` after at most one iteration per block and leaves the heap, its
memory and cursor included, unchanged. -/
theorem C7_myAlloc_no_fit (s : Heap) (pre post : List Int) (size : Int)
    (hwf : WellFormed s pre post) (hsize : 0 < size ∧ size ≤ s.allocsize)
    (hfit : ∀ a ∈ blockStarts s.heapStart (pre ++ post),
      GET_ALLOC s.mem a = 0 → s.mem a - s.mem a % 4 < requestedBlocksize size)
    (fuel : Nat) (hfuel : pre.length + post.length ≤ fuel) :
    myAlloc fuel s size = some (0, s) := by
  obtain ⟨hstart, hpre, hpost_ne, hpost, hend⟩ := hwf
  rw [blockStarts_append s.mem pre post _ _ hpre] at hfit
  have hcur : s.heapStart ≤ s.lastAlloc := by
    cases pre with
    | nil => simp only [Tiles] at hpre; omega
    | cons sz rest =>
      have := blockStarts_lt_end s.mem _ _ _ hpre s.heapStart (by simp [blockStarts])
      omega
  have hl : s.lastAlloc ≠ 0 := by omega
  have hnot1 : ¬ size ≤ 0 := by omega
  have hnot2 : ¬ size > s.allocsize := by omega
  unfold myAlloc
  simp only [if_neg hl, if_neg hnot1, if_neg hnot2]
  obtain ⟨k, rfl⟩ : ∃ k, fuel = k + pre.length + post.length :=
    ⟨fuel - (pre.length + post.length), by omega⟩
  have hA := allocLoop_segment s (requestedBlocksize size) post s.lastAlloc
    (s.heapStart + s.allocsize) (k + pre.length) hpost_ne hpost
    (fun x hx => hfit x (List.mem_append_right _ hx))
    (fun x _ hlt => by omega)
  rw [hA, if_pos hend]
  cases pre with
  | nil =>
    simp only [Tiles] at hpre
    rw [if_pos hpre]
  | cons sz rest =>
    have hlt := blockStarts_lt_end s.mem _ _ _ hpre s.heapStart (by simp [blockStarts])
    rw [if_neg (by omega)]
    have hB := allocLoop_segment s (requestedBlocksize size) (sz :: rest) s.heapStart
      s.lastAlloc k (by simp) hpre
      (fun x hx => hfit x (List.mem_append_left _ hx))
      (fun x hx _ => by
        have := blockStarts_lt_end s.mem _ _ _ hpre x hx
        omega)
    have hc1 : s.mem s.lastAlloc ≠ 1 := by
      cases post with
      | nil => exact absurd rfl hpost_ne
      | cons sz2 rest2 => exact Tiles_header_ne_one s.mem _ _ _ _ hpost
    rw [hB, if_neg hc1, if_pos rfl]

theorem scenarioB_wellFormed : WellFormed scenarioB [2056] [2032] :=
  ⟨by decide, by simp only [Tiles]; decide, by decide, by simp only [Tiles]; decide, by decide⟩

/-- C7 at scenario B: after `myInit(4096)` and `myAlloc(2048)`, which returns
4104, the heap is well-formed with an allocated block of 2056 bytes and a free
block of 2032 bytes at the cursor, and `myAlloc(2047)`, which needs 2056 bytes,
returns `NULL` and leaves the heap unchanged. -/
theorem C7_myAlloc_no_fit_witness :
    (runCalls 1 initHeap [Call.alloc 2048]).1 = [some 4104] ∧
    WellFormed scenarioB [2056] [2032] ∧ requestedBlocksize 2047 = 2056 ∧
    myAlloc 2 scenarioB 2047 = some (0, scenarioB) :=
  ⟨by decide, scenarioB_wellFormed, by decide,
    C7_myAlloc_no_fit scenarioB [2056] [2032] 2047 scenarioB_wellFormed (by decide)
      (by decide) 2 (by decide)⟩

/-! ## Freeing the last block -/

/-- C8, the code at a failing input: after `myInit(4096)`, `p = myAlloc(4084)`
returns 4104 and `myFree(p)` returns 0; the header at `heapStart` then shows one
free block of the whole capacity 4088, but the word after it, at
`heapStart + 4088`, is -1 and no longer the end mark 1. -/
theorem C8_end_mark_lost :
    (myInit Heap.fresh 4096 3 (some 4096) 4096).1 = 0 ∧
    (runCalls 1 initHeap [Call.alloc 4084, Call.free 4104]).1 = [some 4104, some 0] ∧
    initHeap.mem (initHeap.heapStart + initHeap.allocsize) = 1 ∧
    GET_ALLOC (runCalls 1 initHeap [Call.alloc 4084, Call.free 4104]).2.mem
      initHeap.heapStart = 0 ∧
    GET_SIZE (runCalls 1 initHeap [Call.alloc 4084, Call.free 4104]).2.mem
      initHeap.heapStart = initHeap.allocsize ∧
    (runCalls 1 initHeap [Call.alloc 4084, Call.free 4104]).2.mem
      (initHeap.heapStart + initHeap.allocsize) = -1 := by
  decide

/-! ## Initialisation -/

/-- The padding `myInit` adds rounds the size up to a multiple of the page
size. -/
theorem padsize_roundUpTo (n p : Int) (hp : 0 < p) :
    n + (p - n % p) % p = roundUpTo n p := by
  unfold roundUpTo
  have hr0 : 0 ≤ n % p := Int.emod_nonneg n (by omega)
  have hr1 : n % p < p := Int.emod_lt_of_pos n hp
  have hn : p * (n / p) + n % p = n := Int.ediv_add_emod n p
  by_cases hz : n % p = 0
  · have e1 : (p - n % p) % p = 0 := by
      rw [hz, sub_zero]
      exact Int.emod_self
    have e2 : (n + p - 1) / p = n / p := by
      have : n + p - 1 = (p - 1) + p * (n / p) := by omega
      rw [this, Int.add_mul_ediv_left _ _ (by omega : p ≠ 0),
        Int.ediv_eq_zero_of_lt (by omega) (by omega)]
      omega
    rw [e1, e2]
    have : n / p * p = p * (n / p) := by ring
    omega
  · have e1 : (p - n % p) % p = p - n % p := Int.emod_eq_of_lt (by omega) (by omega)
    have e2 : (n + p - 1) / p = n / p + 1 := by
      have : n + p - 1 = (n % p - 1) + p * (n / p + 1) := by
        have : p * (n / p + 1) = p * (n / p) + p := by ring
        omega
      rw [this, Int.add_mul_ediv_left _ _ (by omega : p ≠ 0),
        Int.ediv_eq_zero_of_lt (by omega) (by omega)]
      omega
    rw [e1, e2]
    have : (n / p + 1) * p = p * (n / p) + p := by ring
    omega

/-- An arithmetic result inside the range of `int` is not changed by `i32`. -/
theorem i32_of_range (x : Int) (h1 : -2147483648 ≤ x) (h2 : x ≤ 2147483647) : i32 x = x := by
  unfold i32
  omega

/-- A positive size rounded up to a multiple of the page size is at least a
page. -/
theorem page_le_roundUpTo (n p : Int) (hn : 0 < n) (hp : 0 < p) : p ≤ roundUpTo n p := by
  unfold roundUpTo
  have hk : 1 ≤ (n + p - 1) / p := Int.le_ediv_of_mul_le hp (by omega)
  calc p = 1 * p := (one_mul p).symm
    _ ≤ (n + p - 1) / p * p := Int.mul_le_mul_of_nonneg_right hk (le_of_lt hp)

/-- The heap a first `myInit` leaves when `open` and `mmap` succeed and the
rounded size is at least 16 and inside the range of `int`. -/
theorem myInit_ok (s : Heap) (P fd p sizeOfRegion : Int)
    (hfirst : s.allocated_once = 0) (hsize : 0 < sizeOfRegion) (hP : 0 < P)
    (hfd : fd ≠ -1) (h16 : 16 ≤ roundUpTo sizeOfRegion P)
    (hmax : roundUpTo sizeOfRegion P ≤ 2147483647) :
    myInit s P fd (some p) sizeOfRegion =
      (0, { mem := write (write (write (write
                (fun x => if p ≤ x ∧ x < p + roundUpTo sizeOfRegion P then 0 else s.mem x)
                (p + 4 + (roundUpTo sizeOfRegion P - 8)) 1)
                (p + 4) (roundUpTo sizeOfRegion P - 8))
                (p + 4) (roundUpTo sizeOfRegion P - 8 + 2))
                (p + 4 + (roundUpTo sizeOfRegion P - 8) - 4) (roundUpTo sizeOfRegion P - 8),
            heapStart := p + 4, allocsize := roundUpTo sizeOfRegion P - 8,
            lastAlloc := s.lastAlloc, allocated_once := 1 }) := by
  have hpad := padsize_roundUpTo sizeOfRegion P hP
  have hge := page_le_roundUpTo sizeOfRegion P hsize hP
  have hr0 : 0 ≤ sizeOfRegion % P := Int.emod_nonneg sizeOfRegion (by omega)
  have hr1 : sizeOfRegion % P < P := Int.emod_lt_of_pos sizeOfRegion hP
  have h1 : ¬ (0 ≠ s.allocated_once) := by omega
  have h2 : ¬ (sizeOfRegion ≤ 0) := by omega
  have h3 : ¬ (-1 = fd) := fun e => hfd e.symm
  have e1 : i32 (P - sizeOfRegion % P) = P - sizeOfRegion % P :=
    i32_of_range _ (by omega) (by omega)
  unfold myInit
  simp only [if_neg h1, if_neg h2, if_neg h3, e1, hpad, write_eq]
  generalize roundUpTo sizeOfRegion P = R at h16 hmax
  have e2 : i32 R = R := i32_of_range _ (by omega) (by omega)
  have e3 : i32 (R - 8) = R - 8 := i32_of_range _ (by omega) (by omega)
  have e4 : i32 (R - 8 + 2) = R - 8 + 2 := i32_of_range _ (by omega) (by omega)
  have e5 : u32 R = R := by
    unfold u32
    omega
  simp only [e2, e3, e4, e5]

/-- C9 as stated fails.  With a page size of 8, `myInit(8)` returns 0 and the
capacity is the rounded size less 8, that is 0, but the word at
`heapStart + capacity` is the header 2 and not the end mark 1.  With a page size
of 805306368 and `myInit(2147483647)` the rounded size is 2415919104, more than
an `int` holds: the sum wraps, and `allocsize` ends up at -1879048200 and not at
the rounded size less 8, which is 2415919096. -/
theorem C9_small_page_or_overflow :
    ((0 : Int) < 8 ∧
      (myInit Heap.fresh 8 3 (some 4096) 8).1 = 0 ∧
      (myInit Heap.fresh 8 3 (some 4096) 8).2.allocsize = roundUpTo 8 8 - 8 ∧
      (myInit Heap.fresh 8 3 (some 4096) 8).2.mem
        ((myInit Heap.fresh 8 3 (some 4096) 8).2.heapStart
          + (myInit Heap.fresh 8 3 (some 4096) 8).2.allocsize) = 2) ∧
    ((0 : Int) < 2147483647 ∧ (0 : Int) < 805306368 ∧
      roundUpTo 2147483647 805306368 = 2415919104 ∧
      roundUpTo 2147483647 805306368 - 8 = 2415919096 ∧
      (myInit Heap.fresh 805306368 3 (some 4096) 2147483647).2.allocsize = -1879048200) := by
  decide

/-- C9, amended: for every `sizeOfRegion > 0` and page size `P > 0` for which
the size rounded up to a multiple of `P` is a multiple of 8, at least 16 and at
most `INT_MAX`, the first `myInit` call, with `open` and `mmap` succeeding,
returns 0, puts `heapStart` 4 bytes into the mapping, sets the capacity to the
rounded size less 8, leaves at `heapStart` a header that decodes to
size = capacity, allocated = false, prev_allocated = true, and leaves the end
mark 1 at `heapStart + capacity`. -/
theorem C9_myInit_establishes (s : Heap) (P fd p sizeOfRegion : Int)
    (hfirst : s.allocated_once = 0) (hsize : 0 < sizeOfRegion) (hP : 0 < P)
    (hfd : fd ≠ -1) (h8 : roundUpTo sizeOfRegion P % 8 = 0)
    (h16 : 16 ≤ roundUpTo sizeOfRegion P) (hmax : roundUpTo sizeOfRegion P ≤ 2147483647) :
    (myInit s P fd (some p) sizeOfRegion).1 = 0 ∧
    (myInit s P fd (some p) sizeOfRegion).2.heapStart = p + 4 ∧
    (myInit s P fd (some p) sizeOfRegion).2.allocsize = roundUpTo sizeOfRegion P - 8 ∧
    GET_SIZE (myInit s P fd (some p) sizeOfRegion).2.mem (p + 4)
      = roundUpTo sizeOfRegion P - 8 ∧
    GET_ALLOC (myInit s P fd (some p) sizeOfRegion).2.mem (p + 4) = 0 ∧
    GET_PREV (myInit s P fd (some p) sizeOfRegion).2.mem (p + 4) ≠ 0 ∧
    (myInit s P fd (some p) sizeOfRegion).2.mem (p + 4 + (roundUpTo sizeOfRegion P - 8))
      = 1 := by
  rw [myInit_ok s P fd p sizeOfRegion hfirst hsize hP hfd h16 hmax]
  generalize roundUpTo sizeOfRegion P = R at h8 h16 hmax
  refine ⟨rfl, rfl, rfl, ?_, ?_, ?_, ?_⟩
  · simp only [GET_SIZE, GET, write]
    split_ifs <;> omega
  · simp only [GET_ALLOC, GET, write]
    split_ifs <;> omega
  · simp only [GET_PREV, GET, write]
    split_ifs <;> omega
  · simp only [write]
    split_ifs <;> omega

/-- C9, amended, at `myInit(4000)` with 4096-byte pages: the capacity is 4088. -/
theorem C9_myInit_establishes_witness :
    roundUpTo 4000 4096 = 4096 ∧
    (myInit Heap.fresh 4096 3 (some 4096) 4000).1 = 0 ∧
    (myInit Heap.fresh 4096 3 (some 4096) 4000).2.heapStart = 4096 + 4 ∧
    (myInit Heap.fresh 4096 3 (some 4096) 4000).2.allocsize = roundUpTo 4000 4096 - 8 ∧
    GET_SIZE (myInit Heap.fresh 4096 3 (some 4096) 4000).2.mem (4096 + 4)
      = roundUpTo 4000 4096 - 8 ∧
    GET_ALLOC (myInit Heap.fresh 4096 3 (some 4096) 4000).2.mem (4096 + 4) = 0 ∧
    GET_PREV (myInit Heap.fresh 4096 3 (some 4096) 4000).2.mem (4096 + 4) ≠ 0 ∧
    (myInit Heap.fresh 4096 3 (some 4096) 4000).2.mem (4096 + 4 + (roundUpTo 4000 4096 - 8))
      = 1 :=
  ⟨by decide, C9_myInit_establishes Heap.fresh 4096 3 4096 4000 (by decide) (by decide)
    (by decide) (by decide) (by decide) (by decide) (by decide)⟩

/-! ## Neighbouring free blocks -/

/-- C10, the code at a failing input: after `myInit(4096)` the calls
`a = myAlloc(2044)`, `b = myAlloc(12)`, `myFree(a)`, `myAlloc(2044)`, `myFree(a)`,
`myFree(b)` return 4104, 6152, 0, 4104, 0, 0.  After the last `myFree` the block
at `heapStart` is free with size 2048 and the header right after it, at
`heapStart + 2048`, is that of a free block too. -/
theorem C10_adjacent_free_blocks :
    (myInit Heap.fresh 4096 3 (some 4096) 4096).1 = 0 ∧
    (runCalls 2 initHeap [Call.alloc 2044, Call.alloc 12, Call.free 4104,
      Call.alloc 2044, Call.free 4104, Call.free 6152]).1
      = [some 4104, some 6152, some 0, some 4104, some 0, some 0] ∧
    GET_ALLOC (runCalls 2 initHeap [Call.alloc 2044, Call.alloc 12, Call.free 4104,
      Call.alloc 2044, Call.free 4104, Call.free 6152]).2.mem initHeap.heapStart = 0 ∧
    GET_SIZE (runCalls 2 initHeap [Call.alloc 2044, Call.alloc 12, Call.free 4104,
      Call.alloc 2044, Call.free 4104, Call.free 6152]).2.mem initHeap.heapStart = 2048 ∧
    GET_ALLOC (runCalls 2 initHeap [Call.alloc 2044, Call.alloc 12, Call.free 4104,
      Call.alloc 2044, Call.free 4104, Call.free 6152]).2.mem
      (initHeap.heapStart + 2048) = 0 := by
  decide

/-! ## One iteration of the loop of `myAlloc` -/

theorem heap_eq_of {s : Heap} {m1 m2 : Int → Int} {l : Int} (h : ∀ x, m1 x = m2 x) :
    ({ s with mem := m1, lastAlloc := l } : Heap) = { s with mem := m2, lastAlloc := l } := by
  have : m1 = m2 := funext h
  rw [this]

theorem allocLoop_step (s : Heap) (rb c : Int) (fuel : Nat) :
    allocLoop s rb (fuel + 1) c =
      if Usable s.mem rb c then some (c + 4, chosenHeap s rb c)
      else if nextBlock s c = s.lastAlloc then some (0, s)
      else allocLoop s rb fuel (nextBlock s c) := by
  have hsz : (if 2 ≤ (if s.mem c % 2 = 1 then s.mem c - 1 else s.mem c) % 4
      then (if s.mem c % 2 = 1 then s.mem c - 1 else s.mem c) - 2
      else (if s.mem c % 2 = 1 then s.mem c - 1 else s.mem c)) = s.mem c - s.mem c % 4 := by
    split_ifs <;> omega
  rw [allocLoop]
  simp only [hsz, MINIMUM_BLOCK_SIZE]
  by_cases ha : s.mem c % 2 = 1
  · have hu : ¬ Usable s.mem rb c := by
      unfold Usable
      omega
    simp only [ha, if_true, if_neg hu, nextBlock]
    rw [if_neg (show ¬ ((1 : Int) = 0 ∧ s.mem c - s.mem c % 4 = rb) by omega),
      if_neg (show ¬ ((1 : Int) = 0 ∧ s.mem c - s.mem c % 4 > rb ∧
        s.mem c - s.mem c % 4 - rb ≥ 8) by omega)]
  · have h0 : s.mem c % 2 = 0 := by omega
    simp only [if_neg ha, true_and]
    by_cases he : s.mem c - s.mem c % 4 = rb
    · rw [if_pos he, if_pos (show Usable s.mem rb c from ⟨h0, Or.inl he⟩)]
      simp only [chosenHeap, if_pos he, exactHeap]
      refine congrArg some (congrArg (Prod.mk (c + 4)) (heap_eq_of ?_))
      intro x
      by_cases hp : 2 ≤ s.mem c % 4
      · simp only [hp, if_true, write, GET_PREV, GET]
        split_ifs <;> omega
      · simp only [hp, if_false, write, GET_PREV, GET, zero_ne_one]
        split_ifs <;> omega
    · rw [if_neg he]
      by_cases hs : s.mem c - s.mem c % 4 > rb ∧ s.mem c - s.mem c % 4 - rb ≥ 8
      · rw [if_pos hs, if_pos (show Usable s.mem rb c from ⟨h0, Or.inr hs⟩)]
        simp only [chosenHeap, if_neg he, splitHeap]
        refine congrArg some (congrArg (Prod.mk (c + 4)) (heap_eq_of ?_))
        intro x
        by_cases hp : 2 ≤ s.mem c % 4
        · simp only [hp, if_true, write, GET_PREV, GET]
          split_ifs <;> omega
        · simp only [hp, if_false, write, GET_PREV, GET, zero_ne_one]
          split_ifs <;> omega
      · have hu : ¬ Usable s.mem rb c := by
          unfold Usable
          tauto
        rw [if_neg hs, if_neg hu]
        rfl

/-! ## The scan is next-fit -/

theorem allocLoop_mono (s : Heap) (rb : Int) (r : Int × Heap) :
    ∀ (fuel : Nat) (c : Int) (k : Nat), allocLoop s rb fuel c = some r →
      allocLoop s rb (fuel + k) c = some r
  | 0, _, _, h => by simp [allocLoop] at h
  | fuel + 1, c, k, h => by
    have e : fuel + 1 + k = (fuel + k) + 1 := by omega
    rw [e, allocLoop_step]
    rw [allocLoop_step] at h
    split_ifs at h ⊢ with h1 h2
    · exact h
    · exact h
    · exact allocLoop_mono s rb r fuel _ k h

theorem nextBlock_of_tiles (s : Heap) (a e sz : Int) (rest : List Int)
    (h : Tiles s.mem a (sz :: rest) e) :
    nextBlock s a = if s.mem (a + sz) = 1 then s.heapStart else a + sz := by
  unfold nextBlock
  rw [h.1]

theorem allocLoop_find (s : Heap) (rb : Int) :
    ∀ (bs : List Int) (a e : Int) (fuel : Nat), bs ≠ [] → Tiles s.mem a bs e →
      (∀ x ∈ blockStarts a bs, a < x → x ≠ s.lastAlloc) →
      allocLoop s rb (fuel + bs.length) a =
        fitResult s rb ((blockStarts a bs).find? (fun x => decide (Usable s.mem rb x)))
          (if (if s.mem e = 1 then s.heapStart else e) = s.lastAlloc then some (0, s)
           else allocLoop s rb fuel (if s.mem e = 1 then s.heapStart else e))
  | [], _, _, _, hne, _, _ => absurd rfl hne
  | [sz], a, e, fuel, _, ht, _ => by
    have hn := nextBlock_of_tiles s a e sz [] ht
    have h4 : a + sz = e := ht.2.2.2
    rw [h4] at hn
    show allocLoop s rb (fuel + 1) a = _
    rw [allocLoop_step, hn]
    by_cases hu : Usable s.mem rb a
    · rw [if_pos hu]
      simp [blockStarts, List.find?_cons_of_pos, hu, fitResult]
    · rw [if_neg hu]
      simp [blockStarts, List.find?_cons_of_neg, hu, fitResult]
  | sz :: sz2 :: rest, a, e, fuel, _, ht, hc => by
    have ht2 := ht.2.2.2
    have hpos := ht.2.1
    have hn := nextBlock_of_tiles s a e sz (sz2 :: rest) ht
    have hne1 := Tiles_header_ne_one s.mem (a + sz) e sz2 rest ht2
    rw [if_neg hne1] at hn
    have hmem : a + sz ∈ blockStarts a (sz :: sz2 :: rest) := by simp [blockStarts]
    have hnc : a + sz ≠ s.lastAlloc := hc (a + sz) hmem (by omega)
    have ih := allocLoop_find s rb (sz2 :: rest) (a + sz) e fuel (by simp) ht2
      (fun x hx hlt => hc x (by simp only [blockStarts, List.mem_cons] at hx ⊢; exact Or.inr hx)
        (by omega))
    have hl : fuel + (sz :: sz2 :: rest).length = fuel + (sz2 :: rest).length + 1 := by
      simp only [List.length_cons]
      omega
    rw [hl, allocLoop_step, hn]
    by_cases hu : Usable s.mem rb a
    · rw [if_pos hu]
      simp [blockStarts, List.find?_cons_of_pos, hu, fitResult]
    · rw [if_neg hu, if_neg hnc, ih]
      have : (blockStarts a (sz :: sz2 :: rest)).find? (fun x => decide (Usable s.mem rb x))
          = (blockStarts (a + sz) (sz2 :: rest)).find? (fun x => decide (Usable s.mem rb x)) := by
        rw [blockStarts, List.find?_cons_of_neg]
        simpa using hu
      rw [this]

theorem cursorHeap_fields (s : Heap) :
    (cursorHeap s).mem = s.mem ∧ (cursorHeap s).heapStart = s.heapStart ∧
    (cursorHeap s).allocsize = s.allocsize := by
  unfold cursorHeap
  split_ifs <;> exact ⟨rfl, rfl, rfl⟩

theorem myAlloc_cursorHeap (fuel : Nat) (s : Heap) (size : Int) :
    myAlloc fuel s size =
      if size ≤ 0 then some (0, cursorHeap s)
      else if size > s.allocsize then some (0, cursorHeap s)
      else allocLoop (cursorHeap s) (requestedBlocksize size) fuel (cursorHeap s).lastAlloc := by
  rw [← (cursorHeap_fields s).2.2]
  rfl

theorem WellFormed.cursor_pos {s : Heap} {pre post : List Int} (h : WellFormed s pre post) :
    s.heapStart ≤ s.lastAlloc := by
  obtain ⟨hstart, hpre, _, _, _⟩ := h
  cases pre with
  | nil => simp only [Tiles] at hpre; omega
  | cons sz rest =>
    have := blockStarts_lt_end s.mem _ _ _ hpre s.heapStart (by simp [blockStarts])
    omega

/-- The loop of `myAlloc` on a well-formed heap is next-fit. -/
theorem allocLoop_nextFit (s : Heap) (pre post : List Int) (rb : Int)
    (hwf : WellFormed s pre post) (fuel : Nat) (hfuel : pre.length + post.length ≤ fuel) :
    allocLoop s rb fuel s.lastAlloc = nextFit s rb (scanOrder s pre post) := by
  have hcur := hwf.cursor_pos
  obtain ⟨hstart, hpre, hpost_ne, hpost, hend⟩ := hwf
  obtain ⟨k, rfl⟩ : ∃ k, fuel = k + pre.length + post.length :=
    ⟨fuel - (pre.length + post.length), by omega⟩
  have hA := allocLoop_find s rb post s.lastAlloc (s.heapStart + s.allocsize)
    (k + pre.length) hpost_ne hpost (fun x _ hlt => by omega)
  rw [hA, if_pos hend]
  unfold nextFit scanOrder
  rw [List.find?_append]
  cases hf : (blockStarts s.lastAlloc post).find? (fun x => decide (Usable s.mem rb x)) with
  | some b => simp [fitResult]
  | none =>
    simp only [fitResult, Option.none_or]
    cases pre with
    | nil =>
      simp only [Tiles] at hpre
      rw [if_pos hpre]
      simp [blockStarts]
    | cons sz rest =>
      have hlt := blockStarts_lt_end s.mem _ _ _ hpre s.heapStart (by simp [blockStarts])
      rw [if_neg (by omega)]
      have hB := allocLoop_find s rb (sz :: rest) s.heapStart s.lastAlloc k (by simp) hpre
        (fun x hx _ => by
          have := blockStarts_lt_end s.mem _ _ _ hpre x hx
          omega)
      have hc1 : s.mem s.lastAlloc ≠ 1 := by
        cases post with
        | nil => exact absurd rfl hpost_ne
        | cons sz2 rest2 => exact Tiles_header_ne_one s.mem _ _ _ _ hpost
      rw [hB, if_neg hc1, if_pos rfl]
      rfl

/-! ## A call that returns a pointer -/

theorem requestedBlocksize_facts (size : Int) (h : 0 < size) :
    requestedBlocksize size % 8 = 0 ∧ 8 ≤ requestedBlocksize size ∧
    size + 4 ≤ requestedBlocksize size ∧ requestedBlocksize size < size + 12 ∧
    requestedBlocksize size = max 8 (roundUpTo (size + 4) 8) := by
  unfold requestedBlocksize roundUpTo
  simp only [sizeofBlockHeader, MINIMUM_BLOCK_SIZE, DOUBLE_ALIGNMENT_SIZE]
  split_ifs with h1
  · refine ⟨by omega, by omega, by omega, by omega, ?_⟩
    rw [max_eq_left]
    omega
  · refine ⟨by omega, by omega, by omega, by omega, ?_⟩
    rw [max_eq_right]
    omega

theorem myAlloc_nextFit (s : Heap) (pre post : List Int) (size : Int)
    (hwf : WellFormed (cursorHeap s) pre post) (hsize : 0 < size ∧ size ≤ s.allocsize)
    (fuel : Nat) (hfuel : pre.length + post.length ≤ fuel) :
    myAlloc fuel s size
      = nextFit (cursorHeap s) (requestedBlocksize size) (scanOrder (cursorHeap s) pre post) := by
  rw [myAlloc_cursorHeap, if_neg (by omega), if_neg (by omega)]
  exact allocLoop_nextFit (cursorHeap s) pre post _ hwf fuel hfuel

theorem myAlloc_mono (s : Heap) (size : Int) (r : Int × Heap) (fuel k : Nat)
    (h : myAlloc fuel s size = some r) : myAlloc (fuel + k) s size = some r := by
  rw [myAlloc_cursorHeap] at h ⊢
  split_ifs at h ⊢ with h1 h2
  · exact h
  · exact h
  · exact allocLoop_mono _ _ r fuel _ k h

/-- A loop that returns a pointer took a usable block. -/
theorem allocLoop_some (s : Heap) (rb p : Int) (t : Heap) (hp : p ≠ 0) :
    ∀ (fuel : Nat) (c : Int), allocLoop s rb fuel c = some (p, t) →
      ∃ b, Usable s.mem rb b ∧ p = b + 4 ∧ t = chosenHeap s rb b
  | 0, _, h => by simp [allocLoop] at h
  | fuel + 1, c, h => by
    rw [allocLoop_step] at h
    split_ifs at h with h1 h2
    · simp only [Option.some.injEq, Prod.mk.injEq] at h
      exact ⟨c, h1, h.1.symm, h.2.symm⟩
    · simp only [Option.some.injEq, Prod.mk.injEq] at h
      exact absurd h.1.symm hp
    · exact allocLoop_some s rb p t hp fuel _ h

/-- A `myAlloc` that returns a pointer had a valid size and took a usable block. -/
theorem myAlloc_some (fuel : Nat) (s : Heap) (size p : Int) (t : Heap)
    (h : myAlloc fuel s size = some (p, t)) (hp : p ≠ 0) :
    (0 < size ∧ size ≤ s.allocsize) ∧
    ∃ b, Usable s.mem (requestedBlocksize size) b ∧ p = b + 4 ∧
      t = chosenHeap (cursorHeap s) (requestedBlocksize size) b := by
  rw [myAlloc_cursorHeap] at h
  split_ifs at h with h1 h2
  · simp only [Option.some.injEq, Prod.mk.injEq] at h
    exact absurd h.1.symm hp
  · simp only [Option.some.injEq, Prod.mk.injEq] at h
    exact absurd h.1.symm hp
  · refine ⟨by omega, ?_⟩
    have := allocLoop_some _ _ p t hp fuel _ h
    rw [(cursorHeap_fields s).1] at this
    exact this

/-- A `myAlloc` on a well-formed heap that returns a pointer took the first
usable block in scan order. -/
theorem myAlloc_some_wf (fuel : Nat) (s : Heap) (pre post : List Int) (size p : Int) (t : Heap)
    (hwf : WellFormed (cursorHeap s) pre post)
    (h : myAlloc fuel s size = some (p, t)) (hp : p ≠ 0) :
    (scanOrder (cursorHeap s) pre post).find?
        (fun a => decide (Usable s.mem (requestedBlocksize size) a)) = some (p - 4) ∧
      t = chosenHeap (cursorHeap s) (requestedBlocksize size) (p - 4) := by
  have hs := (myAlloc_some fuel s size p t h hp).1
  have h2 := myAlloc_mono s size (p, t) fuel (pre.length + post.length) h
  rw [myAlloc_nextFit s pre post size hwf hs _ (by omega)] at h2
  unfold nextFit at h2
  rw [(cursorHeap_fields s).1] at h2
  cases hf : (scanOrder (cursorHeap s) pre post).find?
      (fun a => decide (Usable s.mem (requestedBlocksize size) a)) with
  | none =>
    rw [hf] at h2
    simp only [fitResult, Option.some.injEq, Prod.mk.injEq] at h2
    exact absurd h2.1.symm hp
  | some b =>
    rw [hf] at h2
    simp only [fitResult, Option.some.injEq, Prod.mk.injEq] at h2
    have hb : b = p - 4 := by omega
    rw [← hb]
    exact ⟨rfl, h2.2.symm⟩

theorem chosenHeap_header (s : Heap) (rb b : Int) (hu : Usable s.mem rb b) (h8 : 8 ≤ rb) :
    (chosenHeap s rb b).mem b = rb + 1 + GET_PREV s.mem b := by
  unfold chosenHeap
  split_ifs with he
  · simp only [exactHeap, write_eq]
  · obtain ⟨_, h | h⟩ := hu
    · exact absurd h he
    · simp only [splitHeap]
      rw [write_ne _ _ _ _ (by omega), write_ne _ _ _ _ (by omega), write_eq]

theorem chosenHeap_cursor (s : Heap) (rb b : Int) :
    (chosenHeap s rb b).lastAlloc = if s.mem b - s.mem b % 4 = rb then b else b + rb := by
  unfold chosenHeap
  split_ifs <;> rfl

/-- C13: for every heap, well-formed or not, and every size, if `myAlloc(size)`
returns a non-`NULL` pointer `p` then the header at `p - 4` has the allocated
bit set and its decoded size is `max(8, r)`, where `r` is the least multiple of
8 that is at least `size + 4`; the payload `[p, p + size)` starts right after
the 4-byte header and ends inside the block. -/
theorem C13_allocated_header (fuel : Nat) (s : Heap) (size p : Int) (t : Heap)
    (h : myAlloc fuel s size = some (p, t)) (hp : p ≠ 0) :
    GET_ALLOC t.mem (p - 4) = 1 ∧
    GET_SIZE t.mem (p - 4) = max 8 (roundUpTo (size + 4) 8) ∧
    (roundUpTo (size + 4) 8 % 8 = 0 ∧ size + 4 ≤ roundUpTo (size + 4) 8 ∧
      ∀ k : Int, k % 8 = 0 → size + 4 ≤ k → roundUpTo (size + 4) 8 ≤ k) ∧
    p - 4 + sizeofBlockHeader = p ∧ p + size ≤ p - 4 + GET_SIZE t.mem (p - 4) := by
  obtain ⟨hs, b, hu, hpb, ht⟩ := myAlloc_some fuel s size p t h hp
  obtain ⟨r8, rge, rsz, _, rmax⟩ := requestedBlocksize_facts size hs.1
  have hb : p - 4 = b := by omega
  have hu2 : Usable (cursorHeap s).mem (requestedBlocksize size) b := by
    rw [(cursorHeap_fields s).1]
    exact hu
  have hw := chosenHeap_header (cursorHeap s) _ b hu2 rge
  rw [← ht] at hw
  have hgp : GET_PREV (cursorHeap s).mem b = 0 ∨ GET_PREV (cursorHeap s).mem b = 2 := by
    unfold GET_PREV
    split_ifs
    · exact Or.inr rfl
    · exact Or.inl rfl
  have hsz : GET_SIZE t.mem (p - 4) = requestedBlocksize size := by
    rw [hb]
    simp only [GET_SIZE, GET, hw]
    omega
  refine ⟨?_, ?_, ?_, ?_, ?_⟩
  · rw [hb]
    simp only [GET_ALLOC, GET, hw]
    omega
  · rw [hsz, rmax]
  · unfold roundUpTo
    refine ⟨by omega, by omega, ?_⟩
    intro k hk1 hk2
    omega
  · simp only [sizeofBlockHeader]
    omega
  · rw [hsz]
    omega


/-- C13 at `myInit(4096); myAlloc(4)`: the pointer 4104 is returned. -/
theorem C13_allocated_header_witness :
    GET_ALLOC (runCalls 1 initHeap [Call.alloc 4]).2.mem (4104 - 4) = 1 ∧
    GET_SIZE (runCalls 1 initHeap [Call.alloc 4]).2.mem (4104 - 4)
      = max 8 (roundUpTo (4 + 4) 8) ∧
    (roundUpTo (4 + 4) 8 % 8 = 0 ∧ (4 : Int) + 4 ≤ roundUpTo (4 + 4) 8 ∧
      ∀ k : Int, k % 8 = 0 → 4 + 4 ≤ k → roundUpTo (4 + 4) 8 ≤ k) ∧
    (4104 : Int) - 4 + sizeofBlockHeader = 4104 ∧
    (4104 : Int) + 4 ≤ 4104 - 4 + GET_SIZE (runCalls 1 initHeap [Call.alloc 4]).2.mem (4104 - 4) :=
  C13_allocated_header 1 initHeap 4 4104 (runCalls 1 initHeap [Call.alloc 4]).2 rfl (by decide)

/-- C15 as stated fails: after `myInit(4096)`, `myAlloc(4)` splits the free
block at 4100 and returns 4104, and the cursor is then 4108, the start of the
free remainder, not 4100. -/
theorem C15_cursor_on_remainder :
    (runCalls 1 initHeap [Call.alloc 4]).1 = [some 4104] ∧
    (runCalls 1 initHeap [Call.alloc 4]).2.lastAlloc = 4108 ∧
    (runCalls 1 initHeap [Call.alloc 4]).2.lastAlloc ≠ 4104 - 4 := by
  decide

/-- C15, amended: after every `myAlloc` that returns a pointer `p`, the cursor
is `p - 4`, the start of the allocated block, when the block taken had exactly
the requested block size, and is `p - 4` plus the requested block size, the
start of the free remainder, when the block was split. -/
theorem C15_cursor_after_myAlloc (fuel : Nat) (s : Heap) (size p : Int) (t : Heap)
    (h : myAlloc fuel s size = some (p, t)) (hp : p ≠ 0) :
    t.lastAlloc =
      if s.mem (p - 4) - s.mem (p - 4) % 4 = requestedBlocksize size then p - 4
      else p - 4 + requestedBlocksize size := by
  obtain ⟨_, b, _, hpb, ht⟩ := myAlloc_some fuel s size p t h hp
  have hb : p - 4 = b := by omega
  rw [ht, chosenHeap_cursor, (cursorHeap_fields s).1, hb]

/-- C15, amended, at a split (`myInit(4096); myAlloc(4)`, cursor 4108) and at
a perfect fit (`myInit(4096); myAlloc(4084)`, cursor 4100). -/
theorem C15_cursor_after_myAlloc_witness :
    ((runCalls 1 initHeap [Call.alloc 4]).2.lastAlloc =
      if initHeap.mem (4104 - 4) - initHeap.mem (4104 - 4) % 4 = requestedBlocksize 4
      then 4104 - 4 else 4104 - 4 + requestedBlocksize 4) ∧
    ((runCalls 1 initHeap [Call.alloc 4084]).2.lastAlloc =
      if initHeap.mem (4104 - 4) - initHeap.mem (4104 - 4) % 4 = requestedBlocksize 4084
      then 4104 - 4 else 4104 - 4 + requestedBlocksize 4084) :=
  ⟨C15_cursor_after_myAlloc 1 initHeap 4 4104 (runCalls 1 initHeap [Call.alloc 4]).2 rfl
      (by decide),
    C15_cursor_after_myAlloc 1 initHeap 4084 4104 (runCalls 1 initHeap [Call.alloc 4084]).2 rfl
      (by decide)⟩

/-- C11, the code at a failing input: after `myInit(4096)` the end mark at
`heapStart + allocsize` is 1; the calls `myAlloc(4)`, `b = myAlloc(4076)`,
`myFree(b)` return 4104, 4112 and 0, and the word at `heapStart + allocsize` is
then -1. -/
theorem C11_end_mark_overwritten :
    initHeap.mem (initHeap.heapStart + initHeap.allocsize) = 1 ∧
    (runCalls 1 initHeap [Call.alloc 4, Call.alloc 4076, Call.free 4112]).1
      = [some 4104, some 4112, some 0] ∧
    (runCalls 1 initHeap [Call.alloc 4, Call.alloc 4076, Call.free 4112]).2.mem
      (initHeap.heapStart + initHeap.allocsize) = -1 := by
  decide

/-- C14, the code at a failing input: after `myInit(4096)`, `a = myAlloc(2044)`,
`myAlloc(12)` and `myFree(a)`, which return 4104, 6152 and 0, the block at 4100
is free with size 2048, the block size of a request of 2044 bytes.
`myAlloc(2044)` takes it as a perfect fit and returns 4104: the block is then
allocated with size 2048, and the header of the block that follows it, the
allocated block of 16 bytes at 6148, still has its prev_allocated bit clear. -/
theorem C14_next_prev_bit_not_set :
    (runCalls 2 initHeap [Call.alloc 2044, Call.alloc 12, Call.free 4104]).1
      = [some 4104, some 6152, some 0] ∧
    GET_ALLOC (runCalls 2 initHeap
      [Call.alloc 2044, Call.alloc 12, Call.free 4104]).2.mem 4100 = 0 ∧
    GET_SIZE (runCalls 2 initHeap
      [Call.alloc 2044, Call.alloc 12, Call.free 4104]).2.mem 4100 = requestedBlocksize 2044 ∧
    (runCalls 2 initHeap
      [Call.alloc 2044, Call.alloc 12, Call.free 4104, Call.alloc 2044]).1
      = [some 4104, some 6152, some 0, some 4104] ∧
    GET_ALLOC (runCalls 2 initHeap
      [Call.alloc 2044, Call.alloc 12, Call.free 4104, Call.alloc 2044]).2.mem 4100 = 1 ∧
    GET_SIZE (runCalls 2 initHeap
      [Call.alloc 2044, Call.alloc 12, Call.free 4104, Call.alloc 2044]).2.mem 4100 = 2048 ∧
    GET_ALLOC (runCalls 2 initHeap
      [Call.alloc 2044, Call.alloc 12, Call.free 4104, Call.alloc 2044]).2.mem
      (4100 + 2048) = 1 ∧
    GET_SIZE (runCalls 2 initHeap
      [Call.alloc 2044, Call.alloc 12, Call.free 4104, Call.alloc 2044]).2.mem
      (4100 + 2048) = 16 ∧
    GET_PREV (runCalls 2 initHeap
      [Call.alloc 2044, Call.alloc 12, Call.free 4104, Call.alloc 2044]).2.mem
      (4100 + 2048) = 0 := by
  decide

/-! ## Tilings after `myAlloc` -/

theorem Tiles_le (m : Int → Int) :
    ∀ (bs : List Int) (a e : Int), Tiles m a bs e → a ≤ e
  | [], a, e, h => by
    simp only [Tiles] at h
    omega
  | sz :: rest, a, e, h => by
    have := Tiles_le m rest (a + sz) e h.2.2.2
    have := h.2.1
    omega

theorem Tiles_frame (m m2 : Int → Int) :
    ∀ (bs : List Int) (a e : Int), (∀ x, a ≤ x → x < e → m2 x = m x) →
      Tiles m a bs e → Tiles m2 a bs e
  | [], _, _, _, h => h
  | sz :: rest, a, e, hf, h => by
    have hle := Tiles_le m rest (a + sz) e h.2.2.2
    have hpos := h.2.1
    have h1 := h.1
    refine ⟨?_, hpos, h.2.2.1, ?_⟩
    · rw [hf a (by omega) (by omega)]
      exact h1
    · exact Tiles_frame m m2 rest (a + sz) e (fun x hx1 hx2 => hf x (by omega) hx2) h.2.2.2

theorem Tiles_append (m : Int → Int) :
    ∀ (l1 l2 : List Int) (a b e : Int), Tiles m a l1 b → Tiles m b l2 e →
      Tiles m a (l1 ++ l2) e
  | [], l2, a, b, e, h1, h2 => by
    simp only [Tiles] at h1
    rw [h1]
    exact h2
  | sz :: rest, l2, a, b, e, h1, h2 =>
    ⟨h1.1, h1.2.1, h1.2.2.1, Tiles_append m rest l2 (a + sz) b e h1.2.2.2 h2⟩

theorem Tiles_split_at (m : Int → Int) :
    ∀ (bs : List Int) (a e b : Int), Tiles m a bs e → b ∈ blockStarts a bs →
      ∃ l1 sz l2, bs = l1 ++ sz :: l2 ∧ Tiles m a l1 b ∧ Tiles m b (sz :: l2) e
  | [], _, _, _, _, hb => by simp [blockStarts] at hb
  | sz :: rest, a, e, b, h, hb => by
    simp only [blockStarts, List.mem_cons] at hb
    rcases hb with hb | hb
    · refine ⟨[], sz, rest, rfl, ?_, ?_⟩
      · simp only [Tiles]
        exact hb.symm
      · rw [hb]
        exact h
    · obtain ⟨l1, sz2, l2, e1, t1, t2⟩ := Tiles_split_at m rest (a + sz) e b h.2.2.2 hb
      refine ⟨sz :: l1, sz2, l2, ?_, ?_, t2⟩
      · rw [e1]
        rfl
      · exact ⟨h.1, h.2.1, h.2.2.1, t1⟩

/-- The whole tiling of a well-formed heap; the scan order lists its block
starts. -/
theorem WellFormed.tiles {s : Heap} {pre post : List Int} (h : WellFormed s pre post) :
    Tiles s.mem s.heapStart (pre ++ post) (s.heapStart + s.allocsize) ∧
    ∀ b, b ∈ scanOrder s pre post ↔ b ∈ blockStarts s.heapStart (pre ++ post) := by
  refine ⟨Tiles_append _ _ _ _ _ _ h.before h.after, ?_⟩
  intro b
  rw [blockStarts_append s.mem pre post _ _ h.before]
  unfold scanOrder
  simp only [List.mem_append]
  tauto

/-! ## The cursor, the split and the choice of `myAlloc` -/

theorem cursorHeap_init_wellFormed : WellFormed (cursorHeap initHeap) [] [4088] :=
  ⟨by decide, by simp only [Tiles]; decide, by decide, by simp only [Tiles]; decide, by decide⟩

theorem blockStarts_size (m : Int → Int) :
    ∀ (bs : List Int) (a e : Int), Tiles m a bs e → ∀ x ∈ blockStarts a bs,
      0 < m x - m x % 4 ∧ (m x - m x % 4) % 8 = 0
  | [], _, _, _, x, hx => by simp [blockStarts] at hx
  | sz :: rest, a, e, h, x, hx => by
    simp only [blockStarts, List.mem_cons] at hx
    rcases hx with hx | hx
    · rw [hx, h.1]
      exact ⟨h.2.1, h.2.2.1⟩
    · exact blockStarts_size m rest (a + sz) e h.2.2.2 x hx

theorem WellFormed.block_size {s : Heap} {pre post : List Int} (h : WellFormed s pre post)
    (b : Int) (hb : b ∈ scanOrder s pre post) :
    0 < s.mem b - s.mem b % 4 ∧ (s.mem b - s.mem b % 4) % 8 = 0 :=
  blockStarts_size _ _ _ _ h.tiles.1 b ((h.tiles.2 b).1 hb)

/-- C16: in a well-formed heap, when `myAlloc` returns `p` after choosing at
`b = p - 4` a free block whose size `S` exceeds the requested block size `rb`,
the header at `b` decodes to size `rb`, allocated, with the prev_allocated bit
the block had; the header at `b + rb` decodes to size `S - rb`, free,
prev_allocated set; the word at `b + S - 4` is a footer of size `S - rb`; the
two sizes add up to `S`, the second is at least 8, and no word outside
`[b, b + S)` changes. -/
theorem C16_split (fuel : Nat) (s : Heap) (pre post : List Int) (size p : Int) (t : Heap)
    (hwf : WellFormed (cursorHeap s) pre post)
    (h : myAlloc fuel s size = some (p, t)) (hp : p ≠ 0)
    (hbig : GET_SIZE s.mem (p - 4) > requestedBlocksize size) :
    GET_SIZE t.mem (p - 4) = requestedBlocksize size ∧
    GET_ALLOC t.mem (p - 4) = 1 ∧
    GET_PREV t.mem (p - 4) = GET_PREV s.mem (p - 4) ∧
    GET_SIZE t.mem (p - 4 + requestedBlocksize size)
      = GET_SIZE s.mem (p - 4) - requestedBlocksize size ∧
    GET_ALLOC t.mem (p - 4 + requestedBlocksize size) = 0 ∧
    GET_PREV t.mem (p - 4 + requestedBlocksize size) = 2 ∧
    GET_SIZE t.mem (p - 4 + GET_SIZE s.mem (p - 4) - 4)
      = GET_SIZE s.mem (p - 4) - requestedBlocksize size ∧
    requestedBlocksize size + (GET_SIZE s.mem (p - 4) - requestedBlocksize size)
      = GET_SIZE s.mem (p - 4) ∧
    8 ≤ GET_SIZE s.mem (p - 4) - requestedBlocksize size ∧
    ∀ x, (x < p - 4 ∨ p - 4 + GET_SIZE s.mem (p - 4) ≤ x) → t.mem x = s.mem x := by
  obtain ⟨hfind, ht⟩ := myAlloc_some_wf fuel s pre post size p t hwf h hp
  have hs := (myAlloc_some fuel s size p t h hp).1
  obtain ⟨r8, rge, _, _, _⟩ := requestedBlocksize_facts size hs.1
  have hmemeq := (cursorHeap_fields s).1
  have hb := hwf.block_size (p - 4) (List.mem_of_find?_eq_some hfind)
  rw [hmemeq] at hb
  generalize requestedBlocksize size = rb at *
  generalize p - 4 = b at *
  have hgs : GET_SIZE s.mem b = s.mem b - s.mem b % 4 := by
    simp only [GET_SIZE, GET]
    omega
  rw [hgs] at hbig ⊢
  have hne : ¬ (s.mem b - s.mem b % 4 = rb) := by omega
  have htm : t.mem = (splitHeap (cursorHeap s) rb b).mem := by
    rw [ht, chosenHeap, hmemeq, if_neg hne]
  simp only [splitHeap, hmemeq] at htm
  generalize hS : s.mem b - s.mem b % 4 = S at *
  have hgp : GET_PREV s.mem b = 0 ∨ GET_PREV s.mem b = 2 := by
    unfold GET_PREV
    split_ifs
    · exact Or.inr rfl
    · exact Or.inl rfl
  have h1 : t.mem b = rb + 1 + GET_PREV s.mem b := by
    rw [htm, write_ne _ _ _ _ (by omega), write_ne _ _ _ _ (by omega), write_eq]
  have h2 : t.mem (b + rb) = S - rb + 2 := by
    rw [htm, write_ne _ _ _ _ (by omega), write_eq]
  have h3 : t.mem (b + S - 4) = S - rb + 2 := by
    rw [htm, write_eq]
  refine ⟨?_, ?_, ?_, ?_, ?_, ?_, ?_, by omega, by omega, ?_⟩
  · simp only [GET_SIZE, GET, h1]
    omega
  · simp only [GET_ALLOC, GET, h1]
    omega
  · rcases hgp with hgp | hgp
    · simp only [GET_PREV, GET, h1] at hgp ⊢
      split_ifs at hgp ⊢ <;> omega
    · simp only [GET_PREV, GET, h1] at hgp ⊢
      split_ifs at hgp ⊢ <;> omega
  · simp only [GET_SIZE, GET, h2]
    omega
  · simp only [GET_ALLOC, GET, h2]
    omega
  · simp only [GET_PREV, GET, h2]
    split_ifs <;> omega
  · simp only [GET_SIZE, GET, h3]
    omega
  · intro x hx
    rw [htm, write_ne _ _ _ _ (by omega), write_ne _ _ _ _ (by omega),
      write_ne _ _ _ _ (by omega)]


/-- C16 at `myInit(4096); myAlloc(4)`: the free block of 4088 bytes at 4100 is
split into an allocated block of 8 bytes and a free block of 4080 bytes. -/
theorem C16_split_witness :
    GET_SIZE initHeap.mem (4104 - 4) = 4088 ∧ requestedBlocksize 4 = 8 ∧
    GET_SIZE (runCalls 1 initHeap [Call.alloc 4]).2.mem (4104 - 4 + requestedBlocksize 4)
      = GET_SIZE initHeap.mem (4104 - 4) - requestedBlocksize 4 ∧
    GET_PREV (runCalls 1 initHeap [Call.alloc 4]).2.mem (4104 - 4 + requestedBlocksize 4) = 2 :=
  ⟨by decide, by decide,
    (C16_split 1 initHeap [] [4088] 4 4104 (runCalls 1 initHeap [Call.alloc 4]).2
      cursorHeap_init_wellFormed rfl (by decide) (by decide)).2.2.2.1,
    (C16_split 1 initHeap [] [4088] 4 4104 (runCalls 1 initHeap [Call.alloc 4]).2
      cursorHeap_init_wellFormed rfl (by decide) (by decide)).2.2.2.2.2.1⟩

theorem find?_split {α : Type} (p : α → Bool) :
    ∀ (l : List α) (b : α), l.find? p = some b →
      ∃ before after, l = before ++ b :: after ∧ (∀ a ∈ before, p a = false) ∧ p b = true
  | [], _, h => by simp at h
  | a :: l, b, h => by
    by_cases ha : p a = true
    · rw [List.find?_cons_of_pos _ ha] at h
      simp only [Option.some.injEq] at h
      exact ⟨[], l, by rw [h]; rfl, by simp, h ▸ ha⟩
    · rw [List.find?_cons_of_neg _ ha] at h
      obtain ⟨before, after, e, hb, hp⟩ := find?_split p l b h
      refine ⟨a :: before, after, by rw [e]; rfl, ?_, hp⟩
      intro x hx
      simp only [List.mem_cons] at hx
      rcases hx with hx | hx
      · rw [hx]
        simpa using ha
      · exact hb x hx

theorem find?_congr_mem {α : Type} (p q : α → Bool) :
    ∀ (l : List α), (∀ a ∈ l, p a = q a) → l.find? p = l.find? q
  | [], _ => rfl
  | a :: l, h => by
    have ha := h a (by simp)
    have ih := find?_congr_mem p q l (fun x hx => h x (by simp [hx]))
    simp only [List.find?_cons, ha, ih]

/-- C18: in a well-formed heap and for a valid size, `myAlloc` returns what
next-fit returns: it takes the first block, in address order from the cursor
block and wrapping from the end mark to `heapStart`, that is free and whose
size equals the requested block size or exceeds it by at least 8.  When it
returns a pointer `p`, every block scanned before the block at `p - 4` is
allocated or not usable. -/
theorem C18_next_fit (s : Heap) (pre post : List Int) (size : Int)
    (hwf : WellFormed (cursorHeap s) pre post) (hsize : 0 < size ∧ size ≤ s.allocsize)
    (fuel : Nat) (hfuel : pre.length + post.length ≤ fuel) :
    myAlloc fuel s size
      = nextFit (cursorHeap s) (requestedBlocksize size) (scanOrder (cursorHeap s) pre post) ∧
    ∀ p t, myAlloc fuel s size = some (p, t) → p ≠ 0 →
      ∃ before after, scanOrder (cursorHeap s) pre post = before ++ (p - 4) :: after ∧
        (∀ a ∈ before, ¬ Usable s.mem (requestedBlocksize size) a) ∧
        Usable s.mem (requestedBlocksize size) (p - 4) := by
  refine ⟨myAlloc_nextFit s pre post size hwf hsize fuel hfuel, ?_⟩
  intro p t h hp
  obtain ⟨hfind, _⟩ := myAlloc_some_wf fuel s pre post size p t hwf h hp
  obtain ⟨before, after, e, hb, hu⟩ := find?_split _ _ _ hfind
  refine ⟨before, after, e, ?_, by simpa using hu⟩
  intro a ha
  simpa using hb a ha

theorem usedCursorHeap_wellFormed : WellFormed usedCursorHeap [2048] [2040] :=
  ⟨by decide, by simp only [Tiles]; decide, by decide, by simp only [Tiles]; decide, by decide⟩

/-- C18 at `usedCursorHeap` with `myAlloc(100)`, which succeeds: the scan order
is the allocated block at 6148, where the cursor is, and then, past the end
mark, the free block at 4100.  The call returns 4104, the payload of the block
at 4100, which is usable, and the block scanned before it, at 6148, is not. -/
theorem C18_next_fit_witness :
    scanOrder (cursorHeap usedCursorHeap) [2048] [2040] = [6148, 4100] ∧
    myAlloc 2 usedCursorHeap 100
      = some (4104, (runCalls 2 usedCursorHeap [Call.alloc 100]).2) ∧
    myAlloc 2 usedCursorHeap 100
      = nextFit (cursorHeap usedCursorHeap) (requestedBlocksize 100)
          (scanOrder (cursorHeap usedCursorHeap) [2048] [2040]) ∧
    ¬ Usable usedCursorHeap.mem (requestedBlocksize 100) 6148 ∧
    ∃ before after,
      scanOrder (cursorHeap usedCursorHeap) [2048] [2040] = before ++ (4104 - 4) :: after ∧
      (∀ a ∈ before, ¬ Usable usedCursorHeap.mem (requestedBlocksize 100) a) ∧
      Usable usedCursorHeap.mem (requestedBlocksize 100) (4104 - 4) :=
  ⟨by decide, rfl,
    (C18_next_fit usedCursorHeap [2048] [2040] 100 usedCursorHeap_wellFormed (by decide) 2
      (by decide)).1,
    by decide,
    (C18_next_fit usedCursorHeap [2048] [2040] 100 usedCursorHeap_wellFormed (by decide) 2
      (by decide)).2 4104 (runCalls 2 usedCursorHeap [Call.alloc 100]).2 rfl (by decide)⟩

/-- C20: in a well-formed heap, where every block size is a multiple of 8, a
block larger than the requested block size is larger by at least
`MINIMUM_BLOCK_SIZE`, so a block is usable exactly when it is free and at least
as large as the requested block size, and `myAlloc` returns what plain next-fit
returns. -/
theorem C20_plain_next_fit (s : Heap) (pre post : List Int) (size : Int)
    (hwf : WellFormed (cursorHeap s) pre post) (hsize : 0 < size ∧ size ≤ s.allocsize)
    (fuel : Nat) (hfuel : pre.length + post.length ≤ fuel) :
    (∀ b ∈ scanOrder (cursorHeap s) pre post,
      s.mem b - s.mem b % 4 > requestedBlocksize size →
        s.mem b - s.mem b % 4 - requestedBlocksize size ≥ MINIMUM_BLOCK_SIZE) ∧
    (∀ b ∈ scanOrder (cursorHeap s) pre post,
      Usable s.mem (requestedBlocksize size) b ↔
        (GET_ALLOC s.mem b = 0 ∧ requestedBlocksize size ≤ s.mem b - s.mem b % 4)) ∧
    myAlloc fuel s size
      = plainNextFit (cursorHeap s) (requestedBlocksize size)
          (scanOrder (cursorHeap s) pre post) := by
  obtain ⟨r8, rge, _, _, _⟩ := requestedBlocksize_facts size hsize.1
  have hmemeq := (cursorHeap_fields s).1
  have hdead : ∀ b ∈ scanOrder (cursorHeap s) pre post,
      s.mem b - s.mem b % 4 > requestedBlocksize size →
        s.mem b - s.mem b % 4 - requestedBlocksize size ≥ MINIMUM_BLOCK_SIZE := by
    intro b hb hgt
    have := hwf.block_size b hb
    rw [hmemeq] at this
    simp only [MINIMUM_BLOCK_SIZE]
    omega
  have hiff : ∀ b ∈ scanOrder (cursorHeap s) pre post,
      Usable s.mem (requestedBlocksize size) b ↔
        (GET_ALLOC s.mem b = 0 ∧ requestedBlocksize size ≤ s.mem b - s.mem b % 4) := by
    intro b hb
    have := hdead b hb
    simp only [MINIMUM_BLOCK_SIZE] at this
    simp only [Usable, GET_ALLOC, GET]
    constructor
    · rintro ⟨h1, h2 | h2⟩
      · exact ⟨h1, by omega⟩
      · exact ⟨h1, by omega⟩
    · rintro ⟨h1, h2⟩
      refine ⟨h1, ?_⟩
      by_cases he : s.mem b - s.mem b % 4 = requestedBlocksize size
      · exact Or.inl he
      · exact Or.inr ⟨by omega, by omega⟩
  refine ⟨hdead, hiff, ?_⟩
  rw [myAlloc_nextFit s pre post size hwf hsize fuel hfuel]
  unfold nextFit plainNextFit
  rw [find?_congr_mem _ (fun a => decide (GET_ALLOC (cursorHeap s).mem a = 0 ∧
    requestedBlocksize size ≤ (cursorHeap s).mem a - (cursorHeap s).mem a % 4))]
  intro a ha
  rw [hmemeq]
  exact decide_eq_decide.mpr (hiff a ha)

/-- C20 at scenario B with `myAlloc(1000)`. -/
theorem C20_plain_next_fit_witness :
    myAlloc 2 scenarioB 1000
      = plainNextFit (cursorHeap scenarioB) (requestedBlocksize 1000)
          (scanOrder (cursorHeap scenarioB) [2056] [2032]) :=
  (C20_plain_next_fit scenarioB [2056] [2032] 1000 scenarioB_wellFormed (by decide) 2
    (by decide)).2.2

/-! ## Coalescing -/

theorem coalesce_mem_used_used (h : Heap) (ptr : Int)
    (c : GET_PREV h.mem (ptr - 4) ≠ 0 ∧
      GET_ALLOC h.mem (ptr - 4 + GET_SIZE h.mem (ptr - 4)) ≠ 0) :
    (coalesce h ptr).2.mem = write h.mem (ptr - 4 + GET_SIZE h.mem (ptr - 4))
      (h.mem (ptr - 4 + GET_SIZE h.mem (ptr - 4)) - 2) := by
  unfold coalesce
  simp only []
  rw [if_pos c]

theorem coalesce_mem_used_free (h : Heap) (ptr : Int)
    (c : GET_PREV h.mem (ptr - 4) ≠ 0 ∧
      ¬ GET_ALLOC h.mem (ptr - 4 + GET_SIZE h.mem (ptr - 4)) ≠ 0) :
    (coalesce h ptr).2.mem =
      write (write h.mem (ptr - 4)
          (h.mem (ptr - 4) + GET_SIZE h.mem (ptr - 4 + GET_SIZE h.mem (ptr - 4))))
        (ptr - 4 + (h.mem (ptr - 4) + GET_SIZE h.mem (ptr - 4 + GET_SIZE h.mem (ptr - 4))
          - (h.mem (ptr - 4) + GET_SIZE h.mem (ptr - 4 + GET_SIZE h.mem (ptr - 4))) % 8) - 4)
        (h.mem (ptr - 4) + GET_SIZE h.mem (ptr - 4 + GET_SIZE h.mem (ptr - 4))) := by
  unfold coalesce
  simp only []
  rw [if_neg (by tauto), if_pos c]
  simp only [GET_SIZE, GET, write_eq]

theorem coalesce_mem_free_used (h : Heap) (ptr : Int)
    (c : ¬ GET_PREV h.mem (ptr - 4) ≠ 0 ∧
      GET_ALLOC h.mem (ptr - 4 + GET_SIZE h.mem (ptr - 4)) ≠ 0)
    (P v : Int) (hP : ptr - 4 - 4 - GET_SIZE h.mem (ptr - 4 - 4) + 4 = P)
    (hv : h.mem P + GET_SIZE h.mem (ptr - 4) = v) :
    (coalesce h ptr).2.mem =
      write (write (write h.mem P v) (P + (v - v % 8) - 4) v) (P + (v - v % 8))
        (write (write h.mem P v) (P + (v - v % 8) - 4) v (P + (v - v % 8)) - 2) := by
  have hne : P ≠ P + (v - v % 8) - 4 := by omega
  unfold coalesce
  simp only []
  rw [if_neg (by tauto), if_neg (by tauto), if_pos c]
  simp only [hP, hv]
  simp only [GET_SIZE, GET, write_eq, write_ne _ _ _ _ hne]

theorem coalesce_mem_free_free (h : Heap) (ptr : Int)
    (c1 : ¬ GET_PREV h.mem (ptr - 4) ≠ 0)
    (c2 : ¬ GET_ALLOC h.mem (ptr - 4 + GET_SIZE h.mem (ptr - 4)) ≠ 0)
    (P v : Int) (hP : ptr - 4 - 4 - GET_SIZE h.mem (ptr - 4 - 4) + 4 = P)
    (hv : h.mem P + (GET_SIZE h.mem (ptr - 4)
      + GET_SIZE h.mem (ptr - 4 + GET_SIZE h.mem (ptr - 4))) = v) :
    (coalesce h ptr).2.mem = write (write h.mem P v) (P + (v - v % 8) - 4) v := by
  unfold coalesce
  simp only []
  rw [if_neg (by tauto), if_neg (by tauto), if_neg (by tauto)]
  simp only [hP, hv]
  simp only [GET_SIZE, GET, write_eq]


theorem GET_PREV_ne_zero (m : Int → Int) (a : Int) : GET_PREV m a ≠ 0 ↔ 2 ≤ m a % 4 := by
  unfold GET_PREV GET
  split_ifs with c
  · simp [c]
  · simp [c]

theorem GET_ALLOC_ne_zero (m : Int → Int) (a : Int) : GET_ALLOC m a ≠ 0 ↔ m a % 2 = 1 := by
  unfold GET_ALLOC GET
  omega

/-- What `coalesce` leaves around a block that `myFree` has just marked free. -/
theorem coalesce_merge (h : Heap) (ptr w wN sP : Int)
    (hw : h.mem (ptr - 4) = w) (hB : w % 8 = 0 ∨ w % 8 = 2) (hsB : 0 < w - w % 8)
    (hwN : h.mem (ptr - 4 + (w - w % 8)) = wN) (hN : wN % 8 < 4)
    (hsN : wN % 2 = 0 → 0 < wN - wN % 8)
    (hfoot : h.mem (ptr - 4 + (w - w % 8) - 4) = w)
    (hNN : wN % 2 = 0 → h.mem (ptr - 4 + (w - w % 8) + (wN - wN % 8)) % 4 < 2)
    (hP : w % 4 < 2 → 0 < sP ∧ h.mem (ptr - 4 - 4) - h.mem (ptr - 4 - 4) % 8 = sP ∧
      (h.mem (ptr - 4 - sP) % 8 = 0 ∨ h.mem (ptr - 4 - sP) % 8 = 2) ∧
      h.mem (ptr - 4 - sP) - h.mem (ptr - 4 - sP) % 8 = sP)
    (start total : Int)
    (hstart : start = if w % 4 < 2 then ptr - 4 - sP else ptr - 4)
    (htotal : total = (w - w % 8) + (if w % 4 < 2 then sP else 0)
      + (if wN % 2 = 0 then wN - wN % 8 else 0)) :
    (coalesce h ptr).2.mem start % 2 = 0 ∧
    (coalesce h ptr).2.mem start - (coalesce h ptr).2.mem start % 8 = total ∧
    (coalesce h ptr).2.mem (start + total - 4) = (coalesce h ptr).2.mem start ∧
    (2 ≤ wN % 4 → (coalesce h ptr).2.mem (start + total) % 4 < 2) := by
  have hgs : GET_SIZE h.mem (ptr - 4) = w - w % 8 := by simp only [GET_SIZE, GET, hw]
  have hgsN : GET_SIZE h.mem (ptr - 4 + GET_SIZE h.mem (ptr - 4)) = wN - wN % 8 := by
    rw [hgs]
    simp only [GET_SIZE, GET, hwN]
  have hcp : GET_PREV h.mem (ptr - 4) ≠ 0 ↔ 2 ≤ w % 4 := by rw [GET_PREV_ne_zero, hw]
  have hca : GET_ALLOC h.mem (ptr - 4 + GET_SIZE h.mem (ptr - 4)) ≠ 0 ↔ wN % 2 = 1 := by
    rw [GET_ALLOC_ne_zero, hgs, hwN]
  by_cases hp : 2 ≤ w % 4
  · have hst : start = ptr - 4 := by rw [hstart, if_neg (by omega)]
    by_cases ha : wN % 2 = 1
    · -- prev used, next used
      have htot : total = w - w % 8 := by
        rw [htotal, if_neg (by omega), if_neg (by omega)]
        omega
      rw [coalesce_mem_used_used h ptr ⟨hcp.2 hp, hca.2 ha⟩, hgs, hst, htot]
      rw [write_ne _ _ _ _ (by omega), write_ne _ _ _ _ (by omega), write_eq, hw, hfoot, hwN]
      refine ⟨by omega, by omega, rfl, fun _ => by omega⟩
    · -- prev used, next free
      have htot : total = w - w % 8 + (wN - wN % 8) := by
        rw [htotal, if_neg (by omega), if_pos (by omega)]
        omega
      have hnn := hNN (by omega)
      have hsN2 := hsN (by omega)
      rw [coalesce_mem_used_free h ptr ⟨hcp.2 hp, fun c => ha (hca.1 c)⟩, hgsN, hw, hst, htot]
      have e : w + (wN - wN % 8) - (w + (wN - wN % 8)) % 8 = w - w % 8 + (wN - wN % 8) := by
        omega
      rw [e]
      rw [write_ne _ _ _ (ptr - 4) (by omega), write_eq, write_eq,
        write_ne _ _ _ _ (by omega), write_ne _ _ _ _ (by omega)]
      refine ⟨by omega, by omega, rfl, fun _ => ?_⟩
      rw [show ptr - 4 + (w - w % 8 + (wN - wN % 8))
        = ptr - 4 + (w - w % 8) + (wN - wN % 8) by omega]
      exact hnn
  · have hst : start = ptr - 4 - sP := by rw [hstart, if_pos (by omega)]
    obtain ⟨hsP, hpf, hwP, hpsz⟩ := hP (by omega)
    have hPd : ptr - 4 - 4 - GET_SIZE h.mem (ptr - 4 - 4) + 4 = ptr - 4 - sP := by
      simp only [GET_SIZE, GET]
      omega
    by_cases ha : wN % 2 = 1
    · -- prev free, next used
      have htot : total = w - w % 8 + sP := by
        rw [htotal, if_pos (by omega), if_neg (by omega)]
        omega
      rw [coalesce_mem_free_used h ptr ⟨fun c => hp (hcp.1 c), hca.2 ha⟩ (ptr - 4 - sP)
        (h.mem (ptr - 4 - sP) + (w - w % 8)) hPd (by rw [hgs]), hst, htot]
      have e : h.mem (ptr - 4 - sP) + (w - w % 8) - (h.mem (ptr - 4 - sP) + (w - w % 8)) % 8
          = sP + (w - w % 8) := by omega
      rw [e]
      have e2 : ptr - 4 - sP + (sP + (w - w % 8)) = ptr - 4 + (w - w % 8) := by omega
      have e3 : ptr - 4 - sP + (w - w % 8 + sP) = ptr - 4 + (w - w % 8) := by omega
      rw [e2, e3]
      rw [write_ne _ _ _ (ptr - 4 - sP) (by omega), write_ne _ _ _ (ptr - 4 - sP) (by omega),
        write_eq, write_ne _ _ _ (ptr - 4 + (w - w % 8) - 4) (by omega), write_eq, write_eq,
        write_ne _ _ _ (ptr - 4 + (w - w % 8)) (by omega),
        write_ne _ _ _ (ptr - 4 + (w - w % 8)) (by omega), hwN]
      refine ⟨by omega, by omega, rfl, fun _ => by omega⟩
    · -- prev free, next free
      have htot : total = w - w % 8 + sP + (wN - wN % 8) := by
        rw [htotal, if_pos (by omega), if_pos (by omega)]
      have hnn := hNN (by omega)
      have hsN2 := hsN (by omega)
      rw [coalesce_mem_free_free h ptr (fun c => hp (hcp.1 c)) (fun c => ha (hca.1 c))
        (ptr - 4 - sP) (h.mem (ptr - 4 - sP) + (w - w % 8 + (wN - wN % 8))) hPd
        (by rw [hgsN, hgs]), hst, htot]
      have e : h.mem (ptr - 4 - sP) + (w - w % 8 + (wN - wN % 8))
          - (h.mem (ptr - 4 - sP) + (w - w % 8 + (wN - wN % 8))) % 8
          = sP + (w - w % 8) + (wN - wN % 8) := by omega
      rw [e]
      have e2 : ptr - 4 - sP + (sP + (w - w % 8) + (wN - wN % 8)) - 4
          = ptr - 4 + (w - w % 8) + (wN - wN % 8) - 4 := by omega
      have e3 : ptr - 4 - sP + (w - w % 8 + sP + (wN - wN % 8))
          = ptr - 4 + (w - w % 8) + (wN - wN % 8) := by omega
      rw [e2, e3]
      rw [write_ne _ _ _ (ptr - 4 - sP) (by omega), write_eq, write_eq,
        write_ne _ _ _ (ptr - 4 + (w - w % 8) + (wN - wN % 8)) (by omega),
        write_ne _ _ _ (ptr - 4 + (w - w % 8) + (wN - wN % 8)) (by omega)]
      refine ⟨by omega, by omega, rfl, fun _ => hnn⟩


/-- What a successful `myFree` leaves around the block it frees. -/
theorem myFree_merge (s : Heap) (ptr sP : Int) (hs : FreeSite s ptr sP) :
    (myFree s ptr).1 = 0 ∧
    (myFree s ptr).2.mem (mergedStart s ptr sP) % 2 = 0 ∧
    (myFree s ptr).2.mem (mergedStart s ptr sP)
      - (myFree s ptr).2.mem (mergedStart s ptr sP) % 8 = mergedSize s ptr sP ∧
    (myFree s ptr).2.mem (mergedStart s ptr sP + mergedSize s ptr sP - 4)
      = (myFree s ptr).2.mem (mergedStart s ptr sP) ∧
    (GET_PREV s.mem (nextHeader s ptr) ≠ 0 →
      (myFree s ptr).2.mem (mergedStart s ptr sP + mergedSize s ptr sP) % 4 < 2) := by
  obtain ⟨hchk, hhdr, hsize, hnext, hnsz, hafter, hprev⟩ := hs
  rw [myFree_of_checks s ptr hchk]
  refine ⟨(coalesce_fields _ ptr).1, ?_⟩
  have halloc : s.mem (ptr - 4) % 2 = 1 := (GET_ALLOC_ne_zero _ _).1 hchk.2.2.2
  simp only [nextHeader, GET_SIZE, GET_ALLOC, GET_PREV, GET] at hsize hnext hnsz hafter hprev
  have hm : ∀ x, (freedHeap s ptr).mem x =
      write (write s.mem (ptr - 4) (s.mem (ptr - 4) - 1))
        (ptr - 4 + (s.mem (ptr - 4) - s.mem (ptr - 4) % 8) - 4) (s.mem (ptr - 4) - 1) x := by
    intro x
    simp only [freedHeap, GET_SIZE, GET, write_eq]
    rw [show s.mem (ptr - 4) - 1 - (s.mem (ptr - 4) - 1) % 8
      = s.mem (ptr - 4) - s.mem (ptr - 4) % 8 by omega]
  have e1 : s.mem (ptr - 4) - 1 - (s.mem (ptr - 4) - 1) % 8
      = s.mem (ptr - 4) - s.mem (ptr - 4) % 8 := by omega
  have hnp : GET_PREV s.mem (nextHeader s ptr) ≠ 0 ↔
      2 ≤ s.mem (ptr - 4 + (s.mem (ptr - 4) - s.mem (ptr - 4) % 8)) % 4 := by
    rw [GET_PREV_ne_zero]
    simp only [nextHeader, GET_SIZE, GET]
  rw [hnp]
  refine coalesce_merge (freedHeap s ptr) ptr (s.mem (ptr - 4) - 1)
    (s.mem (ptr - 4 + (s.mem (ptr - 4) - s.mem (ptr - 4) % 8))) sP ?_ (by omega) (by omega)
    ?_ (by omega) hnsz ?_ ?_ ?_ _ _ ?_ ?_
  · rw [hm, write_ne _ _ _ _ (by omega), write_eq]
  · rw [e1, hm, write_ne _ _ _ _ (by omega), write_ne _ _ _ _ (by omega)]
  · rw [e1, hm, write_eq]
  · intro hfree
    have := hafter hfree
    rw [e1, hm, write_ne _ _ _ _ (by omega), write_ne _ _ _ _ (by omega)]
    split_ifs at this with c
    · exact absurd this (by decide)
    · omega
  · intro hpf
    have hpc : (if 2 ≤ s.mem (ptr - 4) % 4 then (2 : Int) else 0) = 0 := by
      rw [if_neg (by omega)]
    obtain ⟨p1, p2, p3, p4, p5⟩ := hprev hpc
    rw [hm, write_ne _ _ _ _ (by omega), write_ne _ _ _ _ (by omega),
      hm, write_ne _ _ _ _ (by omega), write_ne _ _ _ _ (by omega)]
    exact ⟨p1, p2, by omega, p5⟩
  · simp only [mergedStart, GET_PREV, GET]
    split_ifs <;> first | rfl | omega
  · simp only [mergedSize, nextHeader, GET_SIZE, GET_ALLOC, GET_PREV, GET, e1]
    split_ifs <;> first | rfl | omega


/-- Every block of a `Linked` tiling that ends at the end mark has the facts of
`FreeSite` other than the checks of `myFree`, given those about the block before
the first one. -/
theorem linked_site (m : Int → Int) (e : Int) (he : m e = 1) :
    ∀ (bs : List Int) (a : Int), Tiles m a bs e → Linked m a bs →
      (∃ sP, GET_PREV m a = 0 →
        0 < sP ∧ GET_SIZE m (a - 4) = sP ∧ GET_ALLOC m (a - sP) = 0 ∧
        m (a - sP) % 8 < 4 ∧ GET_SIZE m (a - sP) = sP) →
      ∀ b ∈ blockStarts a bs,
        (a ≤ b ∧ b % 8 = a % 8 ∧ b + 8 ≤ e) ∧
        m b % 8 < 4 ∧ 0 < GET_SIZE m b ∧ m (b + GET_SIZE m b) % 8 < 4 ∧
        (GET_ALLOC m (b + GET_SIZE m b) = 0 → 0 < GET_SIZE m (b + GET_SIZE m b)) ∧
        (GET_ALLOC m (b + GET_SIZE m b) = 0 →
          GET_PREV m (b + GET_SIZE m b + GET_SIZE m (b + GET_SIZE m b)) = 0) ∧
        ∃ sP, GET_PREV m b = 0 →
          0 < sP ∧ GET_SIZE m (b - 4) = sP ∧ GET_ALLOC m (b - sP) = 0 ∧
          m (b - sP) % 8 < 4 ∧ GET_SIZE m (b - sP) = sP
  | [], _, _, _, _, b, hb => by simp [blockStarts] at hb
  | sz :: rest, a, ht, hl, hprev, b, hb => by
    obtain ⟨h1, hpos, h8, ht2⟩ := ht
    obtain ⟨l1, l2, l3, l4, hl2⟩ := hl
    have hle := Tiles_le m rest (a + sz) e ht2
    have hgs : GET_SIZE m a = sz := by
      simp only [GET_SIZE, GET]
      omega
    simp only [blockStarts, List.mem_cons] at hb
    rcases hb with hb | hb
    · subst hb
      rw [hgs]
      refine ⟨⟨by omega, rfl, by omega⟩, l1, hpos, ?_, ?_, ?_, hprev⟩
      · cases rest with
        | nil =>
          simp only [Tiles] at ht2
          rw [ht2, he]
          decide
        | cons sz2 rest2 => exact hl2.1
      · intro hfree
        cases rest with
        | nil =>
          simp only [Tiles] at ht2
          rw [ht2] at hfree
          simp only [GET_ALLOC, GET, he] at hfree
          exact absurd hfree (by decide)
        | cons sz2 rest2 =>
          have := ht2.1
          have := ht2.2.1
          have := hl2.1
          simp only [GET_SIZE, GET]
          omega
      · intro hfree
        cases rest with
        | nil =>
          simp only [Tiles] at ht2
          rw [ht2] at hfree
          simp only [GET_ALLOC, GET, he] at hfree
          exact absurd hfree (by decide)
        | cons sz2 rest2 =>
          have e2 : GET_SIZE m (b + sz) = sz2 := by
            have := ht2.1
            have := hl2.1
            simp only [GET_SIZE, GET]
            omega
          rw [e2]
          exact hl2.2.2.1 hfree
    · have hprev2 : ∃ sP, GET_PREV m (a + sz) = 0 →
          0 < sP ∧ GET_SIZE m (a + sz - 4) = sP ∧ GET_ALLOC m (a + sz - sP) = 0 ∧
          m (a + sz - sP) % 8 < 4 ∧ GET_SIZE m (a + sz - sP) = sP := by
        refine ⟨sz, fun hp => ?_⟩
        have hrest : rest ≠ [] := by
          intro hr
          rw [hr] at hb
          simp [blockStarts] at hb
        have hfree : GET_ALLOC m a = 0 := by
          by_contra hne
          exact l4 hrest hne hp
        have e3 : a + sz - sz = a := by omega
        rw [e3]
        exact ⟨hpos, l2 hfree, hfree, l1, hgs⟩
      have ih := linked_site m e he rest (a + sz) ht2 hl2 hprev2 b hb
      refine ⟨⟨by omega, by omega, ih.1.2.2⟩, ih.2⟩

/-- In a `Consistent` heap every allocated block is a `FreeSite`. -/
theorem Consistent.freeSite {s : Heap} {bs : List Int} (h : Consistent s bs) (ptr : Int)
    (hb : ptr - 4 ∈ blockStarts s.heapStart bs) (ha : GET_ALLOC s.mem (ptr - 4) ≠ 0) :
    ∃ sP, FreeSite s ptr sP := by
  obtain ⟨hal, ⟨_, r1, r2, r3⟩, ht, he, hf, hl⟩ := h
  obtain ⟨⟨b1, b2, b3⟩, c1, c2, c3, c4, c5, sP, c6⟩ :=
    linked_site s.mem _ he bs s.heapStart ht hl ⟨0, fun hp => absurd hp hf⟩ (ptr - 4) hb
  refine ⟨sP, ?_, c1, c2, c3, c4, c5, c6⟩
  refine ⟨by omega, by omega, ?_, ha⟩
  simp only [u32]
  omega

/-- The heap of three blocks and a free remainder is `Consistent`. -/
theorem threeBlocksHeap_consistent : Consistent threeBlocksHeap [8, 8, 8, 4064] :=
  ⟨by decide, ⟨by decide, by decide, by decide, by decide⟩, by simp only [Tiles]; decide,
    by decide, by decide, by simp only [Linked]; decide⟩

/-- The heap of two allocated blocks that fill the region is `Consistent`. -/
theorem lastBlockHeap_consistent : Consistent lastBlockHeap [8, 4080] :=
  ⟨by decide, ⟨by decide, by decide, by decide, by decide⟩, by simp only [Tiles]; decide,
    by decide, by decide, by simp only [Linked]; decide⟩

/-- C17: in a well-formed heap, when `myFree` frees an allocated block `B` of
size `s`, with `P` of size `sp` the block before it, if any, and `N` of size `sn`
the block after it, if any, it returns 0; the free block that results starts at
`P` if `P` was free and at `B` otherwise, its header is that of a free block of
size `s + (sp if P was free) + (sn if N was free)`, and the word in its last 4
bytes carries that same size; when `B` has a block after it, whose
prev_allocated bit is therefore set, the block after the resulting free block
has its prev_allocated bit clear. -/
theorem C17_coalesce_postcondition (s : Heap) (ptr sP : Int) (hs : FreeSite s ptr sP) :
    (myFree s ptr).1 = 0 ∧
    GET_ALLOC (myFree s ptr).2.mem (mergedStart s ptr sP) = 0 ∧
    GET_SIZE (myFree s ptr).2.mem (mergedStart s ptr sP) = mergedSize s ptr sP ∧
    GET_SIZE (myFree s ptr).2.mem (mergedStart s ptr sP + mergedSize s ptr sP - 4)
      = mergedSize s ptr sP ∧
    (GET_PREV s.mem (nextHeader s ptr) ≠ 0 →
      GET_PREV (myFree s ptr).2.mem (mergedStart s ptr sP + mergedSize s ptr sP) = 0) := by
  obtain ⟨h0, h1, h2, h3, h4⟩ := myFree_merge s ptr sP hs
  refine ⟨h0, h1, h2, ?_, ?_⟩
  · simp only [GET_SIZE, GET] at h2 ⊢
    rw [h3]
    exact h2
  · intro hn
    have := h4 hn
    simp only [GET_PREV, GET]
    rw [if_neg (by omega)]

theorem threeBlocksHeap_site : FreeSite threeBlocksHeap 4112 8 :=
  ⟨by unfold FreeChecks; decide, by decide, by decide, by decide, by decide, by decide,
    by decide⟩

theorem lastBlockHeap_site : FreeSite lastBlockHeap 4112 0 :=
  ⟨by unfold FreeChecks; decide, by decide, by decide, by decide, by decide, by decide,
    by decide⟩

/-- C17 at `myInit(4096)`, three calls `myAlloc(4)` and `myFree(4104)`: freeing
4112 merges the block at 4108 into the free block at 4100, which then has 16
bytes, and clears the prev_allocated bit of the block at 4116.  And at
`lastBlockHeap`, where the block of 4112 is the last one: freeing it leaves a
free block of 4080 bytes at 4108. -/
theorem C17_coalesce_postcondition_witness :
    (mergedStart threeBlocksHeap 4112 8 = 4100 ∧ mergedSize threeBlocksHeap 4112 8 = 16 ∧
      (myFree threeBlocksHeap 4112).1 = 0 ∧
      GET_ALLOC (myFree threeBlocksHeap 4112).2.mem (mergedStart threeBlocksHeap 4112 8) = 0 ∧
      GET_SIZE (myFree threeBlocksHeap 4112).2.mem (mergedStart threeBlocksHeap 4112 8)
        = mergedSize threeBlocksHeap 4112 8 ∧
      GET_SIZE (myFree threeBlocksHeap 4112).2.mem
        (mergedStart threeBlocksHeap 4112 8 + mergedSize threeBlocksHeap 4112 8 - 4)
        = mergedSize threeBlocksHeap 4112 8 ∧
      GET_PREV (myFree threeBlocksHeap 4112).2.mem
        (mergedStart threeBlocksHeap 4112 8 + mergedSize threeBlocksHeap 4112 8) = 0) ∧
    (mergedStart lastBlockHeap 4112 0 = 4108 ∧ mergedSize lastBlockHeap 4112 0 = 4080 ∧
      (myFree lastBlockHeap 4112).1 = 0 ∧
      GET_ALLOC (myFree lastBlockHeap 4112).2.mem (mergedStart lastBlockHeap 4112 0) = 0 ∧
      GET_SIZE (myFree lastBlockHeap 4112).2.mem (mergedStart lastBlockHeap 4112 0)
        = mergedSize lastBlockHeap 4112 0 ∧
      GET_SIZE (myFree lastBlockHeap 4112).2.mem
        (mergedStart lastBlockHeap 4112 0 + mergedSize lastBlockHeap 4112 0 - 4)
        = mergedSize lastBlockHeap 4112 0) :=
  ⟨⟨by decide, by decide,
      (C17_coalesce_postcondition threeBlocksHeap 4112 8 threeBlocksHeap_site).1,
      (C17_coalesce_postcondition threeBlocksHeap 4112 8 threeBlocksHeap_site).2.1,
      (C17_coalesce_postcondition threeBlocksHeap 4112 8 threeBlocksHeap_site).2.2.1,
      (C17_coalesce_postcondition threeBlocksHeap 4112 8 threeBlocksHeap_site).2.2.2.1,
      (C17_coalesce_postcondition threeBlocksHeap 4112 8 threeBlocksHeap_site).2.2.2.2
        (by decide)⟩,
    ⟨by decide, by decide,
      (C17_coalesce_postcondition lastBlockHeap 4112 0 lastBlockHeap_site).1,
      (C17_coalesce_postcondition lastBlockHeap 4112 0 lastBlockHeap_site).2.1,
      (C17_coalesce_postcondition lastBlockHeap 4112 0 lastBlockHeap_site).2.2.1,
      (C17_coalesce_postcondition lastBlockHeap 4112 0 lastBlockHeap_site).2.2.2.1⟩⟩

/-! ## The tiling, the cursor and the footers along the calls -/

/-- A block of a tiling lies inside the tiling, and its size is a positive
multiple of 8. -/
theorem blockStarts_bounds (m : Int → Int) :
    ∀ (bs : List Int) (a e : Int), Tiles m a bs e → ∀ x ∈ blockStarts a bs,
      a ≤ x ∧ x + (m x - m x % 4) ≤ e ∧ 0 < m x - m x % 4 ∧ (m x - m x % 4) % 8 = 0
  | [], _, _, _, x, hx => by simp [blockStarts] at hx
  | sz :: rest, a, e, h, x, hx => by
    have hle := Tiles_le m rest (a + sz) e h.2.2.2
    simp only [blockStarts, List.mem_cons] at hx
    rcases hx with hx | hx
    · rw [hx, h.1]
      exact ⟨le_refl a, hle, h.2.1, h.2.2.1⟩
    · have ih := blockStarts_bounds m rest (a + sz) e h.2.2.2 x hx
      have := h.2.1
      exact ⟨by omega, ih.2⟩

/-- A tiling depends on the size fields of its headers only. -/
theorem Tiles_congr (m m2 : Int → Int) :
    ∀ (bs : List Int) (a e : Int),
      (∀ x ∈ blockStarts a bs, m2 x - m2 x % 4 = m x - m x % 4) →
      Tiles m a bs e → Tiles m2 a bs e
  | [], _, _, _, h => h
  | sz :: rest, a, e, hf, h => by
    refine ⟨?_, h.2.1, h.2.2.1, ?_⟩
    · rw [hf a (by simp [blockStarts])]
      exact h.1
    · exact Tiles_congr m m2 rest (a + sz) e
        (fun x hx => hf x (by simp [blockStarts, hx])) h.2.2.2

/-- A tiling is `Linked` exactly when each of its blocks is. -/
theorem Linked_iff (m : Int → Int) :
    ∀ (bs : List Int) (a e : Int), Tiles m a bs e →
      (Linked m a bs ↔ ∀ x ∈ blockStarts a bs, LinkedAt m e x)
  | [], _, _, _ => by simp [Linked, blockStarts]
  | sz :: rest, a, e, h => by
    obtain ⟨h1, hpos, h8, ht⟩ := h
    have ih := Linked_iff m rest (a + sz) e ht
    have hle := Tiles_le m rest (a + sz) e ht
    have gsz : GET_SIZE m a = sz := by
      simp only [GET_SIZE, GET]
      omega
    have hrest : rest ≠ [] ↔ a + sz ≠ e := by
      cases rest with
      | nil =>
        simp only [Tiles] at ht
        simp [ht]
      | cons s2 r =>
        have := Tiles_le m r _ e ht.2.2.2
        have := ht.2.1
        simp only [ne_eq, reduceCtorEq, not_false_eq_true, true_iff]
        omega
    simp only [Linked, blockStarts, List.mem_cons, forall_eq_or_imp, ih, LinkedAt, gsz, hrest]
    tauto

theorem GET_PREV_congr (m1 m2 : Int → Int) (a b : Int)
    (h : 2 ≤ m1 a % 4 ↔ 2 ≤ m2 b % 4) : GET_PREV m1 a = GET_PREV m2 b := by
  unfold GET_PREV GET
  by_cases c : 2 ≤ m1 a % 4
  · rw [if_pos c, if_pos (h.1 c)]
  · rw [if_neg c, if_neg (fun c2 => c (h.2 c2))]

/-- A heap with the globals of a `Consistent` heap is `Consistent` when its
memory is tiled up to an end mark of 1, its first header has the prev_allocated
bit set and each of its blocks is linked. -/
theorem Consistent.of_blocks {s t : Heap} {bs bs2 : List Int} (hc : Consistent s bs)
    (h1 : t.heapStart = s.heapStart) (h2 : t.allocsize = s.allocsize)
    (h3 : t.allocated_once = s.allocated_once)
    (ht : Tiles t.mem s.heapStart bs2 (s.heapStart + s.allocsize))
    (he : t.mem (s.heapStart + s.allocsize) = 1)
    (hf : GET_PREV t.mem s.heapStart ≠ 0)
    (hl : ∀ x ∈ blockStarts s.heapStart bs2, LinkedAt t.mem (s.heapStart + s.allocsize) x) :
    Consistent t bs2 := by
  obtain ⟨hal, ⟨r0, r1, r2, r3⟩, _, _, _, _⟩ := hc
  refine ⟨by rw [h1]; exact hal, ⟨by rw [h3]; exact r0, by rw [h1]; exact r1,
    by rw [h2]; exact r2, by rw [h1, h2]; exact r3⟩, ?_, ?_, ?_, ?_⟩
  · rw [h1, h2]
    exact ht
  · rw [h1, h2]
    exact he
  · rw [h1]
    exact hf
  · rw [h1]
    exact (Linked_iff _ _ _ _ ht).2 hl

/-- The blocks of a `Consistent` heap are linked. -/
theorem Consistent.linkedAt {s : Heap} {bs : List Int} (hc : Consistent s bs) :
    ∀ x ∈ blockStarts s.heapStart bs, LinkedAt s.mem (s.heapStart + s.allocsize) x :=
  (Linked_iff _ _ _ _ hc.tiles).1 hc.linked

/-- The blocks after the block that follows an allocated block `B`, or after
`B` itself when that block is allocated or is the end mark. -/
theorem next_decomp (m : Int → Int) (e B sB : Int) (rest : List Int) (he : m e = 1)
    (ht : Tiles m B (sB :: rest) e) (hl : Linked m B (sB :: rest))
    (ha : GET_ALLOC m B ≠ 0) (add : Int)
    (hadd : add = if GET_ALLOC m (B + sB) = 0 then GET_SIZE m (B + sB) else 0) :
    ∃ post, Tiles m (B + sB + add) post e ∧ 0 ≤ add ∧ add % 8 = 0 ∧
      (∀ x ∈ blockStarts (B + sB + add) post, x ∈ blockStarts (B + sB) rest) ∧
      (∀ x ∈ blockStarts (B + sB) rest, x ∈ blockStarts (B + sB + add) post ∨
        (x = B + sB ∧ GET_ALLOC m (B + sB) = 0)) ∧
      (post ≠ [] → GET_ALLOC m (B + sB) ≠ 0 → GET_PREV m (B + sB) ≠ 0) := by
  obtain ⟨_, _, _, ht2⟩ := ht
  obtain ⟨_, _, _, l4, hl2⟩ := hl
  cases rest with
  | nil =>
    simp only [Tiles] at ht2
    have h0 : add = 0 := by
      rw [hadd, ht2]
      simp only [GET_ALLOC, GET, he]
      rfl
    refine ⟨[], ?_, by omega, by omega, ?_, ?_, ?_⟩
    · simp only [Tiles]
      omega
    · intro x hx
      simp [blockStarts] at hx
    · intro x hx
      simp [blockStarts] at hx
    · intro h
      exact absurd rfl h
  | cons sN r2 =>
    obtain ⟨n1, n2, n3, n4⟩ := ht2
    by_cases hf : GET_ALLOC m (B + sB) = 0
    · have h0 : add = sN := by
        rw [hadd, if_pos hf]
        simp only [GET_SIZE, GET]
        omega
      rw [h0]
      refine ⟨r2, n4, by omega, n3, ?_, ?_, ?_⟩
      · intro x hx
        simp only [blockStarts, List.mem_cons]
        exact Or.inr hx
      · intro x hx
        simp only [blockStarts, List.mem_cons] at hx
        rcases hx with hx | hx
        · exact Or.inr ⟨hx, hf⟩
        · exact Or.inl hx
      · intro _ h
        exact absurd hf h
    · have h0 : add = 0 := by rw [hadd, if_neg hf]
      rw [h0, add_zero]
      refine ⟨sN :: r2, ⟨n1, n2, n3, n4⟩, by omega, by omega, fun x hx => hx,
        fun x hx => Or.inl hx, ?_⟩
      intro _ _
      exact l4 (by simp) ha


/-- The blocks of a `Linked` tiling around the allocated block of `ptr`: the
blocks `pre` before the block that a merge starts at, and the blocks `post`
after the block that it ends with. -/
theorem site_tiles (s : Heap) (ptr sP e : Int) (hsP : sP = GET_SIZE s.mem (ptr - 4 - 4))
    (he : s.mem e = 1) (ha : GET_ALLOC s.mem (ptr - 4) ≠ 0) :
    ∀ (bs : List Int) (a : Int), Tiles s.mem a bs e → Linked s.mem a bs →
      ptr - 4 ∈ blockStarts a bs → (ptr - 4 = a → GET_PREV s.mem a ≠ 0) →
      ∃ pre post, Tiles s.mem a pre (mergedStart s ptr sP) ∧
        Tiles s.mem (mergedStart s ptr sP + mergedSize s ptr sP) post e ∧
        0 < mergedSize s ptr sP ∧ mergedSize s ptr sP % 8 = 0 ∧
        (∀ x ∈ blockStarts a pre ++ mergedStart s ptr sP ::
            blockStarts (mergedStart s ptr sP + mergedSize s ptr sP) post,
          x ∈ blockStarts a bs) ∧
        (∀ x ∈ blockStarts a bs,
          x ∈ blockStarts a pre ++ mergedStart s ptr sP ::
            blockStarts (mergedStart s ptr sP + mergedSize s ptr sP) post ∨
          (x = ptr - 4 ∧ GET_PREV s.mem (ptr - 4) = 0) ∨
          (x = nextHeader s ptr ∧ GET_ALLOC s.mem (nextHeader s ptr) = 0)) ∧
        (post ≠ [] → GET_ALLOC s.mem (nextHeader s ptr) ≠ 0 →
          GET_PREV s.mem (nextHeader s ptr) ≠ 0)
  | [], _, _, _, hb, _ => by simp [blockStarts] at hb
  | sz :: rest, a, ht, hl, hb, hfirst => by
    by_cases hba : ptr - 4 = a
    · -- the block of `ptr` is the first one
      have hp := hfirst hba
      rw [← hba] at ht hl hp
      have gsz : GET_SIZE s.mem (ptr - 4) = sz := by
        have := ht.1
        have := ht.2.2.1
        simp only [GET_SIZE, GET]
        omega
      have hnh : nextHeader s ptr = ptr - 4 + sz := by rw [nextHeader, gsz]
      obtain ⟨post, p1, p2, p3, p4, p5, p6⟩ := next_decomp s.mem e (ptr - 4) sz rest he ht hl ha
        _ rfl
      have hst : mergedStart s ptr sP = ptr - 4 := by rw [mergedStart, if_neg hp]
      have hto : mergedSize s ptr sP = sz +
          (if GET_ALLOC s.mem (ptr - 4 + sz) = 0 then GET_SIZE s.mem (ptr - 4 + sz) else 0) := by
        rw [mergedSize, if_neg hp, hnh, gsz]
        omega
      have hpos := ht.2.1
      have h8 := ht.2.2.1
      rw [hst, hto, hnh, ← hba]
      rw [← add_assoc]
      refine ⟨[], post, rfl, p1, by omega, by omega, ?_, ?_, p6⟩
      · intro x hx
        simp only [blockStarts, List.nil_append, List.mem_cons] at hx ⊢
        rcases hx with hx | hx
        · exact Or.inl hx
        · exact Or.inr (p4 x hx)
      · intro x hx
        simp only [blockStarts, List.nil_append, List.mem_cons] at hx ⊢
        rcases hx with hx | hx
        · exact Or.inl (Or.inl hx)
        · rcases p5 x hx with h | h
          · exact Or.inl (Or.inr h)
          · exact Or.inr (Or.inr h)
    · simp only [blockStarts, List.mem_cons] at hb
      have hb2 : ptr - 4 ∈ blockStarts (a + sz) rest := by
        rcases hb with hb | hb
        · exact absurd hb hba
        · exact hb
      obtain ⟨t1, tpos, t8, t2⟩ := ht
      obtain ⟨l1, l2, l3, l4, hl2⟩ := hl
      by_cases hmerge : ptr - 4 = a + sz ∧ GET_PREV s.mem (ptr - 4) = 0
      · -- the block before the block of `ptr` is the first one, and is free
        obtain ⟨hbn, hp⟩ := hmerge
        cases rest with
        | nil => simp [blockStarts] at hb2
        | cons sB r2 =>
          have hfree : GET_ALLOC s.mem a = 0 := by
            by_contra hne
            apply l4 (by simp) hne
            rw [← hbn]
            exact hp
          have hfoot := l2 hfree
          rw [← hbn] at t2 hl2 hfoot
          have hsPz : sP = sz := by
            rw [hsP, ← hfoot]
          have gsz : GET_SIZE s.mem (ptr - 4) = sB := by
            have := t2.1
            have := t2.2.2.1
            simp only [GET_SIZE, GET]
            omega
          have hnh : nextHeader s ptr = ptr - 4 + sB := by rw [nextHeader, gsz]
          obtain ⟨post, p1, p2, p3, p4, p5, p6⟩ :=
            next_decomp s.mem e (ptr - 4) sB r2 he t2 hl2 ha _ rfl
          have hst : mergedStart s ptr sP = a := by
            rw [mergedStart, if_pos hp, hsPz]
            omega
          have hto : mergedSize s ptr sP = sz + sB +
              (if GET_ALLOC s.mem (ptr - 4 + sB) = 0 then GET_SIZE s.mem (ptr - 4 + sB)
                else 0) := by
            rw [mergedSize, if_pos hp, hnh, gsz, hsPz]
            omega
          have hpos := t2.2.1
          have h8 := t2.2.2.1
          have hadr : ∀ add : Int, a + (sz + sB + add) = ptr - 4 + sB + add := by
            intro add
            omega
          rw [hst, hto, hnh, hadr]
          refine ⟨[], post, rfl, p1, by omega, by omega, ?_, ?_, p6⟩
          · intro x hx
            simp only [blockStarts, List.nil_append, List.mem_cons] at hx ⊢
            rcases hx with hx | hx
            · exact Or.inl hx
            · have := p4 x hx
              rw [hbn] at this
              exact Or.inr (Or.inr this)
          · intro x hx
            simp only [blockStarts, List.nil_append, List.mem_cons] at hx ⊢
            rcases hx with hx | hx | hx
            · exact Or.inl (Or.inl hx)
            · exact Or.inr (Or.inl ⟨by omega, hp⟩)
            · rw [← hbn] at hx
              rcases p5 x hx with h | h
              · exact Or.inl (Or.inr h)
              · exact Or.inr (Or.inr h)
      · -- the merge starts after the first block
        have hfirst2 : ptr - 4 = a + sz → GET_PREV s.mem (a + sz) ≠ 0 := by
          intro hbn hz
          have hrest : rest ≠ [] := by
            intro hr
            rw [hr] at hb2
            simp [blockStarts] at hb2
          by_cases hfree : GET_ALLOC s.mem a = 0
          · exact hmerge ⟨hbn, by rw [hbn]; exact hz⟩
          · exact l4 hrest hfree hz
        obtain ⟨pre, post, q1, q2, q3, q4, q5, q6, q7⟩ :=
          site_tiles s ptr sP e hsP he ha rest (a + sz) t2 hl2 hb2 hfirst2
        refine ⟨sz :: pre, post, ⟨t1, tpos, t8, q1⟩, q2, q3, q4, ?_, ?_, q7⟩
        · intro x hx
          simp only [blockStarts, List.cons_append, List.mem_cons] at hx ⊢
          rcases hx with hx | hx
          · exact Or.inl hx
          · exact Or.inr (q5 x hx)
        · intro x hx
          simp only [blockStarts, List.cons_append, List.mem_cons] at hx ⊢
          rcases hx with hx | hx
          · exact Or.inl (Or.inl hx)
          · rcases q6 x hx with h | h
            · exact Or.inl (Or.inr h)
            · exact Or.inr h


/-- What `coalesce` leaves outside the block it builds. -/
theorem coalesce_frame (h : Heap) (ptr w wN sP : Int)
    (hw : h.mem (ptr - 4) = w) (hB : w % 8 = 0 ∨ w % 8 = 2) (hsB : 0 < w - w % 8)
    (hwN : h.mem (ptr - 4 + (w - w % 8)) = wN)
    (hsN : wN % 2 = 0 → 0 < wN - wN % 8)
    (hP : w % 4 < 2 → 0 < sP ∧ h.mem (ptr - 4 - 4) - h.mem (ptr - 4 - 4) % 8 = sP ∧
      (h.mem (ptr - 4 - sP) % 8 = 0 ∨ h.mem (ptr - 4 - sP) % 8 = 2) ∧
      h.mem (ptr - 4 - sP) - h.mem (ptr - 4 - sP) % 8 = sP)
    (start total : Int)
    (hstart : start = if w % 4 < 2 then ptr - 4 - sP else ptr - 4)
    (htotal : total = (w - w % 8) + (if w % 4 < 2 then sP else 0)
      + (if wN % 2 = 0 then wN - wN % 8 else 0)) :
    (∀ x, x < start ∨ start + total < x → (coalesce h ptr).2.mem x = h.mem x) ∧
    (coalesce h ptr).2.mem (start + total)
      = h.mem (start + total) - (if wN % 2 = 1 then 2 else 0) ∧
    (coalesce h ptr).2.mem start % 8 < 4 ∧
    (2 ≤ (coalesce h ptr).2.mem start % 4 ↔ 2 ≤ h.mem start % 4) := by
  have hgs : GET_SIZE h.mem (ptr - 4) = w - w % 8 := by simp only [GET_SIZE, GET, hw]
  have hgsN : GET_SIZE h.mem (ptr - 4 + GET_SIZE h.mem (ptr - 4)) = wN - wN % 8 := by
    rw [hgs]
    simp only [GET_SIZE, GET, hwN]
  have hcp : GET_PREV h.mem (ptr - 4) ≠ 0 ↔ 2 ≤ w % 4 := by rw [GET_PREV_ne_zero, hw]
  have hca : GET_ALLOC h.mem (ptr - 4 + GET_SIZE h.mem (ptr - 4)) ≠ 0 ↔ wN % 2 = 1 := by
    rw [GET_ALLOC_ne_zero, hgs, hwN]
  by_cases hp : 2 ≤ w % 4
  · have hst : start = ptr - 4 := by rw [hstart, if_neg (by omega)]
    by_cases ha : wN % 2 = 1
    · -- prev used, next used
      have htot : total = w - w % 8 := by
        rw [htotal, if_neg (by omega), if_neg (by omega)]
        omega
      rw [coalesce_mem_used_used h ptr ⟨hcp.2 hp, hca.2 ha⟩, hgs, hst, htot, if_pos ha]
      refine ⟨fun x hx => ?_, ?_, ?_, ?_⟩
      · rw [write_ne _ _ _ _ (by omega)]
      · rw [write_eq]
      · rw [write_ne _ _ _ _ (by omega), hw]
        omega
      · rw [write_ne _ _ _ _ (by omega)]
    · -- prev used, next free
      have htot : total = w - w % 8 + (wN - wN % 8) := by
        rw [htotal, if_neg (by omega), if_pos (by omega)]
        omega
      have hsN2 := hsN (by omega)
      rw [coalesce_mem_used_free h ptr ⟨hcp.2 hp, fun c => ha (hca.1 c)⟩, hgsN, hw, hst, htot,
        if_neg ha]
      have e : w + (wN - wN % 8) - (w + (wN - wN % 8)) % 8 = w - w % 8 + (wN - wN % 8) := by
        omega
      rw [e]
      refine ⟨fun x hx => ?_, ?_, ?_, ?_⟩
      · rw [write_ne _ _ _ _ (by omega), write_ne _ _ _ _ (by omega)]
      · rw [write_ne _ _ _ _ (by omega), write_ne _ _ _ _ (by omega)]
        omega
      · rw [write_ne _ _ _ _ (by omega), write_eq]
        omega
      · rw [write_ne _ _ _ _ (by omega), write_eq]
        omega
  · have hst : start = ptr - 4 - sP := by rw [hstart, if_pos (by omega)]
    obtain ⟨hsP, hpf, hwP, hpsz⟩ := hP (by omega)
    have hPd : ptr - 4 - 4 - GET_SIZE h.mem (ptr - 4 - 4) + 4 = ptr - 4 - sP := by
      simp only [GET_SIZE, GET]
      omega
    by_cases ha : wN % 2 = 1
    · -- prev free, next used
      have htot : total = w - w % 8 + sP := by
        rw [htotal, if_pos (by omega), if_neg (by omega)]
        omega
      rw [coalesce_mem_free_used h ptr ⟨fun c => hp (hcp.1 c), hca.2 ha⟩ (ptr - 4 - sP)
        (h.mem (ptr - 4 - sP) + (w - w % 8)) hPd (by rw [hgs]), hst, htot, if_pos ha]
      have e : h.mem (ptr - 4 - sP) + (w - w % 8) - (h.mem (ptr - 4 - sP) + (w - w % 8)) % 8
          = sP + (w - w % 8) := by omega
      rw [e]
      have e2 : ptr - 4 - sP + (sP + (w - w % 8)) = ptr - 4 + (w - w % 8) := by omega
      have e3 : ptr - 4 - sP + (w - w % 8 + sP) = ptr - 4 + (w - w % 8) := by omega
      rw [e2, e3]
      refine ⟨fun x hx => ?_, ?_, ?_, ?_⟩
      · rw [write_ne _ _ _ _ (by omega), write_ne _ _ _ _ (by omega),
          write_ne _ _ _ _ (by omega)]
      · rw [write_eq, write_ne _ _ _ _ (by omega), write_ne _ _ _ _ (by omega)]
      · rw [write_ne _ _ _ _ (by omega), write_ne _ _ _ _ (by omega), write_eq]
        omega
      · rw [write_ne _ _ _ _ (by omega), write_ne _ _ _ _ (by omega), write_eq]
        omega
    · -- prev free, next free
      have htot : total = w - w % 8 + sP + (wN - wN % 8) := by
        rw [htotal, if_pos (by omega), if_pos (by omega)]
      have hsN2 := hsN (by omega)
      rw [coalesce_mem_free_free h ptr (fun c => hp (hcp.1 c)) (fun c => ha (hca.1 c))
        (ptr - 4 - sP) (h.mem (ptr - 4 - sP) + (w - w % 8 + (wN - wN % 8))) hPd
        (by rw [hgsN, hgs]), hst, htot, if_neg ha]
      have e : h.mem (ptr - 4 - sP) + (w - w % 8 + (wN - wN % 8))
          - (h.mem (ptr - 4 - sP) + (w - w % 8 + (wN - wN % 8))) % 8
          = sP + (w - w % 8) + (wN - wN % 8) := by omega
      rw [e]
      refine ⟨fun x hx => ?_, ?_, ?_, ?_⟩
      · rw [write_ne _ _ _ _ (by omega), write_ne _ _ _ _ (by omega)]
      · rw [write_ne _ _ _ _ (by omega), write_ne _ _ _ _ (by omega)]
        omega
      · rw [write_ne _ _ _ _ (by omega), write_eq]
        omega
      · rw [write_ne _ _ _ _ (by omega), write_eq]
        omega

/-- What a successful `myFree` leaves outside the free block it builds: the
words before that block and after the header that follows it are unchanged, and
that header loses 2 when it is the header of an allocated block or the end
mark. -/
theorem myFree_frame (s : Heap) (ptr sP : Int) (hs : FreeSite s ptr sP) :
    (∀ x, x < mergedStart s ptr sP ∨ mergedStart s ptr sP + mergedSize s ptr sP < x →
      (myFree s ptr).2.mem x = s.mem x) ∧
    (myFree s ptr).2.mem (mergedStart s ptr sP + mergedSize s ptr sP)
      = s.mem (mergedStart s ptr sP + mergedSize s ptr sP)
        - (if GET_ALLOC s.mem (nextHeader s ptr) ≠ 0 then 2 else 0) ∧
    (myFree s ptr).2.mem (mergedStart s ptr sP) % 8 < 4 ∧
    mergedStart s ptr sP ≤ ptr - 4 ∧
    nextHeader s ptr ≤ mergedStart s ptr sP + mergedSize s ptr sP ∧
    (GET_ALLOC s.mem (nextHeader s ptr) ≠ 0 →
      mergedStart s ptr sP + mergedSize s ptr sP = nextHeader s ptr) ∧
    (2 ≤ (myFree s ptr).2.mem (mergedStart s ptr sP) % 4 ↔
      2 ≤ s.mem (mergedStart s ptr sP) % 4) := by
  obtain ⟨hchk, hhdr, hsize, hnext, hnsz, hafter, hprev⟩ := hs
  rw [myFree_of_checks s ptr hchk]
  have halloc : s.mem (ptr - 4) % 2 = 1 := (GET_ALLOC_ne_zero _ _).1 hchk.2.2.2
  simp only [nextHeader, GET_SIZE, GET_ALLOC, GET_PREV, GET] at hsize hnext hnsz hafter hprev
  have hm : ∀ x, (freedHeap s ptr).mem x =
      write (write s.mem (ptr - 4) (s.mem (ptr - 4) - 1))
        (ptr - 4 + (s.mem (ptr - 4) - s.mem (ptr - 4) % 8) - 4) (s.mem (ptr - 4) - 1) x := by
    intro x
    simp only [freedHeap, GET_SIZE, GET, write_eq]
    rw [show s.mem (ptr - 4) - 1 - (s.mem (ptr - 4) - 1) % 8
      = s.mem (ptr - 4) - s.mem (ptr - 4) % 8 by omega]
  have e1 : s.mem (ptr - 4) - 1 - (s.mem (ptr - 4) - 1) % 8
      = s.mem (ptr - 4) - s.mem (ptr - 4) % 8 := by omega
  have hpP : s.mem (ptr - 4) % 4 < 2 → 0 < sP := by
    intro hpf
    have hpc : (if 2 ≤ s.mem (ptr - 4) % 4 then (2 : Int) else 0) = 0 := by
      rw [if_neg (by omega)]
    exact (hprev hpc).1
  have hst : mergedStart s ptr sP
      = if (s.mem (ptr - 4) - 1) % 4 < 2 then ptr - 4 - sP else ptr - 4 := by
    simp only [mergedStart, GET_PREV, GET]
    split_ifs <;> first | rfl | omega
  have hto : mergedSize s ptr sP = (s.mem (ptr - 4) - 1 - (s.mem (ptr - 4) - 1) % 8)
      + (if (s.mem (ptr - 4) - 1) % 4 < 2 then sP else 0)
      + (if s.mem (ptr - 4 + (s.mem (ptr - 4) - s.mem (ptr - 4) % 8)) % 2 = 0
          then s.mem (ptr - 4 + (s.mem (ptr - 4) - s.mem (ptr - 4) % 8))
            - s.mem (ptr - 4 + (s.mem (ptr - 4) - s.mem (ptr - 4) % 8)) % 8 else 0) := by
    simp only [mergedSize, nextHeader, GET_SIZE, GET_ALLOC, GET_PREV, GET, e1]
    split_ifs <;> first | rfl | omega
  obtain ⟨f1, f2, f3, f4⟩ := coalesce_frame (freedHeap s ptr) ptr (s.mem (ptr - 4) - 1)
    (s.mem (ptr - 4 + (s.mem (ptr - 4) - s.mem (ptr - 4) % 8))) sP
    (by rw [hm, write_ne _ _ _ _ (by omega), write_eq]) (by omega) (by omega)
    (by rw [e1, hm, write_ne _ _ _ _ (by omega), write_ne _ _ _ _ (by omega)]) hnsz
    (by
      intro hpf
      have hpc : (if 2 ≤ s.mem (ptr - 4) % 4 then (2 : Int) else 0) = 0 := by
        rw [if_neg (by omega)]
      obtain ⟨p1, p2, p3, p4, p5⟩ := hprev hpc
      rw [hm, write_ne _ _ _ _ (by omega), write_ne _ _ _ _ (by omega),
        hm, write_ne _ _ _ _ (by omega), write_ne _ _ _ _ (by omega)]
      exact ⟨p1, p2, by omega, p5⟩)
    (mergedStart s ptr sP) (mergedSize s ptr sP) hst hto
  have hle1 : mergedStart s ptr sP ≤ ptr - 4 := by
    rw [hst]
    split_ifs with c
    · have := hpP (by omega)
      omega
    · exact le_refl _
  have hnn : 0 ≤ (if s.mem (ptr - 4 + (s.mem (ptr - 4) - s.mem (ptr - 4) % 8)) % 2 = 0
          then s.mem (ptr - 4 + (s.mem (ptr - 4) - s.mem (ptr - 4) % 8))
            - s.mem (ptr - 4 + (s.mem (ptr - 4) - s.mem (ptr - 4) % 8)) % 8 else 0) := by
    split_ifs with c
    · exact le_of_lt (hnsz c)
    · exact le_refl _
  have hend : mergedStart s ptr sP + mergedSize s ptr sP
      = ptr - 4 + (s.mem (ptr - 4) - s.mem (ptr - 4) % 8)
        + (if s.mem (ptr - 4 + (s.mem (ptr - 4) - s.mem (ptr - 4) % 8)) % 2 = 0
          then s.mem (ptr - 4 + (s.mem (ptr - 4) - s.mem (ptr - 4) % 8))
            - s.mem (ptr - 4 + (s.mem (ptr - 4) - s.mem (ptr - 4) % 8)) % 8 else 0) := by
    rw [hst, hto, e1]
    split_ifs <;> omega
  have hnh : nextHeader s ptr = ptr - 4 + (s.mem (ptr - 4) - s.mem (ptr - 4) % 8) := by
    simp only [nextHeader, GET_SIZE, GET]
  refine ⟨fun x hx => ?_, ?_, ?_, hle1, ?_, ?_, ?_⟩
  · rw [f1 x hx, hm, write_ne _ _ _ _ (by omega), write_ne _ _ _ _ (by omega)]
  · rw [f2, hm, write_ne _ _ _ _ (by omega), write_ne _ _ _ _ (by omega)]
    simp only [nextHeader, GET_SIZE, GET_ALLOC, GET]
    split_ifs <;> omega
  · exact f3
  · rw [hend, hnh]
    omega
  · intro hna
    rw [hend, hnh]
    rw [hnh] at hna
    simp only [GET_ALLOC, GET] at hna
    rw [if_neg hna]
    omega
  · rw [f4, hm]
    by_cases c : (s.mem (ptr - 4) - 1) % 4 < 2
    · have hsPpos := hpP (by omega)
      rw [hst, if_pos c, write_ne _ _ _ _ (by omega), write_ne _ _ _ _ (by omega)]
    · rw [hst, if_neg c, write_ne _ _ _ _ (by omega), write_eq]
      omega



/-- The local facts of a `FreeSite` with the size of the block before read from
the footer, as `coalesce` reads it. -/
theorem FreeSite.canon {s : Heap} {ptr sP : Int} (h : FreeSite s ptr sP) :
    FreeSite s ptr (GET_SIZE s.mem (ptr - 4 - 4)) := by
  obtain ⟨c1, c2, c3, c4, c5, c6, c7⟩ := h
  refine ⟨c1, c2, c3, c4, c5, c6, fun hp => ?_⟩
  obtain ⟨p1, p2, p3, p4, p5⟩ := c7 hp
  subst p2
  exact ⟨p1, rfl, p3, p4, p5⟩

theorem myFree_once (s : Heap) (ptr : Int) :
    (myFree s ptr).2.allocated_once = s.allocated_once := by
  by_cases h : FreeChecks s ptr
  · rw [myFree_of_checks s ptr h]
    exact (coalesce_fields (freedHeap s ptr) ptr).2.2.2.2
  · rw [myFree_of_not_checks s ptr h]

/-- A `myFree` of an allocated block of a `Consistent` heap returns 0 and
leaves a tiling whose blocks are those of the heap, the freed block and its free
neighbours replaced by one free block; the footers of the free blocks are
duplicates of their headers if they were; and the heap is `Consistent` again
unless the freed block is the last one, the word after it being the end
mark. -/
theorem myFree_tiling (s : Heap) (bs : List Int) (ptr : Int) (hc : Consistent s bs)
    (hb : ptr - 4 ∈ blockStarts s.heapStart bs) (ha : GET_ALLOC s.mem (ptr - 4) ≠ 0) :
    (myFree s ptr).1 = 0 ∧
    ∃ bs2, Tiles (myFree s ptr).2.mem s.heapStart bs2 (s.heapStart + s.allocsize) ∧
      (∀ x ∈ blockStarts s.heapStart bs,
        x ∈ blockStarts s.heapStart bs2 ∨ (x = ptr - 4 ∧ GET_PREV s.mem (ptr - 4) = 0) ∨
        (x = nextHeader s ptr ∧ GET_ALLOC s.mem (nextHeader s ptr) = 0)) ∧
      ((∀ x ∈ blockStarts s.heapStart bs, FooterMatches s.mem x) →
        ∀ x ∈ blockStarts s.heapStart bs2, FooterMatches (myFree s ptr).2.mem x) ∧
      (nextHeader s ptr ≠ s.heapStart + s.allocsize → Consistent (myFree s ptr).2 bs2) := by
  obtain ⟨sP0, hsite0⟩ := hc.freeSite ptr hb ha
  have hsite := hsite0.canon
  obtain ⟨pre, post, q1, q2, q3, q4, q5, q6, q7⟩ :=
    site_tiles s ptr _ (s.heapStart + s.allocsize) rfl hc.endMark ha bs s.heapStart hc.tiles
      hc.linked hb (fun _ => hc.first)
  obtain ⟨m0, m1, m2, m3, m4⟩ := myFree_merge s ptr _ hsite
  obtain ⟨f1, f2, f3, f4, f5, f6, f7⟩ := myFree_frame s ptr _ hsite
  have hlB := hc.linkedAt (ptr - 4) hb
  have hnhdef : nextHeader s ptr = ptr - 4 + GET_SIZE s.mem (ptr - 4) := rfl
  generalize mergedStart s ptr (GET_SIZE s.mem (ptr - 4 - 4)) = start at *
  generalize mergedSize s ptr (GET_SIZE s.mem (ptr - 4 - 4)) = total at *
  have hstarts : blockStarts s.heapStart (pre ++ total :: post)
      = blockStarts s.heapStart pre ++ start :: blockStarts (start + total) post := by
    rw [blockStarts_append s.mem pre _ _ start q1]
    rfl
  have hpostsize : ∀ x ∈ blockStarts (start + total) post,
      (myFree s ptr).2.mem x - (myFree s ptr).2.mem x % 4 = s.mem x - s.mem x % 4 ∧
      (myFree s ptr).2.mem x % 2 = s.mem x % 2 ∧
      ((myFree s ptr).2.mem x % 2 = 0 → (myFree s ptr).2.mem x = s.mem x) ∧
      ((myFree s ptr).2.mem x % 8 < 4 ↔ s.mem x % 8 < 4) := by
    intro x hx
    have hbx := blockStarts_bounds s.mem post _ _ q2 x hx
    by_cases hxe : x = start + total
    · rw [hxe, f2]
      by_cases hna : GET_ALLOC s.mem (nextHeader s ptr) ≠ 0
      · have hne : post ≠ [] := by
          intro hp
          rw [hp] at hx
          simp [blockStarts] at hx
        have hpb := (GET_PREV_ne_zero _ _).1 (q7 hne hna)
        have hodd := (GET_ALLOC_ne_zero _ _).1 hna
        rw [if_pos hna, f6 hna]
        exact ⟨by omega, by omega, by omega, by omega⟩
      · rw [if_neg hna]
        exact ⟨by omega, by omega, by omega, by omega⟩
    · rw [f1 x (Or.inr (by omega))]
      exact ⟨rfl, rfl, fun _ => rfl, Iff.rfl⟩
  have hle1 := Tiles_le _ _ _ _ q1
  have hle2 := Tiles_le _ _ _ _ q2
  refine ⟨m0, pre ++ total :: post, ?_, ?_, ?_, ?_⟩
  · refine Tiles_append _ _ _ _ start _ ?_ ⟨by omega, q3, q4, ?_⟩
    · exact Tiles_frame _ _ _ _ _ (fun x _ hx => f1 x (Or.inl hx)) q1
    · exact Tiles_congr _ _ _ _ _ (fun x hx => (hpostsize x hx).1) q2
  · intro x hx
    rw [hstarts]
    exact q6 x hx
  · intro hfm x hx
    rw [hstarts] at hx
    have hold := q5 x hx
    simp only [List.mem_append, List.mem_cons] at hx
    rcases hx with hx | hx | hx
    · -- a block before the merged block
      have hbx := blockStarts_bounds s.mem pre _ _ q1 x hx
      have hf := hfm x hold
      unfold FooterMatches at hf ⊢
      simp only [GET_ALLOC, GET_SIZE, GET] at hf ⊢
      rw [f1 x (Or.inl (by omega)), f1 _ (Or.inl (by omega))]
      exact hf
    · -- the merged block
      unfold FooterMatches
      intro _
      simp only [GET_SIZE, GET]
      rw [hx, m2]
      exact m3
    · -- a block after the merged block
      have hbx := blockStarts_bounds s.mem post _ _ q2 x hx
      obtain ⟨h1, h2, h3, _⟩ := hpostsize x hx
      have hf := hfm x hold
      unfold FooterMatches at hf ⊢
      simp only [GET_ALLOC, GET_SIZE, GET] at hf ⊢
      intro hfree
      have hxeq := h3 hfree
      rw [hxeq, f1 _ (Or.inr (by omega))]
      exact hf (by omega)
  · -- the heap is consistent again
    intro hlast
    obtain ⟨g1, g2, _⟩ := myFree_fields s ptr
    -- the block after the freed block is a block, so its prev_allocated bit is set
    have hNp : GET_PREV s.mem (nextHeader s ptr) ≠ 0 := by
      rw [hnhdef] at hlast ⊢
      exact hlB.2.2.2 hlast ha
    have hclear := m4 hNp
    have hNa : GET_ALLOC s.mem (nextHeader s ptr) ≠ 0 →
        start + total < s.heapStart + s.allocsize := by
      intro hna
      have := f6 hna
      omega
    refine hc.of_blocks g1 g2 (myFree_once s ptr) ?_ ?_ ?_ ?_
    · refine Tiles_append _ _ _ _ start _ ?_ ⟨by omega, q3, q4, ?_⟩
      · exact Tiles_frame _ _ _ _ _ (fun x _ hx => f1 x (Or.inl hx)) q1
      · exact Tiles_congr _ _ _ _ _ (fun x hx => (hpostsize x hx).1) q2
    · -- the end mark
      by_cases hxe : s.heapStart + s.allocsize = start + total
      · rw [hxe, f2]
        by_cases hna : GET_ALLOC s.mem (nextHeader s ptr) ≠ 0
        · have := hNa hna
          omega
        · rw [if_neg hna, ← hxe, hc.endMark]
          rfl
      · rw [f1 _ (Or.inr (by omega))]
        exact hc.endMark
    · -- the first header
      have hfirst := hc.first
      by_cases hxe : s.heapStart = start
      · rw [GET_PREV_congr _ s.mem _ s.heapStart (by rw [hxe]; exact f7)]
        exact hfirst
      · rw [GET_PREV_congr _ s.mem _ s.heapStart (by rw [f1 _ (Or.inl (by omega))])]
        exact hfirst
    · intro x hx
      rw [hstarts] at hx
      have hold := hc.linkedAt x (q5 x hx)
      simp only [List.mem_append, List.mem_cons] at hx
      rcases hx with hx | hx | hx
      · -- a block before the merged block
        have hbx := blockStarts_bounds s.mem pre _ _ q1 x hx
        obtain ⟨o1, o2, o3, o4⟩ := hold
        have hxm := f1 x (Or.inl (by omega))
        have hgs : GET_SIZE (myFree s ptr).2.mem x = GET_SIZE s.mem x := by
          simp only [GET_SIZE, GET, hxm]
        have hga : GET_ALLOC (myFree s ptr).2.mem x = GET_ALLOC s.mem x := by
          simp only [GET_ALLOC, GET, hxm]
        have hsz : GET_SIZE s.mem x = s.mem x - s.mem x % 4 := by
          simp only [GET_SIZE, GET]
          omega
        have hfo : GET_SIZE (myFree s ptr).2.mem (x + GET_SIZE s.mem x - 4)
            = GET_SIZE s.mem (x + GET_SIZE s.mem x - 4) := by
          simp only [GET_SIZE, GET]
          rw [f1 _ (Or.inl (by omega))]
        have hnx : GET_PREV (myFree s ptr).2.mem (x + GET_SIZE s.mem x)
            = GET_PREV s.mem (x + GET_SIZE s.mem x) := by
          apply GET_PREV_congr
          by_cases hxe : x + GET_SIZE s.mem x = start
          · rw [hxe]
            exact f7
          · rw [f1 _ (Or.inl (by omega))]
        unfold LinkedAt
        rw [hgs, hga, hfo, hnx, hxm]
        exact ⟨o1, o2, o3, o4⟩
      · -- the merged block
        have hgs : GET_SIZE (myFree s ptr).2.mem x = total := by
          simp only [GET_SIZE, GET]
          rw [hx]
          exact m2
        have hga : GET_ALLOC (myFree s ptr).2.mem x = 0 := by
          simp only [GET_ALLOC, GET]
          rw [hx]
          exact m1
        unfold LinkedAt
        rw [hgs, hga]
        refine ⟨by rw [hx]; exact f3, fun _ => ?_, fun _ => ?_, fun _ h => absurd rfl h⟩
        · simp only [GET_SIZE, GET]
          rw [hx, m3]
          exact m2
        · simp only [GET_PREV, GET]
          rw [hx, if_neg (by omega)]
      · -- a block after the merged block
        have hbx := blockStarts_bounds s.mem post _ _ q2 x hx
        obtain ⟨h1, h2, h3, h4⟩ := hpostsize x hx
        obtain ⟨o1, o2, o3, o4⟩ := hold
        have hgs : GET_SIZE (myFree s ptr).2.mem x = GET_SIZE s.mem x := by
          simp only [GET_SIZE, GET]
          omega
        have hga : GET_ALLOC (myFree s ptr).2.mem x = GET_ALLOC s.mem x := by
          simp only [GET_ALLOC, GET]
          exact h2
        have hsz : GET_SIZE s.mem x = s.mem x - s.mem x % 4 := by
          simp only [GET_SIZE, GET]
          omega
        have hfo : GET_SIZE (myFree s ptr).2.mem (x + GET_SIZE s.mem x - 4)
            = GET_SIZE s.mem (x + GET_SIZE s.mem x - 4) := by
          simp only [GET_SIZE, GET]
          rw [f1 _ (Or.inr (by omega))]
        have hnx : GET_PREV (myFree s ptr).2.mem (x + GET_SIZE s.mem x)
            = GET_PREV s.mem (x + GET_SIZE s.mem x) := by
          apply GET_PREV_congr
          rw [f1 _ (Or.inr (by omega))]
        unfold LinkedAt
        rw [hgs, hga, hfo, hnx]
        exact ⟨h4.2 o1, o2, o3, o4⟩

/-- Taking a usable block of a well-formed heap leaves a well-formed heap, in
which the footers of the free blocks are duplicates of their headers if those
of the free blocks other than the block taken were, and which is `Consistent` if
the heap was, unless the block taken has exactly the requested size and is not
the last block. -/
theorem chosenHeap_step (s : Heap) (pre post : List Int) (rb b : Int)
    (hwf : WellFormed s pre post) (hb : b ∈ scanOrder s pre post)
    (hu : Usable s.mem rb b) (h8 : 8 ≤ rb) (hr : rb % 8 = 0) :
    ∃ pre2 post2, WellFormed (chosenHeap s rb b) pre2 post2 ∧
      ((∀ x ∈ blockStarts s.heapStart (pre ++ post), x ≠ b → FooterMatches s.mem x) →
        ∀ x ∈ blockStarts s.heapStart (pre2 ++ post2),
          FooterMatches (chosenHeap s rb b).mem x) ∧
      (Consistent s (pre ++ post) →
        (s.mem b - s.mem b % 4 = rb → b + rb = s.heapStart + s.allocsize) →
        Consistent (chosenHeap s rb b) (pre2 ++ post2)) := by
  obtain ⟨ht, hmem⟩ := hwf.tiles
  obtain ⟨l1, sz, l2, hbs, t1, t2⟩ := Tiles_split_at _ _ _ _ b ht ((hmem b).1 hb)
  have hsz := t2.1
  have hpos := t2.2.1
  have hs8 := t2.2.2.1
  have hle := Tiles_le _ _ _ _ t2.2.2.2
  have hgp : GET_PREV s.mem b = 0 ∨ GET_PREV s.mem b = 2 := by
    unfold GET_PREV
    split_ifs
    · exact Or.inr rfl
    · exact Or.inl rfl
  have hold : blockStarts s.heapStart (pre ++ post)
      = blockStarts s.heapStart l1 ++ b :: blockStarts (b + sz) l2 := by
    rw [hbs, blockStarts_append s.mem l1 _ _ b t1]
    rfl
  -- the blocks other than the block taken, and their footers, lie outside that block
  have hkeep : ∀ (m2 : Int → Int), (∀ x, (x < b ∨ b + sz ≤ x) → m2 x = s.mem x) →
      (∀ x ∈ blockStarts s.heapStart (pre ++ post), x ≠ b → FooterMatches s.mem x) →
      ∀ x, (x ∈ blockStarts s.heapStart l1 ∨ x ∈ blockStarts (b + sz) l2) →
        FooterMatches m2 x := by
    intro m2 hm2 hfm x hx
    have hxin : x ∈ blockStarts s.heapStart (pre ++ post) := by
      rw [hold]
      simp only [List.mem_append, List.mem_cons]
      tauto
    rcases hx with hx | hx
    · have hbx := blockStarts_bounds s.mem l1 _ _ t1 x hx
      have hf := hfm x hxin (by omega)
      unfold FooterMatches at hf ⊢
      simp only [GET_ALLOC, GET_SIZE, GET] at hf ⊢
      rw [hm2 x (Or.inl (by omega)), hm2 _ (Or.inl (by omega))]
      exact hf
    · have hbx := blockStarts_bounds s.mem l2 _ _ t2.2.2.2 x hx
      have hf := hfm x hxin (by omega)
      unfold FooterMatches at hf ⊢
      simp only [GET_ALLOC, GET_SIZE, GET] at hf ⊢
      rw [hm2 x (Or.inr (by omega)), hm2 _ (Or.inr (by omega))]
      exact hf
  have hpbit : ∀ v : Int, v = rb + 1 + GET_PREV s.mem b → (2 ≤ v % 4 ↔ 2 ≤ s.mem b % 4) := by
    intro v hv
    rw [hv]
    unfold GET_PREV GET
    split_ifs with c <;> omega
  -- the blocks other than the block taken stay linked
  have hkeepL : ∀ (m2 : Int → Int), (∀ x, (x < b ∨ b + sz ≤ x) → m2 x = s.mem x) →
      (2 ≤ m2 b % 4 ↔ 2 ≤ s.mem b % 4) → Consistent s (pre ++ post) →
      ∀ x, (x ∈ blockStarts s.heapStart l1 ∨ x ∈ blockStarts (b + sz) l2) →
        LinkedAt m2 (s.heapStart + s.allocsize) x := by
    intro m2 hm2 hp2 hc x hx
    have hxin : x ∈ blockStarts s.heapStart (pre ++ post) := by
      rw [hold]
      simp only [List.mem_append, List.mem_cons]
      tauto
    obtain ⟨o1, o2, o3, o4⟩ := hc.linkedAt x hxin
    rcases hx with hx | hx
    · have hbx := blockStarts_bounds s.mem l1 _ _ t1 x hx
      have hxm := hm2 x (Or.inl (by omega))
      have hgs : GET_SIZE m2 x = GET_SIZE s.mem x := by simp only [GET_SIZE, GET, hxm]
      have hga : GET_ALLOC m2 x = GET_ALLOC s.mem x := by simp only [GET_ALLOC, GET, hxm]
      have hsz2 : GET_SIZE s.mem x = s.mem x - s.mem x % 4 := by
        simp only [GET_SIZE, GET]
        omega
      have hfo : GET_SIZE m2 (x + GET_SIZE s.mem x - 4)
          = GET_SIZE s.mem (x + GET_SIZE s.mem x - 4) := by
        simp only [GET_SIZE, GET]
        rw [hm2 _ (Or.inl (by omega))]
      have hnx : GET_PREV m2 (x + GET_SIZE s.mem x) = GET_PREV s.mem (x + GET_SIZE s.mem x) := by
        apply GET_PREV_congr
        by_cases hxe : x + GET_SIZE s.mem x = b
        · rw [hxe]
          exact hp2
        · rw [hm2 _ (Or.inl (by omega))]
      unfold LinkedAt
      rw [hgs, hga, hfo, hnx, hxm]
      exact ⟨o1, o2, o3, o4⟩
    · have hbx := blockStarts_bounds s.mem l2 _ _ t2.2.2.2 x hx
      have hxm := hm2 x (Or.inr (by omega))
      have hgs : GET_SIZE m2 x = GET_SIZE s.mem x := by simp only [GET_SIZE, GET, hxm]
      have hga : GET_ALLOC m2 x = GET_ALLOC s.mem x := by simp only [GET_ALLOC, GET, hxm]
      have hsz2 : GET_SIZE s.mem x = s.mem x - s.mem x % 4 := by
        simp only [GET_SIZE, GET]
        omega
      have hfo : GET_SIZE m2 (x + GET_SIZE s.mem x - 4)
          = GET_SIZE s.mem (x + GET_SIZE s.mem x - 4) := by
        simp only [GET_SIZE, GET]
        rw [hm2 _ (Or.inr (by omega))]
      have hnx : GET_PREV m2 (x + GET_SIZE s.mem x) = GET_PREV s.mem (x + GET_SIZE s.mem x) := by
        apply GET_PREV_congr
        rw [hm2 _ (Or.inr (by omega))]
      unfold LinkedAt
      rw [hgs, hga, hfo, hnx, hxm]
      exact ⟨o1, o2, o3, o4⟩
  have hfirstB : ∀ (m2 : Int → Int), (∀ x, (x < b ∨ b + sz ≤ x) → m2 x = s.mem x) →
      (2 ≤ m2 b % 4 ↔ 2 ≤ s.mem b % 4) → Consistent s (pre ++ post) →
      GET_PREV m2 s.heapStart ≠ 0 := by
    intro m2 hm2 hp2 hc
    have hfirst := hc.first
    have hle1 := Tiles_le _ _ _ _ t1
    by_cases hxe : s.heapStart = b
    · rw [GET_PREV_congr m2 s.mem _ s.heapStart (by rw [hxe]; exact hp2)]
      exact hfirst
    · rw [GET_PREV_congr m2 s.mem _ s.heapStart (by rw [hm2 _ (Or.inl (by omega))])]
      exact hfirst
  unfold chosenHeap
  split_ifs with he
  · -- perfect fit: the same blocks, the cursor on the block taken
    have hmemx : ∀ x, (x < b ∨ b + sz ≤ x) → (exactHeap s rb b).mem x = s.mem x := by
      intro x hx
      simp only [exactHeap]
      rw [write_ne _ _ _ _ (by omega)]
    have hhead : (exactHeap s rb b).mem b = rb + 1 + GET_PREV s.mem b := by
      simp only [exactHeap, write_eq]
    have hw2 : WellFormed (exactHeap s rb b) l1 (sz :: l2) := by
      refine ⟨hwf.start, ?_, by simp, ?_, ?_⟩
      · show Tiles (write s.mem b _) s.heapStart l1 b
        exact Tiles_frame _ _ _ _ _ (fun x _ hx => write_ne _ _ _ _ (by omega)) t1
      · show Tiles (write s.mem b _) b (sz :: l2) (s.heapStart + s.allocsize)
        refine ⟨?_, hpos, hs8, ?_⟩
        · rw [write_eq]
          omega
        · exact Tiles_frame _ _ _ _ _ (fun x hx _ => write_ne _ _ _ _ (by omega)) t2.2.2.2
      · show write s.mem b _ (s.heapStart + s.allocsize) = 1
        rw [write_ne _ _ _ _ (by omega)]
        exact hwf.endMark
    refine ⟨l1, sz :: l2, hw2, ?_, ?_⟩
    · intro hfm x hx
      rw [blockStarts_append s.mem l1 _ _ b t1] at hx
      simp only [blockStarts, List.mem_append, List.mem_cons] at hx
      rcases hx with hx | hx | hx
      · exact hkeep _ hmemx hfm x (Or.inl hx)
      · intro hfree
        simp only [GET_ALLOC, GET] at hfree
        rw [hx, hhead] at hfree
        omega
      · exact hkeep _ hmemx hfm x (Or.inr hx)
    · intro hc hlast
      have hlastB := hlast he
      have hp2 := hpbit _ hhead
      refine hc.of_blocks rfl rfl rfl hw2.tiles.1 hw2.endMark (hfirstB _ hmemx hp2 hc) ?_
      intro x hx
      rw [blockStarts_append s.mem l1 _ _ b t1] at hx
      simp only [blockStarts, List.mem_append, List.mem_cons] at hx
      rcases hx with hx | hx | hx
      · exact hkeepL _ hmemx hp2 hc x (Or.inl hx)
      · have hgs : GET_SIZE (exactHeap s rb b).mem x = rb := by
          simp only [GET_SIZE, GET]
          rw [hx, hhead]
          omega
        have hga : GET_ALLOC (exactHeap s rb b).mem x ≠ 0 := by
          simp only [GET_ALLOC, GET]
          rw [hx, hhead]
          omega
        unfold LinkedAt
        rw [hgs]
        refine ⟨?_, fun h => absurd h hga, fun h => absurd h hga, fun h => ?_⟩
        · rw [hx, hhead]
          omega
        · rw [hx] at h
          exact absurd hlastB h
      · exact hkeepL _ hmemx hp2 hc x (Or.inr hx)
  · -- split: the block is replaced by two, the cursor on the remainder
    obtain ⟨hfreeb, h | h⟩ := hu
    · exact absurd h he
    rw [hsz] at h
    have hmemx : ∀ x, (x < b ∨ b + sz ≤ x) → (splitHeap s rb b).mem x = s.mem x := by
      intro x hx
      simp only [splitHeap, hsz]
      rw [write_ne _ _ _ _ (by omega), write_ne _ _ _ _ (by omega),
        write_ne _ _ _ _ (by omega)]
    have hhead : (splitHeap s rb b).mem b = rb + 1 + GET_PREV s.mem b := by
      simp only [splitHeap, hsz]
      rw [write_ne _ _ _ _ (by omega), write_ne _ _ _ _ (by omega), write_eq]
    have hrem : (splitHeap s rb b).mem (b + rb) = sz - rb + 2 := by
      simp only [splitHeap, hsz]
      rw [write_ne _ _ _ _ (by omega), write_eq]
    have hfoot : (splitHeap s rb b).mem (b + sz - 4) = sz - rb + 2 := by
      simp only [splitHeap, hsz]
      rw [write_eq]
    have hpre2 : Tiles (splitHeap s rb b).mem s.heapStart (l1 ++ [rb]) (b + rb) := by
      refine Tiles_append _ _ _ _ b _ ?_ ?_
      · exact Tiles_frame _ _ _ _ _ (fun x _ hx => hmemx x (Or.inl hx)) t1
      · refine ⟨?_, by omega, hr, rfl⟩
        rw [hhead]
        omega
    have hw2 : WellFormed (splitHeap s rb b) (l1 ++ [rb]) ((sz - rb) :: l2) := by
      refine ⟨hwf.start, hpre2, by simp, ?_, ?_⟩
      · show Tiles (splitHeap s rb b).mem (b + rb) ((sz - rb) :: l2)
          (s.heapStart + s.allocsize)
        refine ⟨?_, by omega, by omega, ?_⟩
        · rw [hrem]
          omega
        · have e1 : b + rb + (sz - rb) = b + sz := by omega
          rw [e1]
          exact Tiles_frame _ _ _ _ _ (fun x hx _ => hmemx x (Or.inr hx)) t2.2.2.2
      · show (splitHeap s rb b).mem (s.heapStart + s.allocsize) = 1
        rw [hmemx _ (Or.inr hle)]
        exact hwf.endMark
    refine ⟨l1 ++ [rb], (sz - rb) :: l2, hw2, ?_, ?_⟩
    · intro hfm x hx
      rw [blockStarts_append _ (l1 ++ [rb]) _ _ (b + rb) hpre2,
        blockStarts_append s.mem l1 _ _ b t1] at hx
      have e1 : b + rb + (sz - rb) = b + sz := by omega
      simp only [blockStarts, List.mem_append, List.mem_cons, e1, List.mem_nil_iff,
        or_false] at hx
      rcases hx with (hx | hx) | hx | hx
      · exact hkeep _ hmemx hfm x (Or.inl hx)
      · intro hfree
        simp only [GET_ALLOC, GET] at hfree
        rw [hx, hhead] at hfree
        omega
      · intro _
        simp only [GET_SIZE, GET]
        rw [hx, hrem]
        rw [show b + rb + (sz - rb + 2 - (sz - rb + 2) % 8) - 4 = b + sz - 4 by omega]
        exact hfoot
      · exact hkeep _ hmemx hfm x (Or.inr hx)
    · intro hc _
      have hp2 := hpbit _ hhead
      have hlb := hc.linkedAt b (by
        rw [hold]
        simp)
      refine hc.of_blocks rfl rfl rfl hw2.tiles.1 hw2.endMark (hfirstB _ hmemx hp2 hc) ?_
      intro x hx
      rw [blockStarts_append _ (l1 ++ [rb]) _ _ (b + rb) hpre2,
        blockStarts_append s.mem l1 _ _ b t1] at hx
      have e1 : b + rb + (sz - rb) = b + sz := by omega
      simp only [blockStarts, List.mem_append, List.mem_cons, e1, List.mem_nil_iff,
        or_false] at hx
      rcases hx with (hx | hx) | hx | hx
      · exact hkeepL _ hmemx hp2 hc x (Or.inl hx)
      · -- the block taken
        have hgs : GET_SIZE (splitHeap s rb b).mem x = rb := by
          simp only [GET_SIZE, GET]
          rw [hx, hhead]
          omega
        have hga : GET_ALLOC (splitHeap s rb b).mem x ≠ 0 := by
          simp only [GET_ALLOC, GET]
          rw [hx, hhead]
          omega
        unfold LinkedAt
        rw [hgs]
        refine ⟨?_, fun h => absurd h hga, fun h => absurd h hga, fun _ _ => ?_⟩
        · rw [hx, hhead]
          omega
        · rw [hx, GET_PREV_ne_zero, hrem]
          omega
      · -- the remainder
        have hgs : GET_SIZE (splitHeap s rb b).mem x = sz - rb := by
          simp only [GET_SIZE, GET]
          rw [hx, hrem]
          omega
        have hga : GET_ALLOC (splitHeap s rb b).mem x = 0 := by
          simp only [GET_ALLOC, GET]
          rw [hx, hrem]
          omega
        have hbfree : GET_ALLOC s.mem b = 0 := by
          simp only [GET_ALLOC, GET]
          exact hfreeb
        have hbsz : GET_SIZE s.mem b = sz := by
          simp only [GET_SIZE, GET]
          omega
        unfold LinkedAt
        rw [hgs, hga, hx]
        refine ⟨?_, fun _ => ?_, fun _ => ?_, fun _ h => absurd rfl h⟩
        · rw [hrem]
          omega
        · simp only [GET_SIZE, GET]
          rw [show b + rb + (sz - rb) - 4 = b + sz - 4 by omega, hfoot]
          omega
        · have := hlb.2.2.1 hbfree
          rw [hbsz] at this
          rw [e1, GET_PREV_congr _ s.mem _ (b + sz) (by rw [hmemx _ (Or.inr (le_refl _))])]
          exact this
      · exact hkeepL _ hmemx hp2 hc x (Or.inr hx)

theorem chosenHeap_fields (s : Heap) (rb b : Int) :
    (chosenHeap s rb b).heapStart = s.heapStart ∧
    (chosenHeap s rb b).allocsize = s.allocsize := by
  unfold chosenHeap
  split_ifs <;> exact ⟨rfl, rfl⟩

theorem consistent_cursorHeap {s : Heap} {bs : List Int} (hc : Consistent s bs) :
    Consistent (cursorHeap s) bs := by
  unfold cursorHeap
  split_ifs
  · exact ⟨hc.aligned, ⟨hc.region.once, hc.region.start, hc.region.size, hc.region.top⟩,
      hc.tiles, hc.endMark, hc.first, hc.linked⟩
  · exact hc

/-- On a well-formed heap every `myAlloc` call returns within one iteration per
block and leaves a well-formed heap; a call that fails leaves the memory as it
is; the footers of the free blocks are duplicates of their headers after the
call if, before it, those of the free blocks other than the block taken were;
and a `Consistent` heap stays so unless the call takes a block of exactly the
requested size that is not the last block. -/
theorem myAlloc_step (s : Heap) (pre post : List Int) (size : Int)
    (hwf : WellFormed (cursorHeap s) pre post)
    (fuel : Nat) (hfuel : pre.length + post.length ≤ fuel) :
    ∃ p t pre2 post2, myAlloc fuel s size = some (p, t) ∧ WellFormed t pre2 post2 ∧
      (p = 0 → t.mem = s.mem) ∧
      ((∀ x ∈ blockStarts s.heapStart (pre ++ post), x ≠ p - 4 → FooterMatches s.mem x) →
        ∀ x ∈ blockStarts t.heapStart (pre2 ++ post2), FooterMatches t.mem x) ∧
      (Consistent s (pre ++ post) →
        ¬ (p ≠ 0 ∧ s.mem (p - 4) - s.mem (p - 4) % 4 = requestedBlocksize size ∧
          p - 4 + requestedBlocksize size ≠ s.heapStart + s.allocsize) →
        Consistent t (pre2 ++ post2)) := by
  obtain ⟨hm, hh, hasz⟩ := cursorHeap_fields s
  have hstay : (∀ x ∈ blockStarts s.heapStart (pre ++ post), x ≠ 0 - 4 →
      FooterMatches s.mem x) →
      ∀ x ∈ blockStarts (cursorHeap s).heapStart (pre ++ post),
        FooterMatches (cursorHeap s).mem x := by
    intro hfm x hx
    rw [hh] at hx
    rw [hm]
    have hbx := blockStarts_bounds _ _ _ _ hwf.tiles.1 x (by rw [hh]; exact hx)
    have := hwf.start
    exact hfm x hx (by omega)
  by_cases hsize : 0 < size ∧ size ≤ s.allocsize
  · obtain ⟨r8, rge, _, _, _⟩ := requestedBlocksize_facts size hsize.1
    rw [myAlloc_nextFit s pre post size hwf hsize fuel hfuel]
    unfold nextFit
    cases hf : (scanOrder (cursorHeap s) pre post).find?
        (fun a => decide (Usable (cursorHeap s).mem (requestedBlocksize size) a)) with
    | none =>
      exact ⟨0, cursorHeap s, pre, post, rfl, hwf, fun _ => hm, hstay,
        fun hc _ => consistent_cursorHeap hc⟩
    | some b =>
      have hu : Usable (cursorHeap s).mem (requestedBlocksize size) b := by
        simpa using List.find?_some hf
      obtain ⟨pre2, post2, h2, h3, h4⟩ := chosenHeap_step (cursorHeap s) pre post _ b hwf
        (List.mem_of_find?_eq_some hf) hu rge r8
      have hbx := blockStarts_bounds _ _ _ _ hwf.tiles.1 b
        ((hwf.tiles.2 b).1 (List.mem_of_find?_eq_some hf))
      have := hwf.start
      refine ⟨b + 4, _, pre2, post2, rfl, h2, fun h0 => by omega, ?_, ?_⟩
      · intro hfm
        rw [(chosenHeap_fields _ _ _).1]
        apply h3
        rw [hh, hm]
        intro x hx hne
        exact hfm x hx (by omega)
      · intro hc hns
        apply h4 (consistent_cursorHeap hc)
        rw [hm, hh, hasz]
        intro hex
        by_contra hne
        apply hns
        rw [show b + 4 - 4 = b by omega]
        exact ⟨by omega, hex, hne⟩
  · refine ⟨0, cursorHeap s, pre, post, ?_, hwf, fun _ => hm, hstay,
      fun hc _ => consistent_cursorHeap hc⟩
    rw [myAlloc_cursorHeap]
    split_ifs with h1 h2
    · rfl
    · rfl
    · exact absurd ⟨by omega, by omega⟩ hsize

/-! ## The cursor along the calls -/

/-- C19 as stated fails.  After `myInit(4096)` the free block at `heapStart`
has the header 4090, size 4088 with the prev_allocated bit set, and its footer,
the word in its last 4 bytes, is 4088, without that bit.  And after
`myInit(4096); p = myAlloc(4); myFree(p); myAlloc(4)`, which return 4104, 0 and
4112, the second `myAlloc` having started from a cursor inside the free block,
the free block at `heapStart` has the header 4090 and the footer 4074. -/
theorem C19_footer_differs :
    ((myInit Heap.fresh 4096 3 (some 4096) 4096).1 = 0 ∧
      GET_ALLOC initHeap.mem initHeap.heapStart = 0 ∧
      GET_SIZE initHeap.mem initHeap.heapStart = 4088 ∧
      initHeap.mem initHeap.heapStart = 4090 ∧
      initHeap.mem (initHeap.heapStart + 4088 - 4) = 4088 ∧
      ¬ FooterMatches initHeap.mem initHeap.heapStart) ∧
    ((runCalls 1 initHeap [Call.alloc 4, Call.free 4104, Call.alloc 4]).1
        = [some 4104, some 0, some 4112] ∧
      GET_ALLOC (runCalls 1 initHeap [Call.alloc 4, Call.free 4104, Call.alloc 4]).2.mem
        initHeap.heapStart = 0 ∧
      GET_SIZE (runCalls 1 initHeap [Call.alloc 4, Call.free 4104, Call.alloc 4]).2.mem
        initHeap.heapStart = 4088 ∧
      (runCalls 1 initHeap [Call.alloc 4, Call.free 4104, Call.alloc 4]).2.mem
        initHeap.heapStart = 4090 ∧
      (runCalls 1 initHeap [Call.alloc 4, Call.free 4104, Call.alloc 4]).2.mem
        (initHeap.heapStart + 4088 - 4) = 4074) := by
  decide

/-- C19, amended.  After a first `myInit` that succeeds the footer of the one
free block holds the size of the block without flag bits while the header holds
the size plus 2, the prev_allocated bit.  On a well-formed heap, whose blocks
tile the region and whose cursor is `NULL` or the start of a block, every
`myAlloc` call returns within one iteration per block; a call that fails leaves
the memory as it is, and after the call the footer of every free block is a
duplicate of its header if, before it, those of the free blocks other than the
block the call takes were; the heap stays `Consistent` unless the call takes a
block of exactly the requested size that is not the last block.  In a
`Consistent` heap in which the footer of every free block is a duplicate of its
header, every `myFree` of an allocated block returns 0 and leaves a tiling in
which the footer of every free block is a duplicate of its header; the heap
stays `Consistent` unless the freed block is the last block. -/
theorem C19_footers_match :
    (∀ (s : Heap) (P fd p sizeOfRegion : Int), s.allocated_once = 0 → 0 < sizeOfRegion →
      0 < P → fd ≠ -1 → roundUpTo sizeOfRegion P % 8 = 0 → 16 ≤ roundUpTo sizeOfRegion P →
      roundUpTo sizeOfRegion P ≤ 2147483647 →
      (myInit s P fd (some p) sizeOfRegion).2.mem (p + 4) = roundUpTo sizeOfRegion P - 8 + 2 ∧
      (myInit s P fd (some p) sizeOfRegion).2.mem (p + 4 + (roundUpTo sizeOfRegion P - 8) - 4)
        = roundUpTo sizeOfRegion P - 8) ∧
    (∀ (s : Heap) (pre post : List Int) (size : Int) (fuel : Nat),
      WellFormed (cursorHeap s) pre post → pre.length + post.length ≤ fuel →
      ∃ p t pre2 post2, myAlloc fuel s size = some (p, t) ∧ WellFormed t pre2 post2 ∧
        (p = 0 → t.mem = s.mem) ∧
        ((∀ x ∈ blockStarts s.heapStart (pre ++ post), x ≠ p - 4 → FooterMatches s.mem x) →
          ∀ x ∈ blockStarts t.heapStart (pre2 ++ post2), FooterMatches t.mem x) ∧
        (Consistent s (pre ++ post) →
          ¬ (p ≠ 0 ∧ s.mem (p - 4) - s.mem (p - 4) % 4 = requestedBlocksize size ∧
            p - 4 + requestedBlocksize size ≠ s.heapStart + s.allocsize) →
          Consistent t (pre2 ++ post2))) ∧
    (∀ (s : Heap) (bs : List Int) (ptr : Int), Consistent s bs →
      ptr - 4 ∈ blockStarts s.heapStart bs → GET_ALLOC s.mem (ptr - 4) ≠ 0 →
      (∀ x ∈ blockStarts s.heapStart bs, FooterMatches s.mem x) →
      (myFree s ptr).1 = 0 ∧
      ∃ bs2, Tiles (myFree s ptr).2.mem (myFree s ptr).2.heapStart bs2
          ((myFree s ptr).2.heapStart + (myFree s ptr).2.allocsize) ∧
        (∀ x ∈ blockStarts (myFree s ptr).2.heapStart bs2,
          FooterMatches (myFree s ptr).2.mem x) ∧
        (nextHeader s ptr ≠ s.heapStart + s.allocsize → Consistent (myFree s ptr).2 bs2)) := by
  refine ⟨?_, ?_, ?_⟩
  · intro s P fd p sizeOfRegion hfirst hsize hP hfd h8 h16 hmax
    rw [myInit_ok s P fd p sizeOfRegion hfirst hsize hP hfd h16 hmax]
    generalize roundUpTo sizeOfRegion P = R at h8 h16 hmax
    constructor
    · show write _ _ _ (p + 4) = R - 8 + 2
      rw [write_ne _ _ _ _ (by omega), write_eq]
    · show write _ _ _ (p + 4 + (R - 8) - 4) = R - 8
      rw [write_eq]
  · intro s pre post size fuel hwf hfuel
    exact myAlloc_step s pre post size hwf fuel hfuel
  · intro s bs ptr hc hb ha hfm
    obtain ⟨h0, bs2, ht, _, hf, hcons⟩ := myFree_tiling s bs ptr hc hb ha
    obtain ⟨f1, f2, _⟩ := myFree_fields s ptr
    rw [f1, f2]
    exact ⟨h0, bs2, ht, hf hfm, hcons⟩

/-- C19, amended, at `myInit(4096)`; at the `myAlloc(4)` after it, which takes
the one block, so that nothing is asked of the footers before the call and the
footers of the blocks of 8 and 4080 bytes it leaves match; and at
`myFree(4112)` in `threeBlocksHeap`, where the footers of the free blocks at
4100 and 4124 are duplicates of their headers, as are those of the free blocks
at 4100 and 4124 after the call. -/
theorem C19_footers_match_witness :
    ((myInit Heap.fresh 4096 3 (some 4096) 4096).2.mem (4096 + 4)
        = roundUpTo 4096 4096 - 8 + 2 ∧
      (myInit Heap.fresh 4096 3 (some 4096) 4096).2.mem
        (4096 + 4 + (roundUpTo 4096 4096 - 8) - 4) = roundUpTo 4096 4096 - 8) ∧
    (∃ p t pre2 post2, myAlloc 1 initHeap 4 = some (p, t) ∧ WellFormed t pre2 post2 ∧
      (p = 0 → t.mem = initHeap.mem) ∧
      ((∀ x ∈ blockStarts initHeap.heapStart ([] ++ [4088]), x ≠ p - 4 →
          FooterMatches initHeap.mem x) →
        ∀ x ∈ blockStarts t.heapStart (pre2 ++ post2), FooterMatches t.mem x) ∧
      (Consistent initHeap ([] ++ [4088]) →
        ¬ (p ≠ 0 ∧ initHeap.mem (p - 4) - initHeap.mem (p - 4) % 4 = requestedBlocksize 4 ∧
          p - 4 + requestedBlocksize 4 ≠ initHeap.heapStart + initHeap.allocsize) →
        Consistent t (pre2 ++ post2))) ∧
    (∀ x ∈ blockStarts 4100 [8, 4080],
      FooterMatches (runCalls 1 initHeap [Call.alloc 4]).2.mem x) ∧
    ((∀ x ∈ blockStarts threeBlocksHeap.heapStart [8, 8, 8, 4064],
        FooterMatches threeBlocksHeap.mem x) ∧
      (∀ x ∈ blockStarts 4100 [16, 8, 4064],
        FooterMatches (myFree threeBlocksHeap 4112).2.mem x) ∧
      (myFree threeBlocksHeap 4112).1 = 0 ∧
      ∃ bs2, Tiles (myFree threeBlocksHeap 4112).2.mem (myFree threeBlocksHeap 4112).2.heapStart
          bs2 ((myFree threeBlocksHeap 4112).2.heapStart
            + (myFree threeBlocksHeap 4112).2.allocsize) ∧
        (∀ x ∈ blockStarts (myFree threeBlocksHeap 4112).2.heapStart bs2,
          FooterMatches (myFree threeBlocksHeap 4112).2.mem x) ∧
        (nextHeader threeBlocksHeap 4112
            ≠ threeBlocksHeap.heapStart + threeBlocksHeap.allocsize →
          Consistent (myFree threeBlocksHeap 4112).2 bs2)) :=
  ⟨C19_footers_match.1 Heap.fresh 4096 3 4096 4096 (by decide) (by decide) (by decide)
      (by decide) (by decide) (by decide) (by decide),
    C19_footers_match.2.1 initHeap [] [4088] 4 1 cursorHeap_init_wellFormed (by decide),
    by decide, by decide, by decide,
    C19_footers_match.2.2 threeBlocksHeap [8, 8, 8, 4064] 4112 threeBlocksHeap_consistent
      (by decide) (by decide) (by decide)⟩

end MyHeap
